import Mathlib

/-!
# CPH LeetCode helper: comparator, test runner and generated drivers

A shallow embedding of `src/backend/executor.js` (`CodeExecutor.compareOutputs`,
`runTests`, `executeTest`) and of the decoders and encoders that
`src/backend/utils/fileHandler.js` writes into the C++, Java and Python drivers.

Strings are lists of characters.  The JavaScript built-ins the comparator calls
(`JSON.parse`, `JSON.stringify`, `Number`, `isNaN`) are modelled after ECMA-262;
numbers are IEEE-754 doubles, kept exactly as dyadic rationals.
-/

namespace CPH

/-- Text: a string as the list of its characters. -/
abbrev Str := List Char

/-! ## JavaScript string primitives -/

/-- The regular-expression class `\s` of JavaScript (WhiteSpace and LineTerminator). -/
def isJsSpace (c : Char) : Bool :=
  let n := c.toNat
  n == 9 || n == 10 || n == 11 || n == 12 || n == 13 || n == 32 || n == 0xA0 || n == 0x1680
    || (0x2000 ≤ n && n ≤ 0x200A) || n == 0x2028 || n == 0x2029 || n == 0x202F
    || n == 0x205F || n == 0x3000 || n == 0xFEFF

/-- `s.replace(/\s+/g, '')`: every whitespace character is removed. -/
def stripWs (s : Str) : Str := s.filter (fun c => !isJsSpace c)

/-- `s.startsWith(c)` for a one-character string. -/
def startsWithChar (s : Str) (c : Char) : Bool := s.head? == some c

/-- `s.endsWith(c)` for a one-character string. -/
def endsWithChar (s : Str) (c : Char) : Bool := s.getLast? == some c

/-- `s.includes(sub)`. -/
def includes : Str → Str → Bool
  | [], sub => sub.isEmpty
  | c :: cs, sub => sub.isPrefixOf (c :: cs) || includes cs sub

/-- `s.toLowerCase()` on the ASCII letters.  A character outside ASCII never lowers to
one of the ASCII characters that `compareOutputs` looks for, so the two `includes`
tests of the comparator see the same answer as under full Unicode lowering. -/
def toLowerCase (s : Str) : Str := s.map Char.toLower

/-- `s.trim()`: whitespace (the class `\s`) removed at both ends. -/
def trim (s : Str) : Str := ((s.dropWhile isJsSpace).reverse.dropWhile isJsSpace).reverse

/-- `s.slice(1, -1)`: the text without its first and its last character. -/
def slice1 (s : Str) : Str := (s.drop 1).dropLast

/-- `s.split(sep)` of JavaScript for a one-character separator: empty pieces are kept
and the empty text gives one empty piece. -/
def splitOn (sep : Char) : Str → List Str
  | [] => [[]]
  | c :: cs =>
    if c = sep then [] :: splitOn sep cs
    else match splitOn sep cs with
      | [] => [[c]]
      | h :: t => (c :: h) :: t

/-- The UTF-16 code units of a character (JavaScript strings are sequences of them). -/
def utf16 (c : Char) : List Nat :=
  let n := c.toNat
  if n < 0x10000 then [n]
  else [0xD800 + (n - 0x10000) / 0x400, 0xDC00 + (n - 0x10000) % 0x400]

/-- The UTF-16 code units of a text. -/
def toUtf16 (s : Str) : List Nat := s.flatMap utf16

/-! ## Decimal numerals -/

/-- The character of a decimal digit. -/
def digitChar (d : Nat) : Char := Char.ofNat (48 + d % 10)

/-- Decimal digits of `n`, most significant first, pushed in front of `acc`. -/
def natDigitsAux : Nat → Nat → Str → Str
  | 0, _, acc => acc
  | f + 1, n, acc =>
    if n < 10 then digitChar n :: acc
    else natDigitsAux f (n / 10) (digitChar (n % 10) :: acc)

/-- The decimal numeral of a natural number. -/
def natToDec (n : Nat) : Str := natDigitsAux (n + 1) n []

/-- The decimal numeral of an integer, with a leading `-` when negative. -/
def intToDec : Int → Str
  | .ofNat n => natToDec n
  | .negSucc n => '-' :: natToDec (n + 1)

/-- Is the character one of `0` .. `9`? -/
def isDigit (c : Char) : Bool := 48 ≤ c.toNat && c.toNat ≤ 57

/-- Value of a decimal digit character. -/
def digitVal (c : Char) : Nat := c.toNat - 48

/-- Reads the longest run of decimal digits: the digits read and the rest. -/
def spanDigits : Str → Str × Str
  | [] => ([], [])
  | c :: cs =>
    if isDigit c then ((spanDigits cs).1.cons c, (spanDigits cs).2) else ([], c :: cs)

/-- Value of a run of decimal digits, continuing from `acc`. -/
def digitsVal (acc : Nat) : Str → Nat
  | [] => acc
  | c :: cs => digitsVal (acc * 10 + digitVal c) cs

/-! ## JavaScript numbers -/

/-- A Number value.  `fin n k` is the finite double `n / 2 ^ k`, with `n` odd whenever
`k > 0`, so that equal doubles have equal representations; `fin 0 0` is `+0`. -/
inductive JSNumber
  | fin (n : Int) (k : Nat)
  | negZero
  | posInf
  | negInf
  | nan
  deriving DecidableEq, Repr

/-- Number of binary digits of `n`, with fuel. -/
def bitLenAux : Nat → Nat → Nat
  | 0, _ => 0
  | f + 1, n => if n = 0 then 0 else bitLenAux f (n / 2) + 1

/-- Number of binary digits of `n` (`0` for `0`). -/
def bitLen (n : Nat) : Nat := bitLenAux n n

/-- Nearest natural number to `num / den`, ties to even. -/
def roundHalfEven (num den : Nat) : Nat :=
  let q := num / den
  let r := num % den
  if 2 * r < den then q
  else if den < 2 * r then q + 1
  else if q % 2 = 0 then q else q + 1

/-- Removes common factors of two from `m / 2 ^ k`. -/
def reduceDyadic : Nat → Nat → Nat × Nat
  | m, 0 => (m, 0)
  | m, k + 1 => if m % 2 = 0 then reduceDyadic (m / 2) k else (m, k + 1)

/-- The signed zero. -/
def signedZero (neg : Bool) : JSNumber := if neg then .negZero else .fin 0 0

/-- The double `± m * 2 ^ e` in canonical form. -/
def mkDouble (neg : Bool) (m : Nat) (e : Int) : JSNumber :=
  if m = 0 then signedZero neg
  else
    let mk := match e with
      | .ofNat a => (m * 2 ^ a, 0)
      | .negSucc a => reduceDyadic m (a + 1)
    .fin (if neg then -(mk.1 : Int) else (mk.1 : Int)) mk.2

/-- Is `2 ^ l ≤ p / q`? -/
def geTwoPow (p q : Nat) : Int → Bool
  | .ofNat a => q * 2 ^ a ≤ p
  | .negSucc a => q ≤ p * 2 ^ (a + 1)

/-- The Number value of the non-negative rational `p / q` (`q > 0`) with sign `neg`:
round to nearest double, ties to even, overflow to infinity, gradual underflow.
An integer of magnitude at most `2 ^ 53` is a double and is returned as it is. -/
def roundToDouble (neg : Bool) (p q : Nat) : JSNumber :=
  if p = 0 then signedZero neg
  else if q = 1 ∧ p ≤ 2 ^ 53 then .fin (if neg then -(p : Int) else (p : Int)) 0
  else
    let l0 : Int := (bitLen p : Int) - (bitLen q : Int)
    let l : Int := if geTwoPow p q l0 then l0 else l0 - 1
    let e : Int := if l - 52 < -1074 then -1074 else l - 52
    let m : Nat := match e with
      | .ofNat a => roundHalfEven p (q * 2 ^ a)
      | .negSucc a => roundHalfEven (p * 2 ^ (a + 1)) q
    if 972 ≤ e ∨ (e = 971 ∧ m = 2 ^ 53) then (if neg then .negInf else .posInf)
    else mkDouble neg m e

/-- The Number value of `± p * 10 ^ x`, without bounds on `x`. -/
def scaleToDouble (neg : Bool) (p : Nat) : Int → JSNumber
  | .ofNat a => roundToDouble neg (p * 10 ^ a) 1
  | .negSucc a => roundToDouble neg p (10 ^ (a + 1))

/-- The Number value of the decimal `± p * 10 ^ x`.  With `d` the number of digits of
`p`, the value lies in `[10 ^ (x + d - 1), 10 ^ (x + d))`: above `10 ^ 310` it is an
infinity and below `10 ^ (-330)` a zero, which keeps huge exponents from being expanded. -/
def decimalToDouble (neg : Bool) (p : Nat) (x : Int) : JSNumber :=
  if p = 0 then signedZero neg
  else if 311 < x + ((natToDec p).length : Int) then (if neg then .negInf else .posInf)
  else if x + ((natToDec p).length : Int) < -330 then signedZero neg
  else scaleToDouble neg p x

/-- Is `p / q < 10 ^ n`? -/
def ltTenPow (p q : Nat) : Int → Bool
  | .ofNat a => p < q * 10 ^ a
  | .negSucc a => p * 10 ^ (a + 1) < q

/-- The least `n` from `n` upwards with `p / q < 10 ^ n`, with fuel. -/
def decExpAux : Nat → Nat → Nat → Int → Int
  | 0, _, _, n => n
  | f + 1, p, q, n => if ltTenPow p q n then n else decExpAux f p q (n + 1)

/-- The `n` with `10 ^ (n - 1) ≤ p / q < 10 ^ n`, searched from an estimate below it
that comes from the binary logarithm. -/
def decExp (p q : Nat) : Int :=
  decExpAux 8 p q ((((bitLen p : Int) - (bitLen q : Int)) * 30103) / 100000 - 3)

/-- The integer part of `p / q * 10 ^ x`. -/
def scaledFloor (p q : Nat) : Int → Nat
  | .ofNat a => p * 10 ^ a / q
  | .negSucc a => p / (q * 10 ^ (a + 1))

/-- Is `p / q * 10 ^ x` at most `lo + 1/2`, that is, no farther from `lo` than from
`lo + 1`?  The third component of the answer says whether it is a tie. -/
def nearerLow (p q lo : Nat) : Int → Bool × Bool
  | .ofNat a => (decide (2 * p * 10 ^ a ≤ (2 * lo + 1) * q), decide (2 * p * 10 ^ a = (2 * lo + 1) * q))
  | .negSucc a =>
    (decide (2 * p ≤ (2 * lo + 1) * q * 10 ^ (a + 1)), decide (2 * p = (2 * lo + 1) * q * 10 ^ (a + 1)))

/-- Number::toString, the digit search: the least number of digits `k` (tried from `k`
upwards) and the `k`-digit integer `s` such that `s * 10 ^ (n - k)` has the Number value
`target`, the nearest one when two fit; returns `s` and the position `n` of the point. -/
def shortestAux (target : JSNumber) (p q : Nat) (n : Int) : Nat → Nat → Nat × Int
  | 0, k => (scaledFloor p q ((k : Int) - n), n)
  | f + 1, k =>
    let lo := scaledFloor p q ((k : Int) - n)
    let hi := lo + 1
    let okLo := decimalToDouble false lo (n - (k : Int)) == target
    let okHi := decimalToDouble false hi (n - (k : Int)) == target
      && (decide (hi < 10 ^ k) || k == 1)
    let hiRes : Nat × Int := if hi < 10 ^ k then (hi, n) else (10 ^ (k - 1), n + 1)
    if okLo && okHi then
      let c := nearerLow p q lo ((k : Int) - n)
      if c.2 then (if lo % 2 = 0 then (lo, n) else hiRes)
      else if c.1 then (lo, n) else hiRes
    else if okLo then (lo, n)
    else if okHi then hiRes
    else shortestAux target p q n f (k + 1)

/-- A run of `n` zero digits. -/
def zeros (n : Nat) : Str := List.replicate n '0'

/-- Number::toString, the layout of the digits `ds` with the point after `n` digits. -/
def layoutDigits (ds : Str) (n : Int) : Str :=
  let k : Int := ds.length
  if k ≤ n ∧ n ≤ 21 then ds ++ zeros (n - k).toNat
  else if 0 < n ∧ n ≤ 21 then ds.take n.toNat ++ '.' :: ds.drop n.toNat
  else if -6 < n ∧ n ≤ 0 then '0' :: '.' :: zeros (-n).toNat ++ ds
  else
    let e := n - 1
    let es := (if e < 0 then '-' else '+') :: natToDec e.natAbs
    match ds with
    | [] => []
    | [d] => d :: 'e' :: es
    | d :: rest => d :: '.' :: rest ++ 'e' :: es

/-- Number::toString of the positive double `m / 2 ^ k`.  A whole number of at most
`2 ^ 53` prints as its decimal numeral: no shorter numeral has it as Number value,
because every whole number of that size is itself a double. -/
def posToString (m k : Nat) : Str :=
  if k = 0 ∧ m ≤ 2 ^ 53 then natToDec m
  else
    let r := shortestAux (.fin (m : Int) k) m (2 ^ k) (decExp m (2 ^ k)) 17 1
    layoutDigits (natToDec r.1) r.2

/-- Number::toString (radix 10). -/
def numberToString : JSNumber → Str
  | .nan => "NaN".toList
  | .posInf => "Infinity".toList
  | .negInf => "-Infinity".toList
  | .negZero => ['0']
  | .fin (.ofNat 0) _ => ['0']
  | .fin (.ofNat (m + 1)) k => posToString (m + 1) k
  | .fin (.negSucc m) k => '-' :: posToString (m + 1) k

/-- Value of a digit in the given radix (letters in either case). -/
def radixDigit (base : Nat) (c : Char) : Option Nat :=
  let n := c.toNat
  let d := if 48 ≤ n ∧ n ≤ 57 then n - 48
    else if 97 ≤ n ∧ n ≤ 122 then n - 87
    else if 65 ≤ n ∧ n ≤ 90 then n - 55
    else base
  if d < base then some d else none

/-- Value of a non-empty run of digits in the given radix that is the whole text. -/
def radixVal (base : Nat) : Nat → Str → Option Nat
  | _, [] => none
  | acc, [c] => (radixDigit base c).map (fun d => acc * base + d)
  | acc, c :: cs =>
    match radixDigit base c with
    | some d => radixVal base (acc * base + d) cs
    | none => none

/-- An exponent part after its `e`: an optional sign and a non-empty run of digits that
ends the text. -/
def exponentPart (s : Str) : Option Int :=
  let body (neg : Bool) (r : Str) : Option Int :=
    if r ≠ [] ∧ (spanDigits r).2 = [] then
      some (if neg then -((digitsVal 0 r : Nat) : Int) else ((digitsVal 0 r : Nat) : Int))
    else none
  match s with
  | '+' :: r => body false r
  | '-' :: r => body true r
  | r => body false r

/-- StrUnsignedDecimalLiteral: `Infinity`, or digits with an optional fraction and an
optional exponent part (digits are needed on at least one side of the point). -/
def strDecimal (neg : Bool) (s : Str) : JSNumber :=
  if s = "Infinity".toList then (if neg then .negInf else .posInf)
  else
    let ip := (spanDigits s).1
    let r1 := (spanDigits s).2
    let fp := match r1 with
      | '.' :: r => (spanDigits r).1
      | _ => []
    let r2 := match r1 with
      | '.' :: r => (spanDigits r).2
      | _ => r1
    if ip = [] ∧ fp = [] then .nan
    else
      let mant := digitsVal 0 (ip ++ fp)
      match r2 with
      | [] => decimalToDouble neg mant (-(fp.length : Int))
      | c :: r =>
        if c = 'e' ∨ c = 'E' then
          match exponentPart r with
          | some x => decimalToDouble neg mant (x - (fp.length : Int))
          | none => .nan
        else .nan

/-- StringToNumber on a text without surrounding whitespace: what `Number(s)` returns. -/
def stringToNumber (s : Str) : JSNumber :=
  match s with
  | [] => .fin 0 0
  | '0' :: x :: r =>
    let radix (base : Nat) : JSNumber :=
      match radixVal base 0 r with
      | some v => roundToDouble false v 1
      | none => .nan
    if x = 'x' ∨ x = 'X' then radix 16
    else if x = 'o' ∨ x = 'O' then radix 8
    else if x = 'b' ∨ x = 'B' then radix 2
    else strDecimal false s
  | '+' :: r => strDecimal false r
  | '-' :: r => strDecimal true r
  | _ => strDecimal false s

/-- `Number(s)`: StringToNumber after trimming whitespace at both ends. -/
def toNumber (s : Str) : JSNumber := stringToNumber (trim s)

/-- `isNaN(s)` for a string argument. -/
def isNaN (s : Str) : Bool := toNumber s == .nan

/-! ## JSON values, `JSON.parse` and `JSON.stringify` -/

/-- A value that `JSON.parse` can return.  String values and property names are
sequences of UTF-16 code units; the properties of an object are kept in the order in
which JavaScript enumerates them. -/
inductive JSValue
  | null
  | bool (b : Bool)
  | num (x : JSNumber)
  | str (s : List Nat)
  | arr (xs : List JSValue)
  | obj (ps : List (List Nat × JSValue))

/-- JSON whitespace: tab, line feed, carriage return, space. -/
def isJsonWs (c : Char) : Bool := c = '\t' || c = '\n' || c = '\r' || c = ' '

/-- Skips JSON whitespace. -/
def skipWs : Str → Str
  | [] => []
  | c :: cs => if isJsonWs c then skipWs cs else c :: cs

/-- The body of a JSON string after its opening quote, up to the closing quote. -/
def parseJsonString : Str → Option (List Nat × Str)
  | [] => none
  | '"' :: r => some ([], r)
  | '\\' :: 'u' :: a :: b :: c :: d :: r =>
    match radixDigit 16 a, radixDigit 16 b, radixDigit 16 c, radixDigit 16 d with
    | some x, some y, some z, some w =>
      (parseJsonString r).map (fun t => ((x * 4096 + y * 256 + z * 16 + w) :: t.1, t.2))
    | _, _, _, _ => none
  | '\\' :: e :: r =>
    let unit : Option Nat :=
      if e = '"' then some 34 else if e = '\\' then some 92 else if e = '/' then some 47
      else if e = 'b' then some 8 else if e = 'f' then some 12 else if e = 'n' then some 10
      else if e = 'r' then some 13 else if e = 't' then some 9 else none
    match unit with
    | some u => (parseJsonString r).map (fun t => (u :: t.1, t.2))
    | none => none
  | c :: r =>
    if c.toNat < 32 ∨ c = '\\' then none
    else (parseJsonString r).map (fun t => (utf16 c ++ t.1, t.2))

/-- The fraction part of a JSON number, if there is one: its digits and the rest; a
point without digits is a syntax error. -/
def jsonFraction : Str → Option (Str × Str)
  | '.' :: r => if (spanDigits r).1 = [] then none else some (spanDigits r)
  | r => some ([], r)

/-- The digits of the exponent of a JSON number, signed, and the rest. -/
def jsonExponentDigits (neg : Bool) (r : Str) : Option (Int × Str) :=
  if (spanDigits r).1 = [] then none
  else
    let x : Int := (digitsVal 0 (spanDigits r).1 : Nat)
    some (if neg then -x else x, (spanDigits r).2)

/-- The exponent part of a JSON number, if there is one (else exponent `0`): its value
and the rest; an `e` without digits is a syntax error. -/
def jsonExponent : Str → Option (Int × Str)
  | 'e' :: '+' :: r => jsonExponentDigits false r
  | 'e' :: '-' :: r => jsonExponentDigits true r
  | 'e' :: r => jsonExponentDigits false r
  | 'E' :: '+' :: r => jsonExponentDigits false r
  | 'E' :: '-' :: r => jsonExponentDigits true r
  | 'E' :: r => jsonExponentDigits false r
  | r => some (0, r)

/-- A JSON number at the head of the text:
`-? (0 | [1-9] digits) (. digits)? ([eE] [+-]? digits)?`, and its Number value. -/
def parseJsonNumber (cs : Str) : Option (JSNumber × Str) :=
  let neg : Bool := cs.head? == some '-'
  let r0 := if neg then cs.drop 1 else cs
  let ip := (spanDigits r0).1
  if ip = [] ∨ (ip.head? = some '0' ∧ 1 < ip.length) then none
  else
    match jsonFraction (spanDigits r0).2 with
    | none => none
    | some (fp, r2) =>
      match jsonExponent r2 with
      | none => none
      | some (x, r3) => some (decimalToDouble neg (digitsVal 0 (ip ++ fp)) (x - (fp.length : Int)), r3)

/-- A canonical array index: the decimal numeral, without leading zeros, of a number
below `2 ^ 32 - 1`. -/
def arrayIndex (k : List Nat) : Option Nat :=
  let v := k.foldl (fun acc u => acc * 10 + (u - 48)) 0
  if k ≠ [] ∧ k.all (fun u => 48 ≤ u && u ≤ 57) ∧ (k.head? ≠ some 48 ∨ k.length = 1)
      ∧ k.length ≤ 10 ∧ v < 2 ^ 32 - 1 then some v
  else none

/-- Defines property `k` of an object: a present property keeps its place and gets the
new value, a new one goes to the end. -/
def objDefine : List (List Nat × JSValue) → List Nat → JSValue → List (List Nat × JSValue)
  | [], k, v => [(k, v)]
  | (k', v') :: ps, k, v => if k' = k then (k, v) :: ps else (k', v') :: objDefine ps k v

/-- Inserts an index property in ascending order of the index. -/
def insertIndexed (i : Nat) (p : List Nat × JSValue) :
    List (Nat × (List Nat × JSValue)) → List (Nat × (List Nat × JSValue))
  | [] => [(i, p)]
  | (j, q) :: t => if i ≤ j then (i, p) :: (j, q) :: t else (j, q) :: insertIndexed i p t

/-- Own properties in enumeration order: array indices ascending, then the other
names in the order of their creation. -/
def objOrder (ps : List (List Nat × JSValue)) : List (List Nat × JSValue) :=
  let idx := ps.foldl (fun acc p =>
    match arrayIndex p.1 with
    | some i => insertIndexed i p acc
    | none => acc) []
  idx.map (fun q => q.2) ++ ps.filter (fun p => (arrayIndex p.1).isNone)

mutual
/-- One JSON value at the head of the text (after optional whitespace), with fuel. -/
def parseValue : Nat → Str → Option (JSValue × Str)
  | 0, _ => none
  | f + 1, cs =>
    match skipWs cs with
    | '[' :: r =>
      match skipWs r with
      | ']' :: r2 => some (.arr [], r2)
      | _ => (parseElements f r).map (fun t => (.arr t.1, t.2))
    | '{' :: r =>
      match skipWs r with
      | '}' :: r2 => some (.obj [], r2)
      | _ => (parseMembers f r []).map (fun t => (.obj (objOrder t.1), t.2))
    | '"' :: r => (parseJsonString r).map (fun t => (.str t.1, t.2))
    | 't' :: 'r' :: 'u' :: 'e' :: r => some (.bool true, r)
    | 'f' :: 'a' :: 'l' :: 's' :: 'e' :: r => some (.bool false, r)
    | 'n' :: 'u' :: 'l' :: 'l' :: r => some (.null, r)
    | r => (parseJsonNumber r).map (fun t => (.num t.1, t.2))
/-- The elements of an array up to and including the closing bracket. -/
def parseElements : Nat → Str → Option (List JSValue × Str)
  | 0, _ => none
  | f + 1, cs =>
    match parseValue f cs with
    | none => none
    | some (v, r) =>
      match skipWs r with
      | ',' :: r2 => (parseElements f r2).map (fun t => (v :: t.1, t.2))
      | ']' :: r2 => some ([v], r2)
      | _ => none
/-- The members of an object up to and including the closing brace. -/
def parseMembers : Nat → Str → List (List Nat × JSValue) → Option (List (List Nat × JSValue) × Str)
  | 0, _, _ => none
  | f + 1, cs, acc =>
    match skipWs cs with
    | '"' :: r =>
      match parseJsonString r with
      | none => none
      | some (k, r1) =>
        match skipWs r1 with
        | ':' :: r2 =>
          match parseValue f r2 with
          | none => none
          | some (v, r3) =>
            match skipWs r3 with
            | ',' :: r4 => parseMembers f r4 (objDefine acc k v)
            | '}' :: r4 => some (objDefine acc k v, r4)
            | _ => none
        | _ => none
    | _ => none
end

/-- `JSON.parse(text)`: the value, or the SyntaxError it throws. -/
def jsonParse (s : Str) : Except String JSValue :=
  match parseValue (2 * s.length + 2) s with
  | some (v, r) => if skipWs r = [] then .ok v else .error "SyntaxError"
  | none => .error "SyntaxError"

/-- A lower-case hexadecimal digit, as a code unit. -/
def hexUnit (d : Nat) : Nat := if d < 10 then 48 + d else 87 + d

/-- The six code units of a `\uXXXX` escape. -/
def unicodeEscape (u : Nat) : List Nat :=
  [92, 117, hexUnit (u / 4096 % 16), hexUnit (u / 256 % 16), hexUnit (u / 16 % 16), hexUnit (u % 16)]

/-- QuoteJSONString for one code unit that is not part of a surrogate pair: the short
escapes, `\u` escapes for the other control characters and for a lone surrogate,
everything else as it is. -/
def quoteOne (u : Nat) : List Nat :=
  if u = 8 then [92, 98]
  else if u = 9 then [92, 116]
  else if u = 10 then [92, 110]
  else if u = 12 then [92, 102]
  else if u = 13 then [92, 114]
  else if u = 34 then [92, 34]
  else if u = 92 then [92, 92]
  else if u < 32 ∨ (0xD800 ≤ u ∧ u ≤ 0xDFFF) then unicodeEscape u
  else [u]

/-- QuoteJSONString without the enclosing quotes; a surrogate pair is copied. -/
def quoteUnits : List Nat → List Nat
  | [] => []
  | [u] => quoteOne u
  | u :: v :: r =>
    if 0xD800 ≤ u ∧ u ≤ 0xDBFF ∧ 0xDC00 ≤ v ∧ v ≤ 0xDFFF then u :: v :: quoteUnits r
    else quoteOne u ++ quoteUnits (v :: r)

/-- `JSON.stringify` of a number: a finite one by Number::toString, the others as `null`. -/
def stringifyNumber : JSNumber → List Nat
  | .posInf => toUtf16 "null".toList
  | .negInf => toUtf16 "null".toList
  | .nan => toUtf16 "null".toList
  | x => toUtf16 (numberToString x)

mutual
/-- `JSON.stringify(v)` without indentation, as UTF-16 code units. -/
def jsonStringify : JSValue → List Nat
  | .null => toUtf16 "null".toList
  | .bool true => toUtf16 "true".toList
  | .bool false => toUtf16 "false".toList
  | .num x => stringifyNumber x
  | .str s => 34 :: quoteUnits s ++ [34]
  | .arr xs => 91 :: stringifyElements xs ++ [93]
  | .obj ps => 123 :: stringifyMembers ps ++ [125]
/-- The elements of an array, separated by commas. -/
def stringifyElements : List JSValue → List Nat
  | [] => []
  | [v] => jsonStringify v
  | v :: w :: r => jsonStringify v ++ 44 :: stringifyElements (w :: r)
/-- The members of an object, separated by commas. -/
def stringifyMembers : List (List Nat × JSValue) → List Nat
  | [] => []
  | [(k, v)] => 34 :: quoteUnits k ++ 34 :: 58 :: jsonStringify v
  | (k, v) :: q :: r => 34 :: quoteUnits k ++ 34 :: 58 :: jsonStringify v ++ 44 :: stringifyMembers (q :: r)
end

/-- ToBoolean on a JSON value, as used by the `!` operator. -/
def truthy : JSValue → Bool
  | .null => false
  | .bool b => b
  | .num (.fin 0 _) => false
  | .num .negZero => false
  | .num .nan => false
  | .num _ => true
  | .str s => !s.isEmpty
  | .arr _ => true
  | .obj _ => true

/-! ## `CodeExecutor.compareOutputs` (executor.js, lines 100-135) -/

/-- The local function `parseArray` of `compareOutputs`; `JSValue.null` is its `null`.
`parse` stands for `JSON.parse`, whose exception the inner `catch` turns into the
split of the bracket-stripped text on commas with numeric coercion. -/
def parseArray {ε : Type} (parse : Str → Except ε JSValue) (str : Str) : JSValue :=
  let str := stripWs str
  if !startsWithChar str '[' || !endsWithChar str ']' then .null
  else
    match parse str with
    | .ok v => v
    | .error _ =>
      .arr ((splitOn ',' (slice1 str)).map
        (fun item => if !isNaN item then .num (toNumber item) else .str (toUtf16 item)))

/-- Is the return type handled as an array: does its lower-cased text include `[]` or
`vector`? -/
def isArrayType (returnType : Str) : Bool :=
  includes (toLowerCase returnType) "[]".toList || includes (toLowerCase returnType) "vector".toList

/-- The body of `compareOutputs` inside its outer `try`, for given `JSON.parse` and
`JSON.stringify`, either of which may throw. -/
def compareOutputsBody {ε : Type} (parse : Str → Except ε JSValue)
    (stringify : JSValue → Except ε (List Nat)) (actual expected returnType : Str) :
    Except ε Bool :=
  let actual := stripWs actual
  let expected := stripWs expected
  if isArrayType returnType then
    let actualArr := parseArray parse actual
    let expectedArr := parseArray parse expected
    if !truthy actualArr || !truthy expectedArr then .ok false
    else
      match stringify actualArr with
      | .error err => .error err
      | .ok a =>
        match stringify expectedArr with
        | .error err => .error err
        | .ok b => .ok (a == b)
  else .ok (actual == expected)

/-- `compareOutputs` for given built-ins: the outer `catch` logs the error and returns
`false`.  The result is the outcome of the call: a returned verdict or an exception. -/
def compareOutputsWith {ε : Type} (parse : Str → Except ε JSValue)
    (stringify : JSValue → Except ε (List Nat)) (actual expected returnType : Str) :
    Except ε Bool :=
  match compareOutputsBody parse stringify actual expected returnType with
  | .ok verdict => .ok verdict
  | .error _ => .ok false

/-- `compareOutputs(actual, expected, returnType)` with the built-ins of JavaScript. -/
def compareOutputs (actual expected returnType : Str) : Bool :=
  match compareOutputsWith jsonParse (fun v => .ok (jsonStringify v)) actual expected returnType with
  | .ok verdict => verdict
  | .error _ => false

/-- Texts joined by commas. -/
def joinComma : List Str → Str
  | [] => []
  | [s] => s
  | s :: t :: r => s ++ ',' :: joinComma (t :: r)

/-- The bracketed, comma-joined decimal text of a list of integers. -/
def encIntArray (xs : List Int) : Str := '[' :: joinComma (xs.map intToDec) ++ [']']

/-- A character of the text of a list of whole numbers: a digit, a minus sign, a
comma or a bracket. -/
def isEncChar (c : Char) : Bool := isDigit c || c == '-' || c == ',' || c == '[' || c == ']'

/-! ## `CodeExecutor.executeTest` and `CodeExecutor.runTests` (executor.js, lines 26-98, 188-244) -/

/-- One entry of the `results` array of `runTests`.  `expectedOutput` is `none` when
`metadata.expectedOutputs` has no entry at the index (`undefined`), `actualOutput` and
`error` are `none` for `null`. -/
structure TestResult where
  testCase : Nat
  input : Str
  expectedOutput : Option Str
  actualOutput : Option Str
  passed : Bool
  error : Option Str
  deriving DecidableEq, Repr

/-- The fields of the stored metadata that `runTests` reads: `metadata.expectedOutputs`
and `metadata.return.type`. -/
structure Metadata where
  expectedOutputs : List Str
  returnType : Str

/-- The message of the TypeError that `expectedOutput.trim()` throws when
`expectedOutput` is `undefined`. -/
def undefinedTrimMessage : Str := "Cannot read properties of undefined (reading 'trim')".toList

/-- One pass through the body of the `for` loop of `runTests` (lines 49-89) for the
test case at index `i`, given what `executeTest` does there: the pushed result.  The
`try` block computes the verdict from the trimmed output; whatever is thrown in it,
by `executeTest` or by `expectedOutput.trim()`, is caught and recorded in the result.
Writing the output file (`saveTestOutput`) is taken to succeed. -/
def runCase (exec : Nat → Str → Except Str Str) (metadata : Metadata) (i : Nat)
    (testCase : Str) : TestResult :=
  match exec i testCase with
  | .error message =>
    { testCase := i + 1, input := testCase, expectedOutput := metadata.expectedOutputs[i]?,
      actualOutput := none, passed := false, error := some message }
  | .ok output =>
    match metadata.expectedOutputs[i]? with
    | none =>
      { testCase := i + 1, input := testCase, expectedOutput := none,
        actualOutput := none, passed := false, error := some undefinedTrimMessage }
    | some expectedOutput =>
      { testCase := i + 1, input := testCase, expectedOutput := some expectedOutput,
        actualOutput := some (trim output),
        passed := compareOutputs (trim output) (trim expectedOutput) metadata.returnType,
        error := none }

/-- The `for` loop of `runTests` from index `i` on, over the test cases still to run,
with the results pushed so far. -/
def runTestsLoop (exec : Nat → Str → Except Str Str) (metadata : Metadata) :
    Nat → List Str → List TestResult → List TestResult
  | _, [], results => results
  | i, testCase :: rest, results =>
    runTestsLoop exec metadata (i + 1) rest (results ++ [runCase exec metadata i testCase])

/-- `runTests` once the test data is loaded: the loop over all test cases, starting
with no results, and the `return results` that follows it.  `exec i testCase` is the
outcome of the call of `executeTest` for the test case at index `i`. -/
def runTests (exec : Nat → Str → Except Str Str) (metadata : Metadata)
    (testCases : List Str) : Except Str (List TestResult) :=
  .ok (runTestsLoop exec metadata 0 testCases [])

/-- What a finished child process leaves: exit status, standard output, standard error. -/
structure ProcResult where
  status : Nat
  stdout : Str
  stderr : Str

/-- `execSync(cmd, {input, encoding: 'utf8'})` of Node: the standard output when the
process exits with status zero, else a thrown Error whose message names the command
and carries the standard error text.  `sys` says how a command ends on a given input. -/
def execSync (sys : Str → List Nat → ProcResult) (cmd : Str) (input : List Nat) :
    Except Str Str :=
  let r := sys cmd input
  if r.status = 0 then .ok r.stdout
  else .error ("Command failed: ".toList ++ cmd ++ (if r.stderr = [] then [] else '\n' :: r.stderr))

/-- The paths `executeTest` derives from the program file with `path.dirname`,
`path.basename` and `path.join`, and the platform flag. -/
structure ExecPaths where
  filePath : Str
  dirPath : Str
  executablePath : Str
  isWindows : Bool

/-- The compile command for C++. -/
def cppCompileCmd (p : ExecPaths) : Str :=
  "g++ -std=c++17 \"".toList ++ p.filePath ++ "\" -o \"".toList ++ p.executablePath ++ "\"".toList

/-- The compile command for Java. -/
def javaCompileCmd (p : ExecPaths) : Str :=
  "javac -cp \"".toList ++ p.dirPath ++ "\" \"".toList ++ p.filePath ++ "\"".toList

/-- The run command for C++. -/
def cppRunCmd (p : ExecPaths) : Str :=
  if p.isWindows then '"' :: p.executablePath ++ ['"'] else p.executablePath

/-- The run command for Python. -/
def pythonRunCmd (p : ExecPaths) : Str := "python \"".toList ++ p.filePath ++ "\"".toList

/-- The run command for Java. -/
def javaRunCmd (p : ExecPaths) : Str := "java -cp \"".toList ++ p.dirPath ++ "\" Main".toList

/-- The standard input of the program: `JSON.stringify(parsedTest) + '\n'`, where
`parsedTest` is `JSON.parse(testCase)` (a loaded test case is always a string). -/
def testInput (testCase : Str) : Except Str (List Nat) :=
  match jsonParse testCase with
  | .ok parsedTest => .ok (jsonStringify parsedTest ++ [10])
  | .error e => .error e.toList

/-- `executeTest(filePath, testCase, language, metadata)`: the output of the program, or
the message of what is thrown.  C++ compiles, then parses the test case, then runs;
Python parses and runs; Java parses, compiles, then runs. -/
def executeTest (sys : Str → List Nat → ProcResult) (p : ExecPaths) (testCase : Str)
    (language : Str) : Except Str Str :=
  if language = "cpp".toList then
    match execSync sys (cppCompileCmd p) [] with
    | .error e => .error e
    | .ok _ =>
      match testInput testCase with
      | .error e => .error e
      | .ok input => execSync sys (cppRunCmd p) input
  else if language = "python".toList then
    match testInput testCase with
    | .error e => .error e
    | .ok input => execSync sys (pythonRunCmd p) input
  else if language = "java".toList then
    match testInput testCase with
    | .error e => .error e
    | .ok input =>
      match execSync sys (javaCompileCmd p) [] with
      | .error e => .error e
      | .ok _ => execSync sys (javaRunCmd p) input
  else .error ("Language ".toList ++ language ++ " not supported yet".toList)

/-- A machine on which every command, the compiler included, exits with status `1`
and the diagnostic `error: expected ';'` (used to exhibit a failed build). -/
def brokenBuild : Str → List Nat → ProcResult :=
  fun _ _ => { status := 1, stdout := [], stderr := "error: expected ';'".toList }

/-- Paths of a program file `/t/solution.cpp` on Linux. -/
def samplePaths : ExecPaths :=
  { filePath := "/t/solution.cpp".toList, dirPath := "/t".toList,
    executablePath := "/t/solution".toList, isWindows := false }

/-- Metadata of a problem with the expected outputs `[0,1]`, `[1,2]`, `[2,3]` and the
return type `integer[]`. -/
def sampleMetadata : Metadata :=
  { expectedOutputs := ["[0,1]".toList, "[1,2]".toList, "[2,3]".toList],
    returnType := "integer[]".toList }

/-- An `executeTest` that throws `boom` for the test case at index `1` and prints the
test case itself, followed by a line feed, for the others. -/
def sampleExec : Nat → Str → Except Str Str :=
  fun i tc => if i = 1 then .error "boom".toList else .ok (tc ++ ['\n'])

/-! ## Data structures of the generated drivers -/

/-- A reference to a `ListNode` (`ListNode*` in C++): null, or a node with its value
and the reference to the next node.  The decoders build the chain once and nothing
writes to it afterwards, so the reference is the chain. -/
inductive ListRef
  | null
  | node (val : Int) (next : ListRef)
  deriving DecidableEq, Repr

/-- The chain whose node values are the given numbers, in order (`null` when empty):
what the decoders build by appending a new node at the tail for every value. -/
def ListRef.ofList : List Int → ListRef
  | [] => .null
  | v :: vs => .node v (ListRef.ofList vs)

/-- A `TreeNode` object in memory: its value and the addresses of its children. -/
structure TreeCell where
  val : Int
  left : Option Nat
  right : Option Nat
  deriving DecidableEq, Repr

/-- The `TreeNode` objects created so far: the object at each address, and the number
of objects, which is the address the next `new TreeNode` gets. -/
structure TreeHeap where
  cell : Nat → TreeCell
  size : Nat

/-- No object yet. -/
def TreeHeap.empty : TreeHeap := { cell := fun _ => ⟨0, none, none⟩, size := 0 }

/-- `new TreeNode(v)`: a node without children at the next free address. -/
def TreeHeap.alloc (h : TreeHeap) (v : Int) : TreeHeap :=
  { cell := Function.update h.cell h.size ⟨v, none, none⟩, size := h.size + 1 }

/-- `current.left = child` or, for `right`, `current.right = child`. -/
def TreeHeap.setChild (h : TreeHeap) (isRight : Bool) (current child : Nat) : TreeHeap :=
  let c := h.cell current
  let c' : TreeCell := if isRight then ⟨c.val, c.left, some child⟩ else ⟨c.val, some child, c.right⟩
  ⟨Function.update h.cell current c', h.size⟩

/-- A reference to a `TreeNode`: the memory and the address of the root (`none` for null). -/
structure TreeRef where
  heap : TreeHeap
  root : Option Nat

/-- One of the two `if` statements in the loop body of `parseTreeNode`:
`if (i < parts.length && parts[i] is not "null") { current.<side> = new TreeNode(value
of parts[i]); queue.offer(current.<side>); }`.  `isNull` is the test for the null token
and `mk` the conversion of a token to the node value, which may throw. -/
def attachChild {τ ε : Type} (isNull : τ → Bool) (mk : τ → Except ε Int) (parts : List τ)
    (isRight : Bool) (h : TreeHeap) (queue : List Nat) (current i : Nat) :
    Except ε (TreeHeap × List Nat) :=
  match parts[i]? with
  | none => .ok (h, queue)
  | some part =>
    if isNull part then .ok (h, queue)
    else
      match mk part with
      | .error e => .error e
      | .ok v => .ok ((h.alloc v).setChild isRight current h.size, queue ++ [h.size])

/-- The `while (!queue.isEmpty() && i < parts.length)` loop of `parseTreeNode`, the
same in the three drivers: take the node at the head of the queue, give it the next
two tokens as left and right child, advance `i` by two.  The fuel bounds the number of
passes; `parts.length` passes are never needed, since `i` grows by two in each. -/
def buildLoop {τ ε : Type} (isNull : τ → Bool) (mk : τ → Except ε Int) (parts : List τ) :
    Nat → TreeHeap → List Nat → Nat → Except ε TreeHeap
  | 0, h, _, _ => .ok h
  | _ + 1, h, [], _ => .ok h
  | f + 1, h, current :: queue, i =>
    if i < parts.length then
      match attachChild isNull mk parts false h queue current i with
      | .error e => .error e
      | .ok (h1, q1) =>
        match attachChild isNull mk parts true h1 q1 current (i + 1) with
        | .error e => .error e
        | .ok (h2, q2) => buildLoop isNull mk parts f h2 q2 (i + 2)
    else .ok h

/-- The body of `parseTreeNode` from the creation of the root on, for a non-empty
array of tokens: the root is made from the first token, put in the queue, and the loop
runs from `i = 1`. -/
def buildTree {τ ε : Type} (isNull : τ → Bool) (mk : τ → Except ε Int) (first : τ)
    (parts : List τ) : Except ε TreeRef :=
  match mk first with
  | .error e => .error e
  | .ok v =>
    match buildLoop isNull mk parts parts.length (TreeHeap.empty.alloc v) [0] 1 with
    | .error e => .error e
    | .ok h => .ok { heap := h, root := some 0 }

/-- The breadth-first loop of the tree encoders, `while (!queue.isEmpty())`: a null
entry adds the null token, a node adds its value and puts its two children, null or
not, in the queue.  `none` when the fuel runs out before the queue is empty. -/
def levelOrderLoop (h : TreeHeap) : Nat → List (Option Nat) → List (Option Int) →
    Option (List (Option Int))
  | _, [], out => some out
  | 0, _ :: _, _ => none
  | f + 1, none :: queue, out => levelOrderLoop h f queue (out ++ [none])
  | f + 1, some j :: queue, out =>
    levelOrderLoop h f (queue ++ [(h.cell j).left, (h.cell j).right])
      (out ++ [some (h.cell j).val])

/-- `while (!values.isEmpty() && last value is null) remove last`. -/
def stripTrailingNulls (tokens : List (Option Int)) : List (Option Int) :=
  (tokens.reverse.dropWhile (fun t => t.isNone)).reverse

/-- The tokens a tree encoder collects for a non-null root: breadth-first traversal,
then the trailing nulls removed.  A tree with `n` nodes needs `2 n + 1` passes. -/
def levelOrderTokens (t : TreeHeap) (root : Nat) : Option (List (Option Int)) :=
  (levelOrderLoop t (2 * t.size + 1) [some root] []).map stripTrailingNulls

/-- The text of a token: `null`, or the decimal numeral. -/
def tokenText : Option Int → Str
  | none => "null".toList
  | some v => intToDec v

/-- Texts joined by a separator text. -/
def joinWith (sep : Str) : List Str → Str
  | [] => []
  | [s] => s
  | s :: t :: r => s ++ sep ++ joinWith sep (t :: r)

/-- The bracketed, comma-joined text of an array of tokens (integers and nulls). -/
def encTokens (a : List (Option Int)) : Str := '[' :: joinComma (a.map tokenText) ++ [']']

/-- `s.endsWith("[]")` (Java) and `s.endswith('[]')` (Python). -/
def endsWithBrackets (s : Str) : Bool := "][".toList.isPrefixOf s.reverse

/-- Is the number a 32-bit signed integer (`int` of Java and C++)? -/
def isInt32 (v : Int) : Prop := -2147483648 ≤ v ∧ v ≤ 2147483647

instance (v : Int) : Decidable (isInt32 v) := by unfold isInt32; infer_instance

/-! ## The Java driver (fileHandler.js, `getJavaDriver`, lines 853-998) -/

namespace Java

/-- What the decoders of the Java driver throw. -/
inductive Exn
  | numberFormat (input : Str)
  | arrayIndexOutOfBounds (index : Nat)
  deriving DecidableEq, Repr

/-- `String.trim()`: characters up to U+0020 removed at both ends. -/
def trim (s : Str) : Str :=
  ((s.dropWhile (fun c => decide (c.toNat ≤ 32))).reverse.dropWhile
    (fun c => decide (c.toNat ≤ 32))).reverse

/-- Removes the empty texts at the end of a list. -/
def dropTrailingEmpty (parts : List Str) : List Str :=
  (parts.reverse.dropWhile (fun p => p.isEmpty)).reverse

/-- `value.split(",")`: the pieces between the commas, trailing empty pieces removed;
a text without a comma, the empty one included, is its only piece. -/
def split (value : Str) : List Str :=
  if value = [] then [[]] else dropTrailingEmpty (splitOn ',' value)

/-- `Integer.parseInt(s)`: an optional sign and a non-empty run of decimal digits whose
value is a 32-bit integer; anything else throws NumberFormatException.  Digits are the
ASCII digits; Java also accepts the other Unicode decimal digits, which the numerals
of this development never contain. -/
def parseInt (s : Str) : Except Exn Int :=
  let body (neg : Bool) (ds : Str) : Except Exn Int :=
    if ds ≠ [] ∧ ds.all isDigit then
      let v : Int := if neg then -((digitsVal 0 ds : Nat) : Int) else ((digitsVal 0 ds : Nat) : Int)
      if isInt32 v then .ok v else .error (.numberFormat s)
    else .error (.numberFormat s)
  match s with
  | '-' :: ds => body true ds
  | '+' :: ds => body false ds
  | ds => body false ds

/-- The text between the brackets: `value.trim()`, then a leading `[` and a trailing
`]` removed (lines 855-857, 870-872, 900-902). -/
def stripBrackets (value : Str) : Str :=
  let v1 := trim value
  let v2 := if startsWithChar v1 '[' then v1.drop 1 else v1
  if endsWithChar v2 ']' then v2.dropLast else v2

/-- The `for` loop of `parseIntArray`: every part, trimmed, through `parseInt`. -/
def parseParts : List Str → Except Exn (List Int)
  | [] => .ok []
  | part :: rest =>
    match parseInt (trim part) with
    | .error e => .error e
    | .ok v =>
      match parseParts rest with
      | .error e => .error e
      | .ok vs => .ok (v :: vs)

/-- `parseIntArray(value)`; `none` is Java's `null`, as argument and as result. -/
def parseIntArray (value : Option Str) : Except Exn (Option (List Int)) :=
  match value with
  | none => .ok none
  | some v =>
    if v = "null".toList then .ok none
    else if stripBrackets v = [] then .ok (some [])
    else
      match parseParts (split (stripBrackets v)) with
      | .error e => .error e
      | .ok vs => .ok (some vs)

/-- `parseListNode(value)`: null for a null or empty array, else the chain of the values. -/
def parseListNode (value : Option Str) : Except Exn ListRef :=
  match parseIntArray value with
  | .error e => .error e
  | .ok none => .ok .null
  | .ok (some []) => .ok .null
  | .ok (some (v :: vs)) => .ok (ListRef.ofList (v :: vs))

/-- `parseTreeNode(value)`: null for `null`, `"null"`, `"[]"` and an empty bracket
content; else the tree built breadth-first from the parts.  A part is the null token
when its trimmed text is `null`; `parts[0]` of an empty array of parts throws. -/
def parseTreeNode (value : Option Str) : Except Exn TreeRef :=
  match value with
  | none => .ok ⟨TreeHeap.empty, none⟩
  | some v =>
    if v = "null".toList ∨ v = "[]".toList then .ok ⟨TreeHeap.empty, none⟩
    else if stripBrackets v = [] then .ok ⟨TreeHeap.empty, none⟩
    else
      match split (stripBrackets v) with
      | [] => .error (.arrayIndexOutOfBounds 0)
      | first :: rest =>
        buildTree (fun part => trim part == "null".toList) (fun part => parseInt (trim part))
          first (first :: rest)

/-- The `while (node != null)` loop of `listNodeToString` on the StringBuilder `sb`. -/
def listNodeLoop : ListRef → Bool → Str → Str
  | .null, _, sb => sb
  | .node val next, first, sb =>
    listNodeLoop next false ((if first then sb else sb ++ [',']) ++ intToDec val)

/-- `listNodeToString(node)`. -/
def listNodeToString (node : ListRef) : Str := listNodeLoop node true ['['] ++ [']']

/-- `s.replace(" ", "")`: every space removed. -/
def removeSpaces (s : Str) : Str := s.filter (fun c => c != ' ')

/-- `List.toString()` and `Arrays.toString`: the elements joined by `", "` in brackets. -/
def listToString (items : List Str) : Str := '[' :: joinWith [',', ' '] items ++ [']']

/-- `treeNodeToString(root)`: `[]` for null; else the breadth-first values with `null`
for a missing child, the trailing nulls removed, printed by `List.toString()` with the
spaces taken out.  `none` stands for a traversal that does not end. -/
def treeNodeToString (t : TreeRef) : Option Str :=
  match t.root with
  | none => some "[]".toList
  | some r => (levelOrderTokens t.heap r).map (fun ts => removeSpaces (listToString (ts.map tokenText)))

/-- The objects a solution can return, as `formatResult` tells them apart. -/
inductive Result
  | null
  | intArray (xs : List Int)
  | stringArray (xs : List Str)
  | listNode (l : ListRef)
  | treeNode (t : TreeRef)
  | string (s : Str)
  | boolean (b : Bool)
  | integer (n : Int)

/-- `Object.toString()` of a `ListNode` or `TreeNode`: the class name, `@` and an
identity hash code, which is not modelled. -/
def objectToString (className : Str) : Str := className ++ ['@']

/-- Is the returned reference `null`?  A null `ListNode` or `TreeNode` is Java's `null`. -/
def Result.isNull : Result → Bool
  | .null => true
  | .listNode .null => true
  | .treeNode t => t.root.isNone
  | _ => false

/-- `formatResult(result, type)` (lines 930-960): `null` first, then the array types,
then the other classes; `none` for a tree traversal that does not end. -/
def formatResult (result : Result) (type : Str) : Option Str :=
  if result.isNull then some "null".toList
  else
    match result with
    | .null => some "null".toList
    | .intArray xs =>
      if endsWithBrackets type then some (removeSpaces (listToString (xs.map intToDec)))
      else some (objectToString "[I".toList)
    | .stringArray xs =>
      if endsWithBrackets type then
        some ('[' :: joinComma (xs.map (fun s => '"' :: s ++ ['"'])) ++ [']'])
      else some (objectToString "[Ljava.lang.String;".toList)
    | .listNode l =>
      if endsWithBrackets type then some (objectToString "ListNode".toList)
      else some (listNodeToString l)
    | .treeNode t =>
      if endsWithBrackets type then some (objectToString "TreeNode".toList)
      else treeNodeToString t
    | .string s => if endsWithBrackets type then some s else some ('"' :: s ++ ['"'])
    | .boolean b => some (if b then "true".toList else "false".toList)
    | .integer n => some (intToDec n)

end Java

/-! ## The C++ driver (fileHandler.js, `getCppDriver` and `generateOutputFormatting`, lines 198-540) -/

namespace Cpp

/-- What `stoi` throws. -/
inductive Exn
  | invalidArgument
  | outOfRange
  deriving DecidableEq, Repr

/-- `::isspace` in the C locale. -/
def isspace (c : Char) : Bool :=
  c = ' ' || c = '\t' || c = '\n' || c.toNat = 11 || c.toNat = 12 || c = '\r'

/-- `std::stoi(s)`: leading whitespace skipped, an optional sign, the longest run of
decimal digits; no digit throws `invalid_argument`, a value outside `int` throws
`out_of_range`; what follows the digits is ignored. -/
def stoi (s : Str) : Except Exn Int :=
  let body (neg : Bool) (r : Str) : Except Exn Int :=
    if (spanDigits r).1 = [] then .error .invalidArgument
    else
      let v : Int := if neg then -((digitsVal 0 (spanDigits r).1 : Nat) : Int)
        else ((digitsVal 0 (spanDigits r).1 : Nat) : Int)
      if isInt32 v then .ok v else .error .outOfRange
  match s.dropWhile isspace with
  | '-' :: r => body true r
  | '+' :: r => body false r
  | r => body false r

/-- Removes one leading `[` and then one trailing `]` (lines 229-230, 291-292).  On the
empty text `front()` and `back()` are undefined; nothing is removed there. -/
def stripBrackets (cleaned : Str) : Str :=
  let c1 := if startsWithChar cleaned '[' then cleaned.drop 1 else cleaned
  if endsWithChar c1 ']' then c1.dropLast else c1

/-- Removes one leading and then one trailing double quote of an item (lines 239-240). -/
def stripQuotes (item : Str) : Str :=
  let i1 := if startsWithChar item '"' then item.drop 1 else item
  if endsWithChar i1 '"' then i1.dropLast else i1

/-- The items that `while (getline(ss, item, ','))` yields and `!item.empty()` lets
through: the non-empty pieces between the commas. -/
def items (cleaned : Str) : List Str := (splitOn ',' cleaned).filter (fun i => !i.isEmpty)

/-- `stoi` of every item, quotes stripped, in order. -/
def parseItems : List Str → Except Exn (List Int)
  | [] => .ok []
  | item :: rest =>
    match stoi (stripQuotes item) with
    | .error e => .error e
    | .ok v =>
      match parseItems rest with
      | .error e => .error e
      | .ok vs => .ok (v :: vs)

/-- `Parser::parseIntArray(input)`: whitespace removed, brackets stripped, the items
through `stoi`. -/
def parseIntArray (input : Str) : Except Exn (List Int) :=
  let cleaned := stripBrackets (input.filter (fun c => !isspace c))
  if cleaned = [] then .ok [] else parseItems (items cleaned)

/-- `Parser::parseListNode(input)`: `nullptr` for no values, else the chain of the values. -/
def parseListNode (input : Str) : Except Exn ListRef :=
  match parseIntArray input with
  | .error e => .error e
  | .ok vs => .ok (ListRef.ofList vs)

/-- `Parser::parseStringArray(input)`: brackets stripped (whitespace is kept), the
non-empty items with their quotes stripped. -/
def parseStringArray (input : Str) : List Str :=
  let cleaned := stripBrackets input
  if cleaned = [] then [] else (items cleaned).map stripQuotes

/-- `Parser::parseTreeNode(input)`: `nullptr` for no values; else the tree built
breadth-first, a value being the null token when it is the text `null`. -/
def parseTreeNode (input : Str) : Except Exn TreeRef :=
  match parseStringArray input with
  | [] => .ok ⟨TreeHeap.empty, none⟩
  | first :: rest =>
    buildTree (fun v => v == "null".toList) stoi first (first :: rest)

/-- The loop `for (i = 0; i < n; i++) { if (i > 0) cout << ","; cout << item; }` on the
output written so far. -/
def printLoop : List Str → Nat → Str → Str
  | [], _, out => out
  | item :: rest, i, out => printLoop rest (i + 1) ((if 0 < i then out ++ [','] else out) ++ item)

/-- The line printed for a `vector<int>` result (lines 474-480). -/
def formatIntVector (result : List Int) : Str :=
  printLoop (result.map intToDec) 0 ['['] ++ [']']

/-- The `while (current != nullptr)` loop of the `ListNode*` formatter. -/
def listLoop : ListRef → Bool → Str → Str
  | .null, _, out => out
  | .node val next, first, out =>
    listLoop next false ((if first then out else out ++ [',']) ++ intToDec val)

/-- The line printed for a `ListNode*` result (lines 496-506). -/
def formatListNode (result : ListRef) : Str := listLoop result true ['['] ++ [']']

end Cpp

/-! ## The Python driver (fileHandler.js, `getPythonDriver`, lines 648-675) -/

namespace Py

/-- The Python values that results of the supported types are made of. -/
inductive Value
  | none
  | bool (b : Bool)
  | int (n : Int)
  | str (s : Str)
  | list (xs : List Value)

/-- The escape of one character of a string in `json.dumps` (with `ensure_ascii`). -/
def escapeChar (c : Char) : Str :=
  if c = '"' then ['\\', '"'] else if c = '\\' then ['\\', '\\']
  else if c = '\n' then ['\\', 'n'] else if c = '\r' then ['\\', 'r']
  else if c = '\t' then ['\\', 't'] else if c.toNat = 8 then ['\\', 'b']
  else if c.toNat = 12 then ['\\', 'f']
  else if c.toNat < 32 ∨ 126 < c.toNat then
    ((utf16 c).flatMap unicodeEscape).map Char.ofNat
  else [c]

mutual
/-- `json.dumps(v)` with the default separators `", "` and `": "`. -/
def dumps : Value → Str
  | .none => "null".toList
  | .bool true => "true".toList
  | .bool false => "false".toList
  | .int n => intToDec n
  | .str s => '"' :: s.flatMap escapeChar ++ ['"']
  | .list xs => '[' :: dumpsItems xs ++ [']']
/-- The items of a list, separated by a comma and a space. -/
def dumpsItems : List Value → Str
  | [] => []
  | [v] => dumps v
  | v :: w :: r => dumps v ++ ',' :: ' ' :: dumpsItems (w :: r)
end

/-- What the solution returns, as `serialize_result` tells it apart: a `ListNode`, a
`TreeNode`, or another value (`None`, a number, a string, a list). -/
inductive Result
  | value (v : Value)
  | listNode (val : Int) (next : ListRef)
  | treeNode (heap : TreeHeap) (root : Nat)

/-- The value of a token of the tree encoder. -/
def tokenValue : Option Int → Value
  | none => .none
  | some v => .int v

/-- The values of a chain of nodes, in order. -/
def chainValues : ListRef → List Int
  | .null => []
  | .node v next => v :: chainValues next

/-- `serialize_result(result, return_type)` (lines 648-675).  `none` stands for a call
that returns no text: `json.dumps` of a node object raises TypeError, and a tree
traversal may not end. -/
def serialize_result (result : Result) (return_type : Str) : Option Str :=
  match result with
  | .value .none => some (if endsWithBrackets return_type then "[]".toList else "null".toList)
  | .value v => some (dumps v)
  | .listNode val next =>
    if endsWithBrackets return_type then none
    else some (dumps (.list ((val :: chainValues next).map Value.int)))
  | .treeNode heap root =>
    if endsWithBrackets return_type then none
    else (levelOrderTokens heap root).map (fun ts => dumps (.list (ts.map tokenValue)))

end Py

/-! ## Level-order arrays -/

/-- The token at position `q` of an array; null beyond its end. -/
def tokAt (a : List (Option Int)) (q : Nat) : Option Int := (a[q]?).getD none

/-- The number of integer (non-null) tokens among the first `q` tokens. -/
def nodesBefore (a : List (Option Int)) (q : Nat) : Nat := (a.take q).countP Option.isSome

/-- The address of the node made from the token at position `q`: nodes are created in
the order of their tokens, so it is the number of integer tokens before `q`; `none`
for a null token. -/
def ptrAt (a : List (Option Int)) (q : Nat) : Option Nat :=
  if (tokAt a q).isSome then some (nodesBefore a q) else none

/-- The node at address `j` of the tree that the array describes in level order: its
value is the `j`-th integer token, its children are the tokens at `2 j + 1`, `2 j + 2`. -/
def cellOf (a : List (Option Int)) (j : Nat) : TreeCell :=
  ⟨(a.filterMap id).getD j 0, ptrAt a (1 + 2 * j), ptrAt a (2 + 2 * j)⟩

/-- An array of tokens is the level-order form of a binary tree: it is not empty, it
does not end in a null, and every token is the child slot of a node before it, that
is, at least `p / 2` of the `p` tokens before each position `p` are integers. -/
def LevelOrder (a : List (Option Int)) : Prop :=
  a ≠ [] ∧ a.getLast? ≠ some none ∧ ∀ p, p < a.length → p ≤ 2 * nodesBefore a p

instance (a : List (Option Int)) : Decidable (LevelOrder a) := by
  unfold LevelOrder
  exact inferInstanceAs (Decidable (_ ∧ _ ∧ ∀ p, p < a.length → _))

/-- The parts of a decoder are the texts of the tokens of `a`: there are as many, a
part passes the null test exactly when the token is null, and the part of an integer
token converts to that integer. -/
def TokensOf {τ ε : Type} (isNull : τ → Bool) (mk : τ → Except ε Int) (parts : List τ)
    (a : List (Option Int)) : Prop :=
  parts.length = a.length ∧
    ∀ q part, parts[q]? = some part →
      (isNull part = true ∧ tokAt a q = none)
        ∨ (isNull part = false ∧ ∃ v, mk part = .ok v ∧ tokAt a q = some v)

/-- A node with one child reference replaced. -/
def withChild (c : TreeCell) (isRight : Bool) (child : Option Nat) : TreeCell :=
  if isRight then ⟨c.val, c.left, child⟩ else ⟨c.val, child, c.right⟩

/-- A node the decoder has created but not yet taken from the queue. -/
def leafCell (a : List (Option Int)) (j : Nat) : TreeCell :=
  ⟨(a.filterMap id).getD j 0, none, none⟩

/-- A character of the text of a token: a digit, a minus sign, or a letter of `null`. -/
def isTokenChar (c : Char) : Bool :=
  isDigit c || c == '-' || c == 'n' || c == 'u' || c == 'l'

/-! ## Decoding followed by encoding -/

/-- The Java driver on a tree: `parseTreeNode` of the text, then `formatResult` of the
tree for the return type `TreeNode`; `none` when the decoder throws. -/
def Java.decodeEncodeTree (text : Str) : Option Str :=
  match Java.parseTreeNode (some text) with
  | .ok t => Java.formatResult (.treeNode t) "TreeNode".toList
  | .error _ => none

/-- The Java driver on a linked list: `parseListNode` of the text, then `formatResult`
of the list for the return type `ListNode`; `none` when the decoder throws. -/
def Java.decodeEncodeList (text : Str) : Option Str :=
  match Java.parseListNode (some text) with
  | .ok l => Java.formatResult (.listNode l) "ListNode".toList
  | .error _ => none

/-- The C++ driver on a linked list: `Parser::parseListNode`, then the `ListNode*`
formatter. -/
def Cpp.decodeEncodeList (text : Str) : Option Str :=
  match Cpp.parseListNode text with
  | .ok l => some (Cpp.formatListNode l)
  | .error _ => none

/-! ## Type mappers and driver generation (fileHandler.js, lines 169-540, 541-567, 700-737, 1001-1027) -/

/-- A text from its lines, joined by line feeds. -/
def joinLines (ls : List String) : Str := joinWith ['\n'] (ls.map String.toList)

/-- Piece 0 of the text of the C++ driver template of `getCppDriver` (fileHandler.js, from line 198), between the places where values are filled in. -/
def Cpp.template0 : Str :=
  joinLines [
    "#include <bits/stdc++.h>",
    "using namespace std;",
    "// Data structure definitions",
    "struct ListNode \x7b",
    "    int val;",
    "    ListNode *next;",
    "    ListNode() : val(0), next(nullptr) \x7b\x7d",
    "    ListNode(int x) : val(x), next(nullptr) \x7b\x7d",
    "    ListNode(int x, ListNode *next) : val(x), next(next) \x7b\x7d",
    "\x7d;",
    "",
    "struct TreeNode \x7b",
    "    int val;",
    "    TreeNode *left;",
    "    TreeNode *right;",
    "    TreeNode() : val(0), left(nullptr), right(nullptr) \x7b\x7d",
    "    TreeNode(int x) : val(x), left(nullptr), right(nullptr) \x7b\x7d",
    "    TreeNode(int x, TreeNode *left, TreeNode *right) : val(x), left(left), right(right) \x7b\x7d",
    "\x7d;",
    "",
    ""]

/-- Piece 1 of the text of the C++ driver template of `getCppDriver` (fileHandler.js, from line 198), between the places where values are filled in. -/
def Cpp.template1 : Str :=
  joinLines [
    "",
    "",
    "class Parser \x7b",
    "public:",
    "    static vector<int> parseIntArray(const string& input) \x7b",
    "        vector<int> result;",
    "        string cleaned = input;",
    "        // Remove all whitespace",
    "        cleaned.erase(remove_if(cleaned.begin(), cleaned.end(), ::isspace), cleaned.end());",
    "        // Remove outer brackets",
    "        if (cleaned.front() == \x27[\x27) cleaned = cleaned.substr(1);",
    "        if (cleaned.back() == \x27]\x27) cleaned = cleaned.substr(0, cleaned.length() - 1);",
    "        ",
    "        if(cleaned.empty()) return result;",
    "        ",
    "        stringstream ss(cleaned);",
    "        string item;",
    "        while (getline(ss, item, \x27,\x27)) \x7b",
    "            if (!item.empty()) \x7b",
    "                // Remove quotes if present",
    "                if (item.front() == \x27\x22\x27) item = item.substr(1);",
    "                if (item.back() == \x27\x22\x27) item = item.substr(0, item.length() - 1);",
    "                result.push_back(stoi(item));",
    "            \x7d",
    "        \x7d",
    "        return result;",
    "    \x7d",
    "static ListNode* parseListNode(const string& input) \x7b",
    "            vector<int> values = parseIntArray(input);",
    "            if (values.empty()) return nullptr;",
    "            ",
    "            ListNode* head = new ListNode(values[0]);",
    "            ListNode* current = head;",
    "            for (size_t i = 1; i < values.size(); i++) \x7b",
    "                current->next = new ListNode(values[i]);",
    "                current = current->next;",
    "            \x7d",
    "            return head;",
    "        \x7d",
    "",
    "        static TreeNode* parseTreeNode(const string& input) \x7b",
    "            vector<string> values = parseStringArray(input);",
    "            if (values.empty()) return nullptr;",
    "",
    "            TreeNode* root = new TreeNode(stoi(values[0]));",
    "            queue<TreeNode*> q;",
    "            q.push(root);",
    "            ",
    "            size_t i = 1;",
    "            while (!q.empty() && i < values.size()) \x7b",
    "                TreeNode* current = q.front();",
    "                q.pop();",
    "",
    "                if (i < values.size() && values[i] != \x22null\x22) \x7b",
    "                    current->left = new TreeNode(stoi(values[i]));",
    "                    q.push(current->left);",
    "                \x7d",
    "                i++;",
    "",
    "                if (i < values.size() && values[i] != \x22null\x22) \x7b",
    "                    current->right = new TreeNode(stoi(values[i]));",
    "                    q.push(current->right);",
    "                \x7d",
    "                i++;",
    "            \x7d",
    "            return root;",
    "        \x7d",
    "",
    "    static vector<string> parseStringArray(const string& input) \x7b",
    "        vector<string> result;",
    "        string cleaned = input;",
    "        // Remove outer brackets",
    "        if (cleaned.front() == \x27[\x27) cleaned = cleaned.substr(1);",
    "        if (cleaned.back() == \x27]\x27) cleaned = cleaned.substr(0, cleaned.length() - 1);",
    "        ",
    "        if(cleaned.empty()) return result;",
    "        ",
    "        stringstream ss(cleaned);",
    "        string item;",
    "        while (getline(ss, item, \x27,\x27)) \x7b",
    "            if (!item.empty()) \x7b",
    "                // Remove quotes",
    "                if (item.front() == \x27\x22\x27) item = item.substr(1);",
    "                if (item.back() == \x27\x22\x27) item = item.substr(0, item.length() - 1);",
    "                result.push_back(item);",
    "            \x7d",
    "        \x7d",
    "        return result;",
    "    \x7d",
    "",
    "    static string parseParam(const string& line, const string& paramName) \x7b",
    "        string prefix = \x22\x5c\x22\x22 + paramName + \x22\x5c\x22:\x22;",
    "        size_t start = line.find(prefix);",
    "        if (start == string::npos) return \x22\x22;",
    "        ",
    "        start += prefix.length();",
    "        while (start < line.length() && (line[start] == \x27 \x27 || line[start] == \x27\x22\x27)) start++;",
    "        ",
    "        size_t end;",
    "        if (line[start] == \x27[\x27) \x7b",
    "            // Handle array",
    "            int bracketCount = 1;",
    "            end = start + 1;",
    "            while (end < line.length() && bracketCount > 0) \x7b",
    "                if (line[end] == \x27[\x27) bracketCount++;",
    "                if (line[end] == \x27]\x27) bracketCount\x2d\x2d;",
    "                end++;",
    "            \x7d",
    "        \x7d else \x7b",
    "            // Handle non-array",
    "            end = line.find(\x27,\x27, start);",
    "            if (end == string::npos) \x7b",
    "                end = line.find(\x27\x7d\x27, start);",
    "            \x7d",
    "            if (end == string::npos) end = line.length();",
    "        \x7d",
    "        ",
    "        string value = line.substr(start, end - start);",
    "        // Remove trailing quotes if present",
    "        if (value.back() == \x27\x22\x27) value = value.substr(0, value.length() - 1);",
    "        return value;",
    "    \x7d",
    "\x7d;",
    "class MemoryManager \x7b",
    "    public:",
    "        static void freeListNode(ListNode* head) \x7b",
    "            while (head) \x7b",
    "                ListNode* temp = head;",
    "                head = head->next;",
    "                delete temp;",
    "            \x7d",
    "        \x7d",
    "",
    "        static void freeTreeNode(TreeNode* root) \x7b",
    "            if (!root) return;",
    "            freeTreeNode(root->left);",
    "            freeTreeNode(root->right);",
    "            delete root;",
    "        \x7d",
    "\x7d;",
    "// Formatter class implementation remains the same...",
    "",
    "int main() \x7b",
    "    string line;",
    "    while (getline(cin, line)) \x7b",
    "        try \x7b",
    "            // Parse parameters",
    "            "]

/-- Piece 2 of the text of the C++ driver template of `getCppDriver` (fileHandler.js, from line 198), between the places where values are filled in. -/
def Cpp.template2 : Str :=
  joinLines [
    "",
    "            ",
    "            // Create solution instance and call function",
    "            Solution solution;",
    "            auto result = solution."]

/-- Piece 3 of the text of the C++ driver template of `getCppDriver` (fileHandler.js, from line 198), between the places where values are filled in. -/
def Cpp.template3 : Str :=
  joinLines [
    "("]

/-- Piece 4 of the text of the C++ driver template of `getCppDriver` (fileHandler.js, from line 198), between the places where values are filled in. -/
def Cpp.template4 : Str :=
  joinLines [
    ");",
    "            ",
    "            // Format and output result",
    "            "]

/-- Piece 5 of the text of the C++ driver template of `getCppDriver` (fileHandler.js, from line 198), between the places where values are filled in. -/
def Cpp.template5 : Str :=
  joinLines [
    "",
    "            // Cleanup if needed",
    "            "]

/-- Piece 6 of the text of the C++ driver template of `getCppDriver` (fileHandler.js, from line 198), between the places where values are filled in. -/
def Cpp.template6 : Str :=
  joinLines [
    "",
    "        \x7d catch (const exception& e) \x7b",
    "            cerr << \x22Error: \x22 << e.what() << endl;",
    "        \x7d",
    "    \x7d",
    "    return 0;",
    "\x7d"]

/-- Piece 0 of the text of the Python driver template of `getPythonDriver` (fileHandler.js, from line 570), between the places where values are filled in. -/
def Py.template0 : Str :=
  joinLines [
    "import sys",
    "import json",
    "from typing import List, Optional, Any",
    "from collections import deque",
    "",
    "# Definition for singly-linked list",
    "class ListNode:",
    "  def __init__(self, val=0, next=None):",
    "    self.val = val",
    "    self.next = next",
    "",
    "# Definition for a binary tree node",
    "class TreeNode:",
    "  def __init__(self, val=0, left=None, right=None):",
    "    self.val = val",
    "    self.left = left",
    "    self.right = right",
    "",
    ""]

/-- Piece 1 of the text of the Python driver template of `getPythonDriver` (fileHandler.js, from line 570), between the places where values are filled in. -/
def Py.template1 : Str :=
  joinLines [
    "",
    "",
    "def parse_param(param_str, param_type):",
    "  try:",
    "    if not param_str or param_str == \x27null\x27 or param_str == \x27\x7b\x7d\x27:",
    "        if param_type in [\x27ListNode\x27, \x27listnode\x27, \x27TreeNode\x27, \x27treenode\x27,\x27ListNode*\x27, \x27listnode*\x27, \x27TreeNode*\x27, \x27treenode*\x27]:",
    "                return None",
    "        elif param_type.endswith(\x27[]\x27):",
    "                return []",
    "        elif param_type == \x27integer\x27:",
    "                return 0",
    "        elif param_type == \x27string\x27:",
    "                return \x22\x22",
    "        elif param_type == \x27boolean\x27:",
    "                return False",
    "        return None  ",
    "    if param_type.endswith(\x27[]\x27):",
    "        data = json.loads(param_str)",
    "        return [int(x) if x is not None else None for x in data]",
    "    elif param_type == \x27integer\x27:",
    "        return int(param_str)",
    "    elif param_type == \x27string\x27:",
    "        return str(param_str)",
    "    elif param_type == \x27boolean\x27:",
    "        return param_str.lower() == \x27true\x27",
    "    elif param_type in [\x27ListNode\x27, \x27listnode\x27,\x27ListNode*\x27, \x27listnode*\x27]:",
    "        values = json.loads(param_str)",
    "        if not values:",
    "            return None",
    "        dummy = ListNode(0)",
    "        curr = dummy",
    "        for val in values:",
    "            if val is not None:",
    "                curr.next = ListNode(val)",
    "                curr = curr.next",
    "        return dummy.next",
    "    elif param_type in [\x27TreeNode\x27, \x27treenode\x27,\x27TreeNode*\x27, \x27treenode*\x27]:",
    "        values = json.loads(param_str)",
    "        if not values:",
    "            return None",
    "        root = TreeNode(values[0])",
    "        queue = deque([root])",
    "        i = 1",
    "        while queue and i < len(values):",
    "            node = queue.popleft()",
    "            if i < len(values) and values[i] is not None:",
    "                node.left = TreeNode(values[i])",
    "                queue.append(node.left)",
    "            i += 1",
    "            if i < len(values) and values[i] is not None:",
    "                node.right = TreeNode(values[i])",
    "                queue.append(node.right)",
    "            i += 1",
    "        return root",
    "    return param_str",
    "  except Exception as e:",
    "    print(f\x22Error parsing parameter: \x7be\x7d\x22, file=sys.stderr)",
    "    return None",
    "",
    "def serialize_result(result, return_type):",
    "  if result is None:",
    "    return \x27[]\x27 if return_type.endswith(\x27[]\x27) else \x27null\x27",
    "  if return_type.endswith(\x27[]\x27):",
    "    return json.dumps(result)",
    "  elif isinstance(result, (ListNode, TreeNode)):",
    "    values = []",
    "    if isinstance(result, ListNode):",
    "      curr = result",
    "      while curr:",
    "        values.append(curr.val)",
    "        curr = curr.next",
    "    else:  # TreeNode",
    "      if not result:",
    "        return \x27[]\x27",
    "      queue = deque([result])",
    "      while queue:",
    "          node = queue.popleft()",
    "          if node:",
    "              values.append(node.val)",
    "              queue.append(node.left)",
    "              queue.append(node.right)",
    "          else:",
    "              values.append(None)",
    "      while values and values[-1] is None:",
    "          values.pop()",
    "    return json.dumps(values)",
    "  return json.dumps(result)",
    "",
    "def main():",
    "  for line in sys.stdin:",
    "    try:",
    "      data = json.loads(line)",
    "      solution = Solution()",
    "",
    "      # Parse parameters",
    "      params = []",
    "      "]

/-- Piece 2 of the text of the Python driver template of `getPythonDriver` (fileHandler.js, from line 570), between the places where values are filled in. -/
def Py.template2 : Str :=
  joinLines [
    "",
    "",
    "      # Call solution function",
    "      result = solution."]

/-- Piece 3 of the text of the Python driver template of `getPythonDriver` (fileHandler.js, from line 570), between the places where values are filled in. -/
def Py.template3 : Str :=
  joinLines [
    "(*params)",
    "",
    "      # Serialize and print result",
    "      print(serialize_result(result, \x22"]

/-- Piece 4 of the text of the Python driver template of `getPythonDriver` (fileHandler.js, from line 570), between the places where values are filled in. -/
def Py.template4 : Str :=
  joinLines [
    "\x22))",
    "",
    "    except Exception as e:",
    "      print(f\x22Error: \x7bstr(e)\x7d\x22, file=sys.stderr)",
    "      sys.exit(1)",
    "",
    "if __name__ == \x27__main__\x27:",
    "  main()"]

/-- Piece 0 of the text of the Java driver template of `getJavaDriver` (fileHandler.js, from line 743), between the places where values are filled in. -/
def Java.template0 : Str :=
  joinLines [
    "import java.util.*;",
    "import java.io.*;",
    "",
    "// Data structure definitions",
    "class ListNode \x7b",
    "    int val;",
    "    ListNode next;",
    "    ListNode() \x7b\x7d",
    "    ListNode(int val) \x7b this.val = val; \x7d",
    "    ListNode(int val, ListNode next) \x7b this.val = val; this.next = next; \x7d",
    "\x7d",
    "",
    "class TreeNode \x7b",
    "    int val;",
    "    TreeNode left;",
    "    TreeNode right;",
    "    TreeNode() \x7b\x7d",
    "    TreeNode(int val) \x7b this.val = val; \x7d",
    "    TreeNode(int val, TreeNode left, TreeNode right) \x7b",
    "        this.val = val;",
    "        this.left = left;",
    "        this.right = right;",
    "    \x7d",
    "\x7d",
    "",
    ""]

/-- Piece 1 of the text of the Java driver template of `getJavaDriver` (fileHandler.js, from line 743), between the places where values are filled in. -/
def Java.template1 : Str :=
  joinLines [
    "",
    "",
    "class Main \x7b",
    "    public static void main(String[] args) \x7b",
    "        try (BufferedReader reader = new BufferedReader(new InputStreamReader(System.in))) \x7b",
    "            Solution solution = new Solution();",
    "            String line;",
    "            ",
    "            while ((line = reader.readLine()) != null && !line.trim().isEmpty()) \x7b",
    "                try \x7b",
    "                    // Parse input line as JSON object",
    "                    Map<String, String> input = parseInput(line);",
    "                    ",
    "                    // Parse parameters",
    "                    "]

/-- Piece 2 of the text of the Java driver template of `getJavaDriver` (fileHandler.js, from line 743), between the places where values are filled in. -/
def Java.template2 : Str :=
  joinLines [
    "",
    "                    ",
    "                    // Call solution method",
    "                    var result = solution."]

/-- Piece 3 of the text of the Java driver template of `getJavaDriver` (fileHandler.js, from line 743), between the places where values are filled in. -/
def Java.template3 : Str :=
  joinLines [
    "("]

/-- Piece 4 of the text of the Java driver template of `getJavaDriver` (fileHandler.js, from line 743), between the places where values are filled in. -/
def Java.template4 : Str :=
  joinLines [
    ");",
    "                    ",
    "                    // Format and print result",
    "                    System.out.println(formatResult(result, \x22"]

/-- Piece 5 of the text of the Java driver template of `getJavaDriver` (fileHandler.js, from line 743), between the places where values are filled in. -/
def Java.template5 : Str :=
  joinLines [
    "\x22));",
    "                    ",
    "                \x7d catch (Exception e) \x7b",
    "                    System.err.println(\x22Error processing test case: \x22 + e.getMessage());",
    "                    e.printStackTrace();",
    "                \x7d",
    "            \x7d",
    "        \x7d catch (IOException e) \x7b",
    "            System.err.println(\x22IO Error: \x22 + e.getMessage());",
    "            e.printStackTrace();",
    "        \x7d",
    "    \x7d",
    "",
    "    private static Map<String, String> parseInput(String line) \x7b",
    "        Map<String, String> result = new HashMap<>();",
    "        line = line.trim();",
    "        if (line.startsWith(\x22\x7b\x22)) line = line.substring(1);",
    "        if (line.endsWith(\x22\x7d\x22)) line = line.substring(0, line.length() - 1);",
    "        ",
    "        StringBuilder key = new StringBuilder();",
    "        StringBuilder value = new StringBuilder();",
    "        boolean inKey = true;",
    "        boolean inQuotes = false;",
    "        int bracketCount = 0;",
    "        ",
    "        for (int i = 0; i < line.length(); i++) \x7b",
    "            char c = line.charAt(i);",
    "            ",
    "            if (c == \x27\x22\x27 && (i == 0 || line.charAt(i - 1) != \x27\x5c\x5c\x27)) \x7b  // Fixed backslash escaping",
    "                inQuotes = !inQuotes;",
    "                continue;  // Skip to next iteration after handling quote",
    "            \x7d",
    "            ",
    "            if (c == \x27[\x27 || c == \x27\x7b\x27) \x7b",
    "                bracketCount++;",
    "            \x7d else if (c == \x27]\x27 || c == \x27\x7d\x27) \x7b",
    "                bracketCount\x2d\x2d;",
    "            \x7d",
    "            ",
    "            if (c == \x27:\x27 && !inQuotes && bracketCount == 0 && inKey) \x7b",
    "                inKey = false;",
    "            \x7d else if (c == \x27,\x27 && !inQuotes && bracketCount == 0 && !inKey) \x7b",
    "                String keyStr = key.toString().trim().replace(\x22\x5c\x22\x22, \x22\x22);",
    "                String valueStr = value.toString().trim();",
    "                result.put(keyStr, valueStr);",
    "                key = new StringBuilder();",
    "                value = new StringBuilder();",
    "                inKey = true;",
    "            \x7d else if (inKey && !Character.isWhitespace(c)) \x7b",
    "                key.append(c);",
    "            \x7d else if (!inKey && !Character.isWhitespace(c)) \x7b",
    "                value.append(c);",
    "            \x7d",
    "        \x7d",
    "        ",
    "        // Add the last key-value pair",
    "        if (key.length() > 0) \x7b",
    "            String keyStr = key.toString().trim().replace(\x22\x5c\x22\x22, \x22\x22);",
    "            String valueStr = value.toString().trim();",
    "            result.put(keyStr, valueStr);",
    "        \x7d",
    "        ",
    "        return result;",
    "    \x7d",
    "",
    "    private static int[] parseIntArray(String value) \x7b",
    "        if (value == null || value.equals(\x22null\x22)) return null;",
    "        value = value.trim();",
    "        if (value.startsWith(\x22[\x22)) value = value.substring(1);",
    "        if (value.endsWith(\x22]\x22)) value = value.substring(0, value.length() - 1);",
    "        if (value.isEmpty()) return new int[0];",
    "        ",
    "        String[] parts = value.split(\x22,\x22);",
    "        int[] result = new int[parts.length];",
    "        for (int i = 0; i < parts.length; i++) \x7b",
    "            result[i] = Integer.parseInt(parts[i].trim());",
    "        \x7d",
    "        return result;",
    "    \x7d",
    "",
    "    private static String[] parseStringArray(String value) \x7b",
    "        if (value == null || value.equals(\x22null\x22)) return null;",
    "        value = value.trim();",
    "        if (value.startsWith(\x22[\x22)) value = value.substring(1);",
    "        if (value.endsWith(\x22]\x22)) value = value.substring(0, value.length() - 1);",
    "        if (value.isEmpty()) return new String[0];",
    "        ",
    "        String[] parts = value.split(\x22,\x22);",
    "        for (int i = 0; i < parts.length; i++) \x7b",
    "            parts[i] = parts[i].trim();",
    "            if (parts[i].startsWith(\x22\x5c\x22\x22)) parts[i] = parts[i].substring(1);",
    "            if (parts[i].endsWith(\x22\x5c\x22\x22)) parts[i] = parts[i].substring(0, parts[i].length() - 1);",
    "        \x7d",
    "        return parts;",
    "    \x7d",
    "",
    "    private static ListNode parseListNode(String value) \x7b",
    "        int[] values = parseIntArray(value);",
    "        if (values == null || values.length == 0) return null;",
    "        ",
    "        ListNode dummy = new ListNode(0);",
    "        ListNode current = dummy;",
    "        for (int val : values) \x7b",
    "            current.next = new ListNode(val);",
    "            current = current.next;",
    "        \x7d",
    "        return dummy.next;",
    "    \x7d",
    "",
    "    private static TreeNode parseTreeNode(String value) \x7b",
    "        if (value == null || value.equals(\x22null\x22) || value.equals(\x22[]\x22)) return null;",
    "        ",
    "        value = value.trim();",
    "        if (value.startsWith(\x22[\x22)) value = value.substring(1);",
    "        if (value.endsWith(\x22]\x22)) value = value.substring(0, value.length() - 1);",
    "        if (value.isEmpty()) return null;",
    "        ",
    "        String[] parts = value.split(\x22,\x22);",
    "        Queue<TreeNode> queue = new LinkedList<>();",
    "        TreeNode root = new TreeNode(Integer.parseInt(parts[0].trim()));",
    "        queue.offer(root);",
    "        ",
    "        int i = 1;",
    "        while (!queue.isEmpty() && i < parts.length) \x7b",
    "            TreeNode current = queue.poll();",
    "            ",
    "            if (i < parts.length && !parts[i].trim().equals(\x22null\x22)) \x7b",
    "                current.left = new TreeNode(Integer.parseInt(parts[i].trim()));",
    "                queue.offer(current.left);",
    "            \x7d",
    "            i++;",
    "            ",
    "            if (i < parts.length && !parts[i].trim().equals(\x22null\x22)) \x7b",
    "                current.right = new TreeNode(Integer.parseInt(parts[i].trim()));",
    "                queue.offer(current.right);",
    "            \x7d",
    "            i++;",
    "        \x7d",
    "        ",
    "        return root;",
    "    \x7d",
    "",
    "    private static String formatResult(Object result, String type) \x7b",
    "        if (result == null) \x7b",
    "            return \x22null\x22;",
    "        \x7d",
    "",
    "        if (type.endsWith(\x22[]\x22)) \x7b",
    "            if (result instanceof int[]) \x7b",
    "                return Arrays.toString((int[]) result).replace(\x22 \x22, \x22\x22);",
    "            \x7d else if (result instanceof String[]) \x7b",
    "                StringBuilder sb = new StringBuilder(\x22[\x22);",
    "                String[] arr = (String[]) result;",
    "                for (int i = 0; i < arr.length; i++) \x7b",
    "                    if (i > 0) sb.append(\x22,\x22);",
    "                    sb.append(\x22\x5c\x22\x22).append(arr[i]).append(\x22\x5c\x22\x22);",
    "                \x7d",
    "                return sb.append(\x22]\x22).toString();",
    "            \x7d else if (result instanceof List) \x7b",
    "                return result.toString().replace(\x22 \x22, \x22\x22);",
    "            \x7d",
    "        \x7d else if (result instanceof ListNode) \x7b",
    "            return listNodeToString((ListNode) result);",
    "        \x7d else if (result instanceof TreeNode) \x7b",
    "            return treeNodeToString((TreeNode) result);",
    "        \x7d else if (result instanceof String) \x7b",
    "            return \x22\x5c\x22\x22 + result + \x22\x5c\x22\x22;",
    "        \x7d else if (result instanceof Boolean || result instanceof Integer) \x7b",
    "            return result.toString();",
    "        \x7d",
    "        ",
    "        return result.toString();",
    "    \x7d",
    "",
    "    private static String listNodeToString(ListNode node) \x7b",
    "        StringBuilder sb = new StringBuilder(\x22[\x22);",
    "        boolean first = true;",
    "        while (node != null) \x7b",
    "            if (!first) sb.append(\x22,\x22);",
    "            sb.append(node.val);",
    "            first = false;",
    "            node = node.next;",
    "        \x7d",
    "        return sb.append(\x22]\x22).toString();",
    "    \x7d",
    "",
    "    private static String treeNodeToString(TreeNode root) \x7b",
    "        if (root == null) return \x22[]\x22;",
    "        ",
    "        List<String> values = new ArrayList<>();",
    "        Queue<TreeNode> queue = new LinkedList<>();",
    "        queue.offer(root);",
    "        ",
    "        while (!queue.isEmpty()) \x7b",
    "            TreeNode node = queue.poll();",
    "            if (node == null) \x7b",
    "                values.add(\x22null\x22);",
    "            \x7d else \x7b",
    "                values.add(String.valueOf(node.val));",
    "                queue.offer(node.left);",
    "                queue.offer(node.right);",
    "            \x7d",
    "        \x7d",
    "        ",
    "        // Remove trailing nulls",
    "        while (!values.isEmpty() && values.get(values.size() - 1).equals(\x22null\x22)) \x7b",
    "            values.remove(values.size() - 1);",
    "        \x7d",
    "        ",
    "        return values.toString().replace(\x22 \x22, \x22\x22);",
    "    \x7d",
    "\x7d"]

/-- A parameter of the signature: `param.name` and `param.type`. -/
structure Param where
  name : Str
  type : Str

/-- The fields of the metadata that driver generation reads: `metadata.name`,
`metadata.params` and `metadata.return.type`. -/
structure Signature where
  name : Str
  params : List Param
  returnType : Str

/-- The state of a `FileHandler` object (set by its constructor). -/
structure FileHandler where
  workspaceRoot : Str
  cphDir : Str

/-- What `typeMap[key]` evaluates to when it is not `undefined`: the text stored under
an own key of the table, or a member that every JavaScript object inherits from
`Object.prototype`. -/
inductive Mapped
  | text (s : Str)
  | inherited (member : Str)
  deriving DecidableEq, Repr

/-- The property names every object inherits from `Object.prototype`. -/
def objectPrototypeMembers : List Str :=
  ["constructor", "__proto__", "hasOwnProperty", "isPrototypeOf", "propertyIsEnumerable",
   "toLocaleString", "toString", "valueOf", "__defineGetter__", "__defineSetter__",
   "__lookupGetter__", "__lookupSetter__"].map String.toList

/-- `table[key]`: the own entry, else an inherited member, else `undefined` (`none`). -/
def tableLookup (table : List (Str × Str)) (key : Str) : Option Mapped :=
  match table.lookup key with
  | some v => some (.text v)
  | none => if key ∈ objectPrototypeMembers then some (.inherited key) else none

/-- The text that string interpolation gives a mapped type. -/
def Mapped.toText : Mapped → Str
  | .text s => s
  | .inherited m =>
    if m = "__proto__".toList then "[object Object]".toList
    else "function ".toList ++ (if m = "constructor".toList then "Object".toList else m)
      ++ "() \x7b [native code] \x7d".toList

/-- `s.replace(c, '')` for a one-character pattern: the first occurrence is removed. -/
def removeFirst (c : Char) : Str → Str
  | [] => []
  | d :: r => if d = c then r else d :: removeFirst c r

/-- `type.replace('?', '').trim()`. -/
def cleanType (type : Str) : Str := trim (removeFirst '?' type)

/-- The `typeMap` of `mapLeetCodeType` (lines 440-457). -/
def cppTypeMap : List (Str × Str) :=
  [("integer[]", "vector<int>"), ("integer", "int"), ("string[]", "vector<string>"),
   ("string", "string"), ("boolean", "bool"), ("double", "double"),
   ("list<integer>", "vector<int>"), ("list<string>", "vector<string>"),
   ("listnode", "ListNode*"), ("ListNode", "ListNode*"), ("ListNode*", "ListNode*"),
   ("listnode*", "ListNode*"), ("treenode", "TreeNode*"), ("TreeNode", "TreeNode*"),
   ("TreeNode*", "TreeNode*"), ("treenode*", "TreeNode*")].map
    (fun p => (p.1.toList, p.2.toList))

/-- The `typeMap` of `mapPythonType` (lines 545-558). -/
def pythonTypeMap : List (Str × Str) :=
  [("integer[]", "List[int]"), ("integer", "int"), ("string[]", "List[str]"),
   ("string", "str"), ("boolean", "bool"), ("double", "float"),
   ("list<integer>", "List[int]"), ("list<string>", "List[str]"),
   ("listnode", "Optional[ListNode]"), ("ListNode", "Optional[ListNode]"),
   ("treenode", "Optional[TreeNode]"), ("TreeNode", "Optional[TreeNode]")].map
    (fun p => (p.1.toList, p.2.toList))

/-- The `typeMap` of `mapJavaType` (lines 710-729). -/
def javaTypeMap : List (Str × Str) :=
  [("integer[]", "int[]"), ("Integer[]", "int[]"), ("integer", "int"), ("Integer", "int"),
   ("string[]", "String[]"), ("String[]", "String[]"), ("string", "String"),
   ("String", "String"), ("boolean", "boolean"), ("Boolean", "boolean"),
   ("double", "double"), ("Double", "double"), ("list<integer>", "List<Integer>"),
   ("list<string>", "List<String>"), ("listnode", "ListNode"), ("ListNode", "ListNode"),
   ("treenode", "TreeNode"), ("TreeNode", "TreeNode")].map
    (fun p => (p.1.toList, p.2.toList))

/-- `mapLeetCodeType(type)`: the table entry of the cleaned, lower-cased token, else
the raw token itself. -/
def mapLeetCodeType (type : Str) : Mapped :=
  match tableLookup cppTypeMap (toLowerCase (cleanType type)) with
  | some m => m
  | none => .text type

/-- `mapPythonType(type)` for a string argument: the table entry of the cleaned,
lower-cased token, else `Any`. -/
def mapPythonType (type : Str) : Mapped :=
  match tableLookup pythonTypeMap (toLowerCase (cleanType type)) with
  | some m => m
  | none => .text "Any".toList

/-- `mapJavaType(type)` for a string argument: the table entry of the cleaned token as
it is written, else that of its lower-cased form, else `Object`. -/
def mapJavaType (type : Str) : Mapped :=
  match tableLookup javaTypeMap (cleanType type) with
  | some m => m
  | none =>
    match tableLookup javaTypeMap (toLowerCase (cleanType type)) with
    | some m => m
    | none => .text "Object".toList

/-- The text that `generateParamParsing` produces for one parameter (lines 398-432),
or the message of the Error it throws for an unsupported type. -/
def cppParamParsing (name : Str) (mappedType : Mapped) : Except Str Str :=
  if mappedType = .text "vector<int>".toList then
    .ok ("\n                string ".toList ++ name ++ "_str = Parser::parseParam(line, \x22".toList ++ name ++ "\x22);\n                vector<int> ".toList ++ name ++ " = Parser::parseIntArray(".toList ++ name ++ "_str);".toList)
  else if mappedType = .text "int".toList then
    .ok ("\n                string ".toList ++ name ++ "_str = Parser::parseParam(line, \x22".toList ++ name ++ "\x22);\n                int ".toList ++ name ++ " = stoi(".toList ++ name ++ "_str);".toList)
  else if mappedType = .text "vector<string>".toList then
    .ok ("\n                string ".toList ++ name ++ "_str = Parser::parseParam(line, \x22".toList ++ name ++ "\x22);\n                vector<string> ".toList ++ name ++ " = Parser::parseStringArray(".toList ++ name ++ "_str);".toList)
  else if mappedType = .text "string".toList then
    .ok ("\n                string ".toList ++ name ++ " = Parser::parseParam(line, \x22".toList ++ name ++ "\x22);\n                if (".toList ++ name ++ "[0] == \x27\x22\x27) \x7b\n                    ".toList ++ name ++ " = ".toList ++ name ++ ".substr(1, ".toList ++ name ++ ".length() - 2);\n                \x7d".toList)
  else if mappedType = .text "bool".toList then
    .ok ("\n                string ".toList ++ name ++ "_str = Parser::parseParam(line, \x22".toList ++ name ++ "\x22);\n                bool ".toList ++ name ++ " = (".toList ++ name ++ "_str == \x22true\x22 || ".toList ++ name ++ "_str == \x221\x22);".toList)
  else if mappedType = .text "ListNode*".toList then
    .ok ("\n                string ".toList ++ name ++ "_str = Parser::parseParam(line, \x22".toList ++ name ++ "\x22);\n                ListNode* ".toList ++ name ++ " = Parser::parseListNode(".toList ++ name ++ "_str);".toList)
  else if mappedType = .text "TreeNode*".toList then
    .ok ("\n                string ".toList ++ name ++ "_str = Parser::parseParam(line, \x22".toList ++ name ++ "\x22);\n                TreeNode* ".toList ++ name ++ " = Parser::parseTreeNode(".toList ++ name ++ "_str);".toList)
  else .error ("Unsupported parameter type: ".toList ++ mappedType.toText)

/-- `xs.map(f)` for an `f` that may throw: the results in order, or the first Error. -/
def mapExcept {α β : Type} (f : α → Except Str β) : List α → Except Str (List β)
  | [] => .ok []
  | x :: r =>
    match f x with
    | .error e => .error e
    | .ok y =>
      match mapExcept f r with
      | .error e => .error e
      | .ok ys => .ok (y :: ys)

/-- `generateParamParsing(metadata)`: the texts of the parameters joined by a line feed
and twelve spaces. -/
def generateParamParsing (metadata : Signature) : Except Str Str :=
  match mapExcept (fun p => cppParamParsing p.name (mapLeetCodeType p.type)) metadata.params with
  | .error e => .error e
  | .ok texts => .ok (joinWith "\n            ".toList texts)

/-- `generateFunctionParams(metadata)`: the parameter names joined by `, `. -/
def generateFunctionParams (metadata : Signature) : Str :=
  joinWith ", ".toList (metadata.params.map (fun p => p.name))

/-- `generateOutputFormatting(returnType)` (lines 470-540): the C++ statements that print
the result, or the message of the Error thrown for an unsupported return type. -/
def generateOutputFormatting (returnType : Str) : Except Str Str :=
  if mapLeetCodeType returnType = .text "vector<int>".toList then
    .ok ("\n          cout << \x22[\x22;\n          for(size_t i = 0; i < result.size(); i++) \x7b\n              if(i > 0) cout << \x22,\x22;\n              cout << result[i];\n          \x7d\n          cout << \x22]\x22 << endl;".toList)
  else if mapLeetCodeType returnType = .text "vector<string>".toList then
    .ok ("\n          cout << \x22[\x22;\n          for(size_t i = 0; i < result.size(); i++) \x7b\n              if(i > 0) cout << \x22,\x22;\n              cout << \x22\x5c\x22\x22 << result[i] << \x22\x5c\x22\x22;\n          \x7d\n          cout << \x22]\x22 << endl;".toList)
  else if mapLeetCodeType returnType = .text "int".toList then
    .ok ("cout << result << endl;".toList)
  else if mapLeetCodeType returnType = .text "string".toList then
    .ok ("cout << \x22\x5c\x22\x22 << result << \x22\x5c\x22\x22 << endl;".toList)
  else if mapLeetCodeType returnType = .text "bool".toList then
    .ok ("cout << (result ? \x22true\x22 : \x22false\x22) << endl;".toList)
  else if mapLeetCodeType returnType = .text "ListNode*".toList then
    .ok ("\n          cout << \x22[\x22;\n          ListNode* current = result;\n          bool first = true;\n          while (current != nullptr) \x7b\n              if (!first) cout << \x22,\x22;\n              cout << current->val;\n              first = false;\n              current = current->next;\n          \x7d\n          cout << \x22]\x22 << endl;".toList)
  else if mapLeetCodeType returnType = .text "TreeNode*".toList then
    .ok ("\n          if (!result) \x7b\n              cout << \x22[]\x22 << endl;\n              return;\n          \x7d\n          vector<string> output;\n          queue<TreeNode*> q;\n          q.push(result);\n          while (!q.empty()) \x7b\n              TreeNode* node = q.front();\n              q.pop();\n              if (node) \x7b\n                  output.push_back(to_string(node->val));\n                  q.push(node->left);\n                  q.push(node->right);\n              \x7d else \x7b\n                  output.push_back(\x22null\x22);\n              \x7d\n          \x7d\n          // Remove trailing nulls\n          while (!output.empty() && output.back() == \x22null\x22) \x7b\n              output.pop_back();\n          \x7d\n          cout << \x22[\x22;\n          for (size_t i = 0; i < output.size(); i++) \x7b\n              if (i > 0) cout << \x22,\x22;\n              cout << output[i];\n          \x7d\n          cout << \x22]\x22 << endl;".toList)
  else .error ("Unsupported return type: ".toList ++ (mapLeetCodeType returnType).toText)

/-- `generateCleanup(returnType)` (lines 384-394). -/
def generateCleanup (returnType : Str) : Str :=
  if mapLeetCodeType returnType = .text "ListNode*".toList then "MemoryManager::freeListNode(result);".toList
  else if mapLeetCodeType returnType = .text "TreeNode*".toList then "MemoryManager::freeTreeNode(result);".toList
  else []

/-- `getCppDriver(userCode, paramTypes, returnType, metadata)`: the template filled in,
its places evaluated from top to bottom; the first Error thrown ends the call. -/
def getCppDriver (userCode : Str) (metadata : Signature) : Except Str Str :=
  match generateParamParsing metadata with
  | .error e => .error e
  | .ok paramParsing =>
    match generateOutputFormatting metadata.returnType with
    | .error e => .error e
    | .ok outputFormatting =>
      .ok (Cpp.template0 ++ userCode ++ Cpp.template1 ++ paramParsing ++ Cpp.template2
        ++ metadata.name ++ Cpp.template3 ++ generateFunctionParams metadata ++ Cpp.template4
        ++ outputFormatting ++ Cpp.template5 ++ generateCleanup metadata.returnType
        ++ Cpp.template6)

/-- `generatePythonParamParsing(metadata)`: one `params.append` per parameter, joined by
`Array.prototype.join()` with its default separator, a comma. -/
def generatePythonParamParsing (metadata : Signature) : Str :=
  joinWith ",".toList (metadata.params.map (fun p =>
    (fun (name type : Str) => "params.append(parse_param(data[\x27".toList ++ name ++ "\x27], \x27".toList ++ type ++ "\x27))".toList) p.name p.type))

/-- `getPythonDriver(userCode, paramTypes, returnType, metadata)`. -/
def getPythonDriver (userCode : Str) (metadata : Signature) : Str :=
  Py.template0 ++ userCode ++ Py.template1 ++ generatePythonParamParsing metadata
    ++ Py.template2 ++ metadata.name ++ Py.template3 ++ metadata.returnType ++ Py.template4

/-- `getJavaParamParser(javaType, paramName)` (lines 1008-1027). -/
def getJavaParamParser (javaType : Mapped) (paramName : Str) : Str :=
  if javaType = .text "int[]".toList then
    "parseIntArray(input.get(\x22".toList ++ paramName ++ "\x22))".toList
  else if javaType = .text "String[]".toList then
    "parseStringArray(input.get(\x22".toList ++ paramName ++ "\x22))".toList
  else if javaType = .text "int".toList then
    "Integer.parseInt(input.get(\x22".toList ++ paramName ++ "\x22).trim())".toList
  else if javaType = .text "String".toList then
    "input.get(\x22".toList ++ paramName ++ "\x22).trim().replace(\x22\x5c\x22\x22, \x22\x22)".toList
  else if javaType = .text "boolean".toList then
    "Boolean.parseBoolean(input.get(\x22".toList ++ paramName ++ "\x22).trim())".toList
  else if javaType = .text "ListNode".toList then
    "parseListNode(input.get(\x22".toList ++ paramName ++ "\x22))".toList
  else if javaType = .text "TreeNode".toList then
    "parseTreeNode(input.get(\x22".toList ++ paramName ++ "\x22))".toList
  else "input.get(\x22".toList ++ paramName ++ "\x22)".toList

/-- `generateJavaParamParsing(metadata)`: one declaration per parameter, joined by a
line feed and twenty spaces. -/
def generateJavaParamParsing (metadata : Signature) : Str :=
  joinWith "\n                    ".toList (metadata.params.map (fun p =>
    (fun (javaType name parsing : Str) => javaType ++ " ".toList ++ name ++ " = ".toList ++ parsing ++ ";".toList)
      (mapJavaType p.type).toText p.name (getJavaParamParser (mapJavaType p.type) p.name)))

/-- `getJavaDriver(userCode, paramTypes, returnType, metadata)` for metadata with
`params` (the guard at lines 739-741 passes). -/
def getJavaDriver (userCode : Str) (metadata : Signature) : Str :=
  Java.template0 ++ userCode ++ Java.template1 ++ generateJavaParamParsing metadata
    ++ Java.template2 ++ metadata.name ++ Java.template3
    ++ joinWith ", ".toList (metadata.params.map (fun p => p.name)) ++ Java.template4
    ++ metadata.returnType ++ Java.template5

/-- `getLanguageDriver(language, metadata, userCode)` of a `FileHandler`: the program
text, or the message of the Error thrown. -/
def getLanguageDriver (_self : FileHandler) (language : Str) (metadata : Signature)
    (userCode : Str) : Except Str Str :=
  if language = "cpp".toList then getCppDriver userCode metadata
  else if language = "python".toList then .ok (getPythonDriver userCode metadata)
  else if language = "java".toList then .ok (getJavaDriver userCode metadata)
  else .error ("Language ".toList ++ language ++ " not supported".toList)

/-- The mapped types for which the C++ generator has a case: `vector<int>`, `int`,
`vector<string>`, `string`, `bool`, `ListNode*`, `TreeNode*`. -/
def cppSupported (m : Mapped) : Prop :=
  m ∈ ["vector<int>", "int", "vector<string>", "string", "bool", "ListNode*", "TreeNode*"].map
    (fun s => Mapped.text s.toList)

instance (m : Mapped) : Decidable (cppSupported m) := by unfold cppSupported; infer_instance

/-- The signature of `twoSum(nums: integer[], target: integer): integer[]`. -/
def twoSumSignature : Signature :=
  { name := "twoSum".toList,
    params := [⟨"nums".toList, "integer[]".toList⟩, ⟨"target".toList, "integer".toList⟩],
    returnType := "integer[]".toList }

/-- A signature with one parameter of the unknown type `matrix`, returning `matrix`. -/
def unknownTypeSignature : Signature :=
  { name := "f".toList, params := [⟨"m".toList, "matrix".toList⟩], returnType := "matrix".toList }

/-- A `FileHandler` for the workspace `/w`. -/
def sampleHandler : FileHandler := ⟨"/w".toList, "/w/.cph".toList⟩

/-! ## Sanitized problem titles (fileHandler.js, lines 29-33; executor.js, lines 16-24) -/

/-- A character of the class `[a-z0-9]`. -/
def isSlugChar (c : Char) : Bool :=
  (97 ≤ c.toNat && c.toNat ≤ 122) || (48 ≤ c.toNat && c.toNat ≤ 57)

/-- `title.toLowerCase()` as far as the class `[a-z0-9]` can tell.  Besides the ASCII
capitals, the only characters whose lower-case form has a character of that class are
the Kelvin sign U+212A, which lowers to `k`, and U+0130, which lowers to `i` followed
by U+0307; any other character outside ASCII lowers to one or more characters outside
the class and is kept as it is here. -/
def lowerTitle (s : Str) : Str :=
  s.flatMap (fun c =>
    if c.toNat = 0x212A then ['k']
    else if c.toNat = 0x130 then ['i', Char.ofNat 0x307]
    else [c.toLower])

/-- `s.replace(/[^a-z0-9]+/g, '-')`; the flag says that the run of characters outside
the class that is being read has been replaced already. -/
def replaceRuns : Bool → Str → Str
  | _, [] => []
  | inRun, c :: cs =>
    if isSlugChar c then c :: replaceRuns false cs
    else if inRun then replaceRuns true cs
    else '-' :: replaceRuns true cs

/-- `s.replace(/(^-|-$)/g, '')`: one hyphen less at the start and one less at the end. -/
def stripEdgeHyphens (s : Str) : Str :=
  let s1 := match s with
    | [] => []
    | c :: r => if c = '-' then r else c :: r
  if s1.getLast? = some '-' then s1.dropLast else s1

/-- `FileHandler.sanitizeProblemTitle(title)`. -/
def sanitizeProblemTitle (title : Str) : Str :=
  stripEdgeHyphens (replaceRuns false (lowerTitle title))

/-- `CodeExecutor.getProblemTitleFromFileName(fileName)`. -/
def getProblemTitleFromFileName (fileName : Str) : Str :=
  let baseFileName := match splitOn '.' fileName with
    | [] => []
    | b :: _ => b
  stripEdgeHyphens (replaceRuns false (lowerTitle baseFileName))

/-- The shape of a sanitized title: only characters of `[a-z0-9]` and hyphens, no
hyphen at either end and no two adjacent hyphens. -/
def isSlug (s : Str) : Prop :=
  (∀ c ∈ s, isSlugChar c = true ∨ c = '-') ∧ s.head? ≠ some '-' ∧ s.getLast? ≠ some '-'
    ∧ List.Chain' (fun a b => ¬ (a = '-' ∧ b = '-')) s

/-! ## The test-case store (fileHandler.js, lines 15-159; testCaseManager.js, lines 34-62)

The directory `.cph` holds one directory per problem, named by the sanitized title, with
the files `metadata.json` and `templates.json` and the directory `test_cases`.  A
sanitized title has neither `_` nor `.` nor `/`, so the files of two problems never
coincide and the store is a map from the sanitized title to the directory of the
problem.  Every operation of `fs` is taken to succeed unless the file it reads or
removes is not there; the message of that error names the file by its base name, where
Node gives the full path.  `templates.json` is written and read but decides nothing
here and is left out. -/

/-- One code unit written to a file in UTF-8 and read back: a lone surrogate comes back
as U+FFFD. -/
def unitChar (u : Nat) : Char :=
  if 0xD800 ≤ u ∧ u ≤ 0xDFFF then Char.ofNat 0xFFFD else Char.ofNat u

/-- The text of a file that `fs.writeFile` was given a string for, as `fs.readFile`
with the encoding `utf8` returns it. -/
def fromUtf16 : List Nat → Str
  | [] => []
  | [u] => [unitChar u]
  | u :: v :: r =>
    if 0xD800 ≤ u ∧ u ≤ 0xDBFF ∧ 0xDC00 ≤ v ∧ v ≤ 0xDFFF then
      Char.ofNat (0x10000 + (u - 0xD800) * 0x400 + (v - 0xDC00)) :: fromUtf16 r
    else unitChar u :: fromUtf16 (v :: r)

/-- A directory of files: each name with the text of the file. -/
abbrev Dir := List (Str × Str)

/-- `fs.writeFile(path.join(dir, name), content)`: the file is replaced or created. -/
def Dir.writeFile (d : Dir) (name content : Str) : Dir :=
  if d.any (fun p => p.1 = name) then d.map (fun p => if p.1 = name then (name, content) else p)
  else d ++ [(name, content)]

/-- `fs.readFile(path.join(dir, name), 'utf8')`. -/
def Dir.readFile (d : Dir) (name : Str) : Except Str Str :=
  match d.lookup name with
  | some content => .ok content
  | none => .error ("ENOENT: no such file or directory, open '".toList ++ name ++ "'".toList)

/-- `fs.unlink(path.join(dir, name))`. -/
def Dir.unlink (d : Dir) (name : Str) : Except Str Dir :=
  if d.any (fun p => p.1 = name) then .ok (d.filter (fun p => p.1 ≠ name))
  else .error ("ENOENT: no such file or directory, unlink '".toList ++ name ++ "'".toList)

/-- `fs.readdir(dir)`: the names of the files. -/
def Dir.readdir (d : Dir) : List Str := d.map (fun p => p.1)

/-- Is `a` before `b` in the order of `Array.prototype.sort` without a comparator:
the order of the strings by their UTF-16 code units. -/
def unitsLt : List Nat → List Nat → Bool
  | _, [] => false
  | [], _ :: _ => true
  | a :: as, b :: bs => a < b || (a = b && unitsLt as bs)

/-- Inserts a name into a sorted list of names, after the names that are not greater. -/
def insertName (x : Str) : List Str → List Str
  | [] => [x]
  | y :: ys => if unitsLt (toUtf16 x) (toUtf16 y) then x :: y :: ys else y :: insertName x ys

/-- `names.sort()`. -/
def jsSort : List Str → List Str
  | [] => []
  | x :: xs => insertName x (jsSort xs)

/-- The name of the file of the test case at index `i`: `input_${i + 1}.txt`. -/
def inputFileName (i : Nat) : Str := "input_".toList ++ natToDec (i + 1) ++ ".txt".toList

/-- An entry of `data.testCases`: a string, or a value that is not a string. -/
inductive TestCase where
  | text (s : Str)
  | value (v : JSValue)

/-- The fields of `metadata` that the code reads or changes.  `metadata.json` holds
`JSON.stringify(metadata, null, 2)` and is read with `JSON.parse`; the model keeps the
object itself.  An `expectedOutputs` that is not an array is stored as the empty array;
`results` is `none` when the property is absent; `signature` stands for `name`,
`params` and `return.type`. -/
structure ProblemMetadata where
  title : Str
  signature : Signature
  expectedOutputs : List Str
  results : Option (List JSValue)

/-- The directory of a problem: `metadata.json`, if it is there, and `test_cases`. -/
structure ProblemDir where
  metadata : Option ProblemMetadata
  testCases : Dir

/-- The directory `.cph`: the directory of each sanitized title. -/
abbrev Store := Str → ProblemDir

/-- A store without files. -/
def Store.empty : Store := fun _ => { metadata := none, testCases := [] }

/-- The argument of `saveTestCases`; `metadata` is `none` when `data.metadata` is
missing. -/
structure TestData where
  testCases : List TestCase
  metadata : Option ProblemMetadata

/-- What `loadTestData` returns: the texts of the input files and the metadata. -/
structure LoadedData where
  testCases : List Str
  metadata : ProblemMetadata

/-- The text that `saveTestCases` writes for a test case: a string is parsed first, a
falsy value becomes `{}`, and a string that `JSON.parse` rejects is written as `{}` by
the `catch` block. -/
def testCaseFileText : TestCase → Str
  | .text s =>
    match jsonParse s with
    | .ok v => fromUtf16 (jsonStringify (if truthy v then v else .obj []))
    | .error _ => fromUtf16 (jsonStringify (.obj []))
  | .value v => fromUtf16 (jsonStringify (if truthy v then v else .obj []))

/-- The loop of `saveTestCases` over the test cases from index `i` on. -/
def writeTestCases : Nat → List TestCase → Dir → Dir
  | _, [], d => d
  | i, testCase :: rest, d =>
    writeTestCases (i + 1) rest (d.writeFile (inputFileName i) (testCaseFileText testCase))

/-- `FileHandler.saveTestCases(data)`: the store afterwards, or the message thrown. -/
def saveTestCases (store : Store) (data : TestData) : Except Str Store :=
  match data.metadata with
  | none => .error "Problem title is required in metadata".toList
  | some metadata =>
    if metadata.title = [] then .error "Problem title is required in metadata".toList
    else
      let key := sanitizeProblemTitle metadata.title
      let dir := store key
      .ok (Function.update store key
        { metadata := some metadata,
          testCases := writeTestCases 0 data.testCases dir.testCases })

/-- The loop of `loadTestData` over the sorted names of the input files; a file that
cannot be read counts as `{}`. -/
def readTestCases (d : Dir) : List Str → List Str
  | [] => []
  | file :: rest =>
    (match d.readFile file with
      | .ok content => content
      | .error _ => fromUtf16 (jsonStringify (.obj []))) :: readTestCases d rest

/-- `FileHandler.loadTestData(problemTitle)`. -/
def loadTestData (store : Store) (problemTitle : Str) : Except Str LoadedData :=
  if problemTitle = [] then .error "Problem title is required to load test data".toList
  else
    let dir := store (sanitizeProblemTitle problemTitle)
    match dir.metadata with
    | none =>
      .error ("Failed to load metadata: ENOENT: no such file or directory, open '".toList
        ++ "metadata.json'".toList)
    | some metadata =>
      let files := dir.testCases.readdir
      let inputFiles := jsSort (files.filter (fun f => "input_".toList.isPrefixOf f))
      .ok { testCases := readTestCases dir.testCases inputFiles, metadata := metadata }

/-- `TestCaseManager._handleDeleteTestCase(problemTitle, index)`: the store afterwards.
Whatever is thrown on the way is caught and shown, and the store stays as it is then. -/
def _handleDeleteTestCase (store : Store) (problemTitle : Str) (index : Nat) : Store :=
  match loadTestData store problemTitle with
  | .error _ => store
  | .ok testData =>
    let data : TestData :=
      { testCases := (testData.testCases.eraseIdx index).map TestCase.text,
        metadata := some
          { title := testData.metadata.title,
            signature := testData.metadata.signature,
            expectedOutputs := testData.metadata.expectedOutputs.eraseIdx index,
            results := testData.metadata.results.map (fun r => r.eraseIdx index) } }
    match saveTestCases store data with
    | .error _ => store
    | .ok saved =>
      let key := sanitizeProblemTitle problemTitle
      match (saved key).testCases.unlink (inputFileName index) with
      | .error _ => saved
      | .ok d => Function.update saved key { metadata := (saved key).metadata, testCases := d }

/-- The test case `\x7b"n":i\x7d`. -/
def sampleCase (i : Nat) : JSValue := .obj [(toUtf16 "n".toList, .num (.fin i 0))]

/-- Metadata of a problem `Two Sum` with the expected outputs `0`, `1`, ... -/
def sampleProblem (n : Nat) : ProblemMetadata :=
  { title := "Two Sum".toList, signature := twoSumSignature, expectedOutputs := (List.range n).map natToDec, results := none }

/-- The store after `n` sample cases have been saved into an empty one. -/
def sampleStore (n : Nat) : Store :=
  match saveTestCases Store.empty
      { testCases := (List.range n).map (fun i => TestCase.value (sampleCase i)),
        metadata := some (sampleProblem n) } with
  | .ok s => s
  | .error _ => Store.empty

/-- The test cases that `loadTestData` returns, `[]` when it throws. -/
def loadedCases (store : Store) (problemTitle : Str) : List Str :=
  match loadTestData store problemTitle with
  | .ok d => d.testCases
  | .error _ => []

/-! ## `CodeExecutor.runTests` on the file system (executor.js, lines 26-98, 137-168) -/

namespace CodeExecutor

/-- `getLanguage(extension)`. -/
def getLanguage (extension : Str) : Except Str Str :=
  if extension = ".cpp".toList then .ok "cpp".toList
  else if extension = ".py".toList then .ok "python".toList
  else if extension = ".python".toList then .ok "python".toList
  else if extension = ".java".toList then .ok "java".toList
  else .error "Unsupported file extension".toList

/-- The name of the program file in the directory `temp`. -/
def tempFileName (language : Str) : Str := "solution.".toList ++ language

/-- `createTempFile(userCode, language)`: the name of the program file and the directory
`temp` afterwards, or the message thrown.  `editorFileName` is the base name of the
document of the active editor, `none` without an editor; the program file is written
last, after the metadata is loaded and the driver generated. -/
def createTempFile (self : FileHandler) (store : Store) (temp : Dir)
    (editorFileName : Option Str) (userCode language : Str) : Except Str (Str × Dir) :=
  match editorFileName with
  | none => .error "Failed to create temp file: No active editor found".toList
  | some fileName =>
    match loadTestData store (getProblemTitleFromFileName fileName) with
    | .error e => .error ("Failed to create temp file: ".toList ++ e)
    | .ok data =>
      match getLanguageDriver self language data.metadata.signature userCode with
      | .error e => .error ("Failed to create temp file: ".toList ++ e)
      | .ok driverCode =>
        .ok (tempFileName language, temp.writeFile (tempFileName language) driverCode)

/-- The metadata as the loop of `runTests` reads it. -/
def runnerMetadata (m : ProblemMetadata) : Metadata :=
  { expectedOutputs := m.expectedOutputs, returnType := m.signature.returnType }

/-- `runTests(filePath)` with the directory `temp` as state: what the call returns or
throws, and the directory afterwards.  `extension` and `fileName` are
`path.extname(filePath)` and `path.basename(filePath)`, `userCode` is the outcome of
reading the file.  The store is read twice, by `createTempFile` and then by `runTests`
itself; the two reads are separate asynchronous operations, so each has its own store:
`store` and `storeLater`.  The commands that `sys` runs leave the program file alone. -/
def runTests (self : FileHandler) (sys : Str → List Nat → ProcResult) (p : ExecPaths)
    (store storeLater : Store) (temp : Dir) (extension fileName : Str)
    (userCode : Except Str Str) (editorFileName : Option Str) :
    Except Str (List TestResult) × Dir :=
  match getLanguage extension with
  | .error e => (.error ("Test execution failed: ".toList ++ e), temp)
  | .ok language =>
    match userCode with
    | .error e => (.error ("Test execution failed: ".toList ++ e), temp)
    | .ok code =>
      match createTempFile self store temp editorFileName code language with
      | .error e => (.error ("Test execution failed: ".toList ++ e), temp)
      | .ok (tempFile, temp1) =>
        match loadTestData storeLater (getProblemTitleFromFileName fileName) with
        | .error e => (.error ("Test execution failed: ".toList ++ e), temp1)
        | .ok data =>
          match CPH.runTests (fun _ testCase => executeTest sys p testCase language)
              (runnerMetadata data.metadata) data.testCases with
          | .error e => (.error ("Test execution failed: ".toList ++ e), temp1)
          | .ok results =>
            match temp1.unlink tempFile with
            | .error e => (.error ("Test execution failed: ".toList ++ e), temp1)
            | .ok temp2 => (.ok results, temp2)

end CodeExecutor

/-- A machine on which every command exits with status `0`, prints `[0,1]` and writes
`warning: unused variable` to its standard error. -/
def noisyMachine : Str → List Nat → ProcResult :=
  fun _ _ => { status := 0, stdout := "[0,1]\n".toList, stderr := "warning: unused variable".toList }

/-! ## `LeetCodeScraper.parseInput` (scraper.js, lines 99-127)

The loop `while ((match = paramRegex.exec(text)) !== null)` with
`paramRegex = /(\w+)\s*=\s*(-?\d+|\[[^\]]+\]|"[^"]+")/g` finds, from the end of the
previous match on, the leftmost position at which the pattern matches.  Backtracking
finds nothing that the longest runs do not: a shorter `\w+` or `\s*` is followed by a
character of the same class, which is neither `=` nor the start of a value, and a
shorter `\d+` is not tried because nothing follows the value in the pattern. -/

/-- The class `\w`: `[A-Za-z0-9_]`. -/
def isWordChar (c : Char) : Bool :=
  (97 ≤ c.toNat && c.toNat ≤ 122) || (65 ≤ c.toNat && c.toNat ≤ 90)
    || (48 ≤ c.toNat && c.toNat ≤ 57) || c.toNat = 95

/-- A match of `[^x]+x` after the opening character: the body, which is the text up to
the first `x` and must not be empty, and the rest after that `x`. -/
def matchDelimited (close : Char) (r : Str) : Option (Str × Str) :=
  match r.dropWhile (fun c => c != close) with
  | [] => none
  | _ :: rest =>
    if r.takeWhile (fun c => c != close) = [] then none
    else some (r.takeWhile (fun c => c != close), rest)

/-- A match of `(-?\d+|\[[^\]]+\]|"[^"]+")` at the start of the text: the value and the
rest. -/
def matchValue (s : Str) : Option (Str × Str) :=
  match s with
  | [] => none
  | c :: r =>
    if c = '[' then (matchDelimited ']' r).map (fun t => ('[' :: t.1 ++ [']'], t.2))
    else if c = '"' then (matchDelimited '"' r).map (fun t => ('"' :: t.1 ++ ['"'], t.2))
    else if c = '-' then
      (if (spanDigits r).1 = [] then none else some ('-' :: (spanDigits r).1, (spanDigits r).2))
    else if (spanDigits (c :: r)).1 = [] then none
    else some ((spanDigits (c :: r)).1, (spanDigits (c :: r)).2)

/-- A match of the whole pattern at the start of the text: key, value and the rest. -/
def matchParam (s : Str) : Option (Str × Str × Str) :=
  if s.takeWhile isWordChar = [] then none
  else
    match (s.dropWhile isWordChar).dropWhile isJsSpace with
    | [] => none
    | c :: r =>
      if c = '=' then
        (matchValue (r.dropWhile isJsSpace)).map (fun t => (s.takeWhile isWordChar, t.1, t.2))
      else none

/-- `/^-?\d+$/.test(value)`. -/
def isIntLiteral (value : Str) : Bool :=
  match value with
  | [] => false
  | c :: r =>
    if c = '-' then !r.isEmpty && r.all isDigit
    else (c :: r).all isDigit

/-- The loop `while (value.startsWith('[[') && value.endsWith(']]')) value =
value.slice(1, -1)`, with fuel. -/
def collapseBrackets : Nat → Str → Str
  | 0, value => value
  | f + 1, value =>
    if "[[".toList.isPrefixOf value ∧ "]]".toList.isSuffixOf value then
      collapseBrackets f (slice1 value)
    else value

/-- The text stored for a matched value. -/
def storedValue (value : Str) : Str :=
  if isIntLiteral value then value
  else if startsWithChar value '[' && endsWithChar value ']' then
    collapseBrackets (value.length) (stripWs value)
  else value

/-- `params[key] = value` on an object created by `{}`: the name `__proto__` reaches
the setter inherited from `Object.prototype`, which ignores a string, and creates no
property. -/
def assignParam (params : List (List Nat × JSValue)) (key value : Str) :
    List (List Nat × JSValue) :=
  if key = "__proto__".toList then params
  else objDefine params (toUtf16 key) (.str (toUtf16 value))

/-- The `while` loop of `parseInput` from the position where the text `s` starts. -/
def execLoop : Nat → Str → List (List Nat × JSValue) → List (List Nat × JSValue)
  | 0, _, params => params
  | f + 1, s, params =>
    match matchParam s with
    | some (key, value, rest) => execLoop f rest (assignParam params key (storedValue value))
    | none =>
      match s with
      | [] => params
      | _ :: t => execLoop f t params

/-- `LeetCodeScraper.parseInput(text)`: the JSON text of the object `params`. -/
def parseInput (text : Str) : List Nat :=
  jsonStringify (.obj (objOrder (execLoop (text.length + 1) text [])))

/-! ### The wire format of a test case, as the specification describes it -/

/-- A value of the wire format: a bare integer literal, a double-quoted string, a
bracketed list with its body, or the empty list `[]`. -/
inductive WireValue where
  | int (neg : Bool) (digits : Str)
  | string (body : Str)
  | list (body : Str)
  | emptyList
  deriving DecidableEq

/-- The literal text of a value. -/
def WireValue.literal : WireValue → Str
  | .int neg digits => (if neg then ['-'] else []) ++ digits
  | .string body => '"' :: body ++ ['"']
  | .list body => '[' :: body ++ [']']
  | .emptyList => ['[', ']']

/-- Well-formed values: an integer has at least one digit, a string is non-empty and
has no inner quote, a list is non-empty and flat (no bracket inside). -/
def WireValue.wellFormed : WireValue → Prop
  | .int _ digits => digits ≠ [] ∧ ∀ c ∈ digits, isDigit c = true
  | .string body => body ≠ [] ∧ '"' ∉ body
  | .list body => body ≠ [] ∧ '[' ∉ body ∧ ']' ∉ body
  | .emptyList => True

/-- The text that the decoded record is to hold for a value: the literal, without
whitespace for a list; nothing for the empty list. -/
def WireValue.stored : WireValue → Option Str
  | .int neg digits => some (WireValue.literal (.int neg digits))
  | .string body => some (WireValue.literal (.string body))
  | .list body => some ('[' :: stripWs body ++ [']'])
  | .emptyList => none

/-- An identifier made of the characters `[A-Za-z0-9_]` that does not start with a
digit. -/
def isParamName (n : Str) : Prop :=
  n ≠ [] ∧ (∀ c ∈ n, isWordChar c = true) ∧ (∀ c, n.head? = some c → isDigit c = false)

/-- The record `n1 = v1, ..., nk = vk`. -/
def wireRecord : List (Str × WireValue) → Str
  | [] => []
  | [f] => f.1 ++ " = ".toList ++ f.2.literal
  | f :: g :: r => f.1 ++ " = ".toList ++ f.2.literal ++ ", ".toList ++ wireRecord (g :: r)

/-- The properties of the decoded record: one per field that has a stored text and is
not named `__proto__`, in the order of the fields. -/
def decodedFields (fields : List (Str × WireValue)) : List (List Nat × JSValue) :=
  fields.filterMap (fun f =>
    if f.1 = "__proto__".toList then none
    else f.2.stored.map (fun s => (toUtf16 f.1, JSValue.str (toUtf16 s))))

/-- What may follow a value in a record: nothing, or a comma. -/
def recordTail (tail : Str) : Prop := tail = [] ∨ ∃ r, tail = ',' :: r

/-- What the loop of `parseInput` makes of the fields of a record, one after the other. -/
def applyFields (acc : List (List Nat × JSValue)) (fields : List (Str × WireValue)) :
    List (List Nat × JSValue) :=
  fields.foldl (fun acc f =>
    match f.2.stored with
    | some s => assignParam acc f.1 s
    | none => acc) acc

/-- The text after the first field of a record. -/
def sepTail : List (Str × WireValue) → Str
  | [] => []
  | g :: r => ", ".toList ++ wireRecord (g :: r)

/-! ## Binary trees and their breadth-first order -/

/-- A finite binary tree with integer node values; `nil` is the null reference. -/
inductive Tree where
  | nil
  | node (val : Int) (left right : Tree)
  deriving DecidableEq, Repr

/-- The number of nodes. -/
def Tree.size : Tree → Nat
  | .nil => 0
  | .node _ l r => 1 + l.size + r.size

/-- The values of the nodes. -/
def Tree.values : Tree → List Int
  | .nil => []
  | .node v l r => v :: (l.values ++ r.values)

/-- The token of the root: its value, or null for the null reference. -/
def Tree.rootToken : Tree → Option Int
  | .nil => none
  | .node v _ _ => some v

/-- The two children of a node, null or not; none for the null reference. -/
def Tree.children : Tree → List Tree
  | .nil => []
  | .node _ l r => [l, r]

/-- The reference `p` into the memory `cell` is the tree `t`, node for node: the same
values at the same places, null where `t` has no child. -/
def represents (cell : Nat → TreeCell) : Option Nat → Tree → Bool
  | none, .nil => true
  | some j, .node v l r =>
    decide ((cell j).val = v) && represents cell (cell j).left l
      && represents cell (cell j).right r
  | _, _ => false

/-- The subtrees in breadth-first order, null references included, starting from a
queue: every entry is followed, at the end of the queue, by its two children. -/
def bfs : Nat → List Tree → List Tree
  | 0, _ => []
  | _ + 1, [] => []
  | f + 1, x :: queue => x :: bfs f (queue ++ x.children)

/-- The number of entries that breadth-first traversal takes from a queue of trees. -/
def queueWeight : List Tree → Nat
  | [] => 0
  | x :: queue => 2 * x.size + 1 + queueWeight queue

/-- The number of nodes among the roots of a list of trees. -/
def rootCount (l : List Tree) : Nat := (l.map Tree.rootToken).countP Option.isSome

/-- A tree with the root `1`, no left child and the right child `2`, whose left child
is `3`. -/
def sampleTree : Tree := .node 1 .nil (.node 2 (.node 3 .nil .nil) .nil)

/-- A memory that holds `sampleTree` at scattered addresses, with the root at `2`. -/
def sampleTreeHeap : TreeHeap :=
  { cell := fun j =>
      if j = 2 then ⟨1, none, some 0⟩
      else if j = 0 then ⟨2, some 3, none⟩
      else ⟨3, none, none⟩,
    size := 4 }

/-- The tokens that the encoders collect from a tree: the root tokens of the
breadth-first sequence, the trailing nulls removed. -/
def treeTokens (f : Nat) (t : Tree) : List (Option Int) :=
  stripTrailingNulls ((bfs f [t]).map Tree.rootToken)

/-! ## Encoding followed by decoding -/

/-- The Java driver on a tree: `treeNodeToString`, then `parseTreeNode` of the text;
`none` when the traversal does not end or the decoder throws. -/
def Java.encodeDecodeTree (t : TreeRef) : Option TreeRef :=
  match Java.treeNodeToString t with
  | none => none
  | some text =>
    match Java.parseTreeNode (some text) with
    | .ok decoded => some decoded
    | .error _ => none

/-! ## The tree parameter of the Python driver (fileHandler.js, lines 591-641) -/

namespace Py

/-- A JSON integer at the start of the text, as `json.loads` reads it: an optional
minus sign and the digits `0` or `[1-9][0-9]*`, not followed by a fraction or an
exponent or another digit.  `none` for anything else. -/
def loadsInt (s : Str) : Option (Int × Str) :=
  let neg := s.head? = some '-'
  let body := if neg then s.drop 1 else s
  let ds := (spanDigits body).1
  let rest := (spanDigits body).2
  if ds = [] ∨ (ds.head? = some '0' ∧ 1 < ds.length) then none
  else if rest.head? = some '.' ∨ rest.head? = some 'e' ∨ rest.head? = some 'E' then none
  else some (if neg then -((digitsVal 0 ds : Nat) : Int) else ((digitsVal 0 ds : Nat) : Int), rest)

/-- One item of a list of integers and `null`s. -/
def loadsItem (s : Str) : Option (Option Int × Str) :=
  if "null".toList.isPrefixOf s then some (none, s.drop 4)
  else (loadsInt s).map (fun t => (some t.1, t.2))

/-- The items of a list up to the closing bracket, with whitespace around the commas. -/
def loadsItems : Nat → Str → Option (List (Option Int) × Str)
  | 0, _ => none
  | f + 1, s =>
    match loadsItem s with
    | none => none
    | some (v, r) =>
      match skipWs r with
      | [] => none
      | c :: r2 =>
        if c = ']' then some ([v], r2)
        else if c = ',' then (loadsItems f (skipWs r2)).map (fun t => (v :: t.1, t.2))
        else none

/-- `json.loads(text)` on the texts that denote a list of integers and `null`s; `none`
stands for every other text, whether `json.loads` rejects it or returns another
value. -/
def loadsTokens (text : Str) : Option (List (Option Int)) :=
  match skipWs text with
  | [] => none
  | c :: r =>
    if c = '[' then
      match skipWs r with
      | [] => none
      | d :: r2 =>
        if d = ']' then (if skipWs r2 = [] then some [] else none)
        else
          match loadsItems text.length (d :: r2) with
          | none => none
          | some (vs, r3) => if skipWs r3 = [] then some vs else none
    else none

/-- The value of a token that is not `None`. -/
def tokenInt : Option Int → Except Unit Int
  | some v => .ok v
  | none => .error ()

/-- The branch of `parse_param(param_str, param_type)` for the type `TreeNode`: `None`
for an empty text, `null` and `\x7b\x7d` and for an empty list; else the tree built
breadth-first from the values.  `none` stands for a text outside `loadsTokens` and for
a list that starts with `None`. -/
def parseTreeParam (param_str : Str) : Option TreeRef :=
  if param_str = [] ∨ param_str = "null".toList ∨ param_str = "\x7b\x7d".toList then
    some ⟨TreeHeap.empty, none⟩
  else
    match loadsTokens param_str with
    | none => none
    | some [] => some ⟨TreeHeap.empty, none⟩
    | some (first :: rest) =>
      match buildTree (fun v : Option Int => v.isNone) tokenInt first (first :: rest) with
      | .ok t => some t
      | .error _ => none

/-- The Python driver on a tree: `serialize_result` for the type `TreeNode`, then
`parse_param` of the text. -/
def encodeDecodeTree (t : TreeRef) : Option TreeRef :=
  match (match t.root with
    | none => serialize_result (.value .none) "TreeNode".toList
    | some r => serialize_result (.treeNode t.heap r) "TreeNode".toList) with
  | none => none
  | some text => parseTreeParam text

end Py

/-! # Theorems -/

/-! ## The comparator -/

theorem stripWs_idem (s : Str) : stripWs (stripWs s) = stripWs s := by
  simp [stripWs, List.filter_filter]

theorem parseArray_stripWs {ε : Type} (parse : Str → Except ε JSValue) (s : Str) :
    parseArray parse (stripWs s) = parseArray parse s := by
  simp only [parseArray, stripWs_idem]

theorem compareOutputsBody_stripWs {ε : Type} (parse : Str → Except ε JSValue)
    (stringify : JSValue → Except ε (List Nat)) (actual expected returnType : Str) :
    compareOutputsBody parse stringify (stripWs actual) (stripWs expected) returnType
      = compareOutputsBody parse stringify actual expected returnType := by
  simp only [compareOutputsBody, stripWs_idem]

theorem compareOutputsWith_stripWs {ε : Type} (parse : Str → Except ε JSValue)
    (stringify : JSValue → Except ε (List Nat)) (actual expected returnType : Str) :
    compareOutputsWith parse stringify (stripWs actual) (stripWs expected) returnType
      = compareOutputsWith parse stringify actual expected returnType := by
  simp only [compareOutputsWith, compareOutputsBody_stripWs]

/-- C1: `compareOutputs` is whitespace-insensitive.  Whatever `JSON.parse` and
`JSON.stringify` do, the outcome on `actual`, `expected` is the outcome on the two
texts with every whitespace character removed; so it is for the comparator with the
built-ins of JavaScript, and `compareOutputs("[1, 2, 3]", "[1,2,3]", "integer[]")`
is `true`. -/
theorem compareOutputs_whitespace_insensitive :
    (∀ (ε : Type) (parse : Str → Except ε JSValue) (stringify : JSValue → Except ε (List Nat))
        (actual expected returnType : Str),
        compareOutputsWith parse stringify actual expected returnType
          = compareOutputsWith parse stringify (stripWs actual) (stripWs expected) returnType)
    ∧ (∀ actual expected returnType : Str,
        compareOutputs actual expected returnType
          = compareOutputs (stripWs actual) (stripWs expected) returnType)
    ∧ (∀ s : Str, ∀ c ∈ stripWs s, isJsSpace c = false)
    ∧ compareOutputs "[1, 2, 3]".toList "[1,2,3]".toList "integer[]".toList = true := by
  refine ⟨?_, ?_, ?_, by decide⟩
  · intro ε parse stringify actual expected returnType
    exact (compareOutputsWith_stripWs parse stringify actual expected returnType).symm
  · intro actual expected returnType
    simp only [compareOutputs, compareOutputsWith_stripWs]
  · intro s c hc
    have h := (List.mem_filter.mp hc).2
    simpa using h

theorem compareOutputs_scalar_eq (actual expected returnType : Str)
    (h : isArrayType returnType = false) :
    compareOutputs actual expected returnType = (stripWs actual == stripWs expected) := by
  simp [compareOutputs, compareOutputsWith, compareOutputsBody, h]

/-- C3: for a return type whose lower-cased text includes neither `[]` nor `vector`,
`compareOutputs` is `true` exactly when the whitespace-stripped texts are the same
string, character for character (so case matters): `compareOutputs("True", "true",
"boolean")` is `false`. -/
theorem compareOutputs_scalar_exact (actual expected returnType : Str)
    (h : includes (toLowerCase returnType) "[]".toList = false
      ∧ includes (toLowerCase returnType) "vector".toList = false) :
    (compareOutputs actual expected returnType = true ↔ stripWs actual = stripWs expected)
    ∧ compareOutputs "True".toList "true".toList "boolean".toList = false := by
  have h' : isArrayType returnType = false := by
    unfold isArrayType
    rw [h.1, h.2]
    rfl
  refine ⟨?_, by decide⟩
  rw [compareOutputs_scalar_eq actual expected returnType h']
  simp

/-- Witness for C3 at the type `boolean` and the outputs `True`, `true`. -/
theorem compareOutputs_scalar_exact_witness :
    (includes (toLowerCase "boolean".toList) "[]".toList = false
      ∧ includes (toLowerCase "boolean".toList) "vector".toList = false)
    ∧ ((compareOutputs "True".toList "true".toList "boolean".toList = true
          ↔ stripWs "True".toList = stripWs "true".toList)
        ∧ compareOutputs "True".toList "true".toList "boolean".toList = false) :=
  ⟨by decide, compareOutputs_scalar_exact "True".toList "true".toList "boolean".toList (by decide)⟩

/-- C4: `compareOutputs` never raises.  For every outcome of `JSON.parse` and of
`JSON.stringify`, thrown exceptions included, and for all texts, the call returns a
boolean verdict; when the body fails the verdict is `false`; and the comparator with
the built-ins of JavaScript returns the verdict `compareOutputs` computes. -/
theorem compareOutputs_never_raises :
    (∀ (ε : Type) (parse : Str → Except ε JSValue) (stringify : JSValue → Except ε (List Nat))
        (actual expected returnType : Str),
        ∃ verdict : Bool,
          compareOutputsWith parse stringify actual expected returnType = .ok verdict)
    ∧ (∀ (ε : Type) (parse : Str → Except ε JSValue) (stringify : JSValue → Except ε (List Nat))
        (actual expected returnType : Str) (err : ε),
        compareOutputsBody parse stringify actual expected returnType = .error err →
          compareOutputsWith parse stringify actual expected returnType = .ok false)
    ∧ (∀ actual expected returnType : Str,
        compareOutputsWith jsonParse (fun v => .ok (jsonStringify v)) actual expected returnType
          = .ok (compareOutputs actual expected returnType)) := by
  refine ⟨?_, ?_, ?_⟩
  · intro ε parse stringify actual expected returnType
    unfold compareOutputsWith
    cases compareOutputsBody parse stringify actual expected returnType with
    | ok v => exact ⟨v, rfl⟩
    | error e => exact ⟨false, rfl⟩
  · intro ε parse stringify actual expected returnType err h
    simp [compareOutputsWith, h]
  · intro actual expected returnType
    unfold compareOutputs compareOutputsWith
    cases compareOutputsBody jsonParse (fun v => .ok (jsonStringify v)) actual expected returnType with
    | ok v => rfl
    | error e => rfl

theorem natDigitsAux_acc (f n : Nat) (acc : Str) :
    natDigitsAux f n acc = natDigitsAux f n [] ++ acc := by
  induction f generalizing n acc with
  | zero => simp [natDigitsAux]
  | succ f ih =>
    unfold natDigitsAux
    by_cases h : n < 10
    · simp [h]
    · simp only [h, if_false]
      rw [ih (n / 10) (digitChar (n % 10) :: acc), ih (n / 10) [digitChar (n % 10)]]
      simp

theorem natDigitsAux_fuel (f g n : Nat) (hf : n < f) (hg : n < g) :
    natDigitsAux f n [] = natDigitsAux g n [] := by
  induction f generalizing g n with
  | zero => omega
  | succ f ih =>
    cases g with
    | zero => omega
    | succ g =>
      unfold natDigitsAux
      by_cases h : n < 10
      · simp [h]
      · simp only [h, if_false]
        rw [natDigitsAux_acc f, natDigitsAux_acc g, ih g (n / 10) (by omega) (by omega)]

theorem natToDec_small (n : Nat) (h : n < 10) : natToDec n = [digitChar n] := by
  simp [natToDec, natDigitsAux, h]

theorem natToDec_step (n : Nat) (h : 10 ≤ n) :
    natToDec n = natToDec (n / 10) ++ [digitChar (n % 10)] := by
  have h' : ¬ n < 10 := by omega
  unfold natToDec
  rw [natDigitsAux]
  simp only [h', if_false]
  rw [natDigitsAux_acc, natDigitsAux_fuel n (n / 10 + 1) (n / 10) (by omega) (by omega)]

theorem isDigit_digitChar (d : Nat) : isDigit (digitChar d) = true := by
  have h : d % 10 < 10 := Nat.mod_lt _ (by decide)
  unfold digitChar
  generalize d % 10 = e at h
  interval_cases e <;> decide

theorem digitVal_digitChar (d : Nat) (h : d < 10) : digitVal (digitChar d) = d := by
  interval_cases d <;> decide

theorem natToDec_allDigits (n : Nat) : ∀ c ∈ natToDec n, isDigit c = true := by
  induction n using Nat.strong_induction_on with
  | _ n ih =>
    by_cases h : n < 10
    · rw [natToDec_small n h]
      intro c hc
      simp at hc
      rw [hc]; exact isDigit_digitChar n
    · rw [natToDec_step n (by omega)]
      intro c hc
      rcases List.mem_append.mp hc with hc | hc
      · exact ih (n / 10) (by omega) c hc
      · simp at hc
        rw [hc]; exact isDigit_digitChar _

theorem natToDec_ne_nil (n : Nat) : natToDec n ≠ [] := by
  by_cases h : n < 10
  · rw [natToDec_small n h]; simp
  · rw [natToDec_step n (by omega)]; simp

theorem digitsVal_append (a : Nat) (s t : Str) :
    digitsVal a (s ++ t) = digitsVal (digitsVal a s) t := by
  induction s generalizing a with
  | nil => rfl
  | cons c s ih => exact ih (a * 10 + digitVal c)

theorem digitsVal_natToDec (n : Nat) : digitsVal 0 (natToDec n) = n := by
  induction n using Nat.strong_induction_on with
  | _ n ih =>
    by_cases h : n < 10
    · rw [natToDec_small n h]
      have e : digitsVal 0 [digitChar n] = 0 * 10 + digitVal (digitChar n) := rfl
      rw [e, digitVal_digitChar n h]
      omega
    · rw [natToDec_step n (by omega), digitsVal_append, ih (n / 10) (by omega)]
      have e : digitsVal (n / 10) [digitChar (n % 10)]
          = n / 10 * 10 + digitVal (digitChar (n % 10)) := rfl
      rw [e, digitVal_digitChar _ (Nat.mod_lt _ (by decide))]
      omega

theorem spanDigits_append (s : Str) (c : Char) (rest : Str)
    (hs : ∀ d ∈ s, isDigit d = true) (hc : isDigit c = false) :
    spanDigits (s ++ c :: rest) = (s, c :: rest) := by
  induction s with
  | nil => simp [spanDigits, hc]
  | cons d s ih =>
    have hd : isDigit d = true := hs d (by simp)
    have ih' := ih (fun x hx => hs x (by simp [hx]))
    simp [spanDigits, hd, ih']

/-- The head of a numeral is `0` only for the numeral of zero. -/
theorem natToDec_head (n : Nat) : (natToDec n).head? = some '0' → n = 0 := by
  induction n using Nat.strong_induction_on with
  | _ n ih =>
    by_cases h : n < 10
    · rw [natToDec_small n h]
      intro h0
      interval_cases n <;> first | rfl | (exfalso; revert h0; decide)
    · rw [natToDec_step n (by omega)]
      intro h0
      have hne := natToDec_ne_nil (n / 10)
      have : (natToDec (n / 10)).head? = some '0' := by
        cases hq : natToDec (n / 10) with
        | nil => exact absurd hq hne
        | cons a t => rw [hq] at h0; simpa using h0
      have := ih (n / 10) (by omega) this
      omega

theorem natToDec_length_le (n : Nat) : 10 ^ ((natToDec n).length - 1) ≤ max n 1 := by
  induction n using Nat.strong_induction_on with
  | _ n ih =>
    by_cases h : n < 10
    · rw [natToDec_small n h]; simp
    · rw [natToDec_step n (by omega)]
      have hne := natToDec_ne_nil (n / 10)
      have hl : 0 < (natToDec (n / 10)).length := List.length_pos.mpr hne
      have := ih (n / 10) (by omega)
      simp only [List.length_append, List.length_singleton, Nat.add_sub_cancel]
      have e : (natToDec (n / 10)).length = ((natToDec (n / 10)).length - 1) + 1 := by omega
      rw [e, pow_succ]
      have hm : max (n / 10) 1 = n / 10 := by
        apply max_eq_left; omega
      rw [hm] at this
      have : 10 ^ ((natToDec (n / 10)).length - 1) * 10 ≤ n / 10 * 10 := Nat.mul_le_mul_right _ this
      have : n / 10 * 10 ≤ n := Nat.div_mul_le_self n 10
      have : n ≤ max n 1 := le_max_left _ _
      omega

theorem natToDec_length_safe (n : Nat) (h : n ≤ 2 ^ 53) : (natToDec n).length ≤ 16 := by
  by_contra hc
  have h1 := natToDec_length_le n
  have h2 : 10 ^ 16 ≤ 10 ^ ((natToDec n).length - 1) :=
    Nat.pow_le_pow_right (by decide) (by omega)
  have h3 : max n 1 ≤ 2 ^ 53 := max_le h (by decide)
  have h4 : (2:Nat) ^ 53 < 10 ^ 16 := by decide
  omega

theorem decimalToDouble_safe (neg : Bool) (n : Nat) (h0 : n ≠ 0) (h : n ≤ 2 ^ 53) :
    decimalToDouble neg n 0 = .fin (if neg then -(n : Int) else (n : Int)) 0 := by
  have hl := natToDec_length_safe n h
  unfold decimalToDouble
  rw [if_neg h0, if_neg (by omega), if_neg (by omega)]
  show roundToDouble neg (n * 10 ^ 0) 1 = _
  unfold roundToDouble
  have e : n * 10 ^ 0 = n := by simp
  rw [e, if_neg h0, if_pos ⟨rfl, h⟩]

theorem jsonFraction_sep (c : Char) (rest : Str) (hc : c = ',' ∨ c = ']') :
    jsonFraction (c :: rest) = some ([], c :: rest) := by
  rcases hc with rfl | rfl <;> rfl

theorem jsonExponent_sep (c : Char) (rest : Str) (hc : c = ',' ∨ c = ']') :
    jsonExponent (c :: rest) = some (0, c :: rest) := by
  rcases hc with rfl | rfl <;> rfl

theorem isDigit_sep (c : Char) (hc : c = ',' ∨ c = ']') : isDigit c = false := by
  rcases hc with rfl | rfl <;> decide

theorem natToDec_head_digit (n : Nat) (l : Str) :
    ∃ d t, natToDec n ++ l = d :: t ∧ isDigit d = true := by
  cases h : natToDec n with
  | nil => exact absurd h (natToDec_ne_nil n)
  | cons d t =>
    exact ⟨d, t ++ l, rfl, natToDec_allDigits n d (by rw [h]; simp)⟩

theorem isDigit_ne_minus (d : Char) (h : isDigit d = true) : d ≠ '-' := by
  rintro rfl
  revert h
  decide

/-- The JSON number read from the numeral of a natural number of at most `2 ^ 53`. -/
theorem parseJsonNumber_natToDec (n : Nat) (hn : n ≤ 2 ^ 53) (c : Char) (rest : Str)
    (hc : c = ',' ∨ c = ']') :
    parseJsonNumber (natToDec n ++ c :: rest) = some (.fin (n : Int) 0, c :: rest) := by
  obtain ⟨d, t, hdt, hd⟩ := natToDec_head_digit n (c :: rest)
  have hneg : ((natToDec n ++ c :: rest).head? == some '-') = false := by
    rw [hdt]
    simp [isDigit_ne_minus d hd]
  have hspan := spanDigits_append (natToDec n) c rest (natToDec_allDigits n) (isDigit_sep c hc)
  have hlead : ¬ ((natToDec n).head? = some '0' ∧ 1 < (natToDec n).length) := by
    rintro ⟨h0, h1⟩
    have := natToDec_head n h0
    subst this
    revert h1
    decide
  unfold parseJsonNumber
  simp only [hneg, Bool.false_eq_true, if_false, hspan]
  rw [if_neg (by
    rintro (h | h)
    · exact natToDec_ne_nil n h
    · exact hlead h)]
  simp only [jsonFraction_sep c rest hc, jsonExponent_sep c rest hc, List.append_nil,
    digitsVal_natToDec, List.length_nil]
  by_cases h0 : n = 0
  · subst h0
    rfl
  · have := decimalToDouble_safe false n h0 hn
    simp only [Bool.false_eq_true, if_false] at this
    simp [this]

theorem parseJsonNumber_negNat (m : Nat) (hm : m + 1 ≤ 2 ^ 53) (c : Char) (rest : Str)
    (hc : c = ',' ∨ c = ']') :
    parseJsonNumber ('-' :: (natToDec (m + 1) ++ c :: rest))
      = some (.fin (Int.negSucc m) 0, c :: rest) := by
  have hspan := spanDigits_append (natToDec (m + 1)) c rest (natToDec_allDigits _)
    (isDigit_sep c hc)
  have hlead : ¬ ((natToDec (m + 1)).head? = some '0' ∧ 1 < (natToDec (m + 1)).length) := by
    rintro ⟨h0, _⟩
    have := natToDec_head (m + 1) h0
    omega
  unfold parseJsonNumber
  have hneg : (('-' :: (natToDec (m + 1) ++ c :: rest)).head? == some '-') = true := rfl
  simp only [hneg, if_true, List.drop_succ_cons, List.drop_zero, hspan]
  rw [if_neg (by
    rintro (h | h)
    · exact natToDec_ne_nil _ h
    · exact hlead h)]
  simp only [jsonFraction_sep c rest hc, jsonExponent_sep c rest hc, List.append_nil,
    digitsVal_natToDec, List.length_nil]
  have := decimalToDouble_safe true (m + 1) (by omega) hm
  simp only [if_true] at this
  simp only [Nat.cast_zero, sub_zero, this]
  rfl

/-- The Number value that `JSON.parse` gives the numeral of a whole number of magnitude
at most `2 ^ 53`: the number itself. -/
theorem parseJsonNumber_intToDec (x : Int) (hx : x.natAbs ≤ 2 ^ 53) (c : Char) (rest : Str)
    (hc : c = ',' ∨ c = ']') :
    parseJsonNumber (intToDec x ++ c :: rest) = some (.fin x 0, c :: rest) := by
  cases x with
  | ofNat n => exact parseJsonNumber_natToDec n hx c rest hc
  | negSucc m =>
    have hm : m + 1 ≤ 2 ^ 53 := hx
    exact parseJsonNumber_negNat m hm c rest hc

theorem intToDec_head (x : Int) (l : Str) :
    ∃ d t, intToDec x ++ l = d :: t ∧ (isDigit d = true ∨ d = '-') := by
  cases x with
  | ofNat n =>
    obtain ⟨d, t, h, hd⟩ := natToDec_head_digit n l
    exact ⟨d, t, h, Or.inl hd⟩
  | negSucc m => exact ⟨'-', natToDec (m + 1) ++ l, rfl, Or.inr rfl⟩

theorem char_cases_of_isDigit (d : Char) (h : isDigit d = true) :
    d = '0' ∨ d = '1' ∨ d = '2' ∨ d = '3' ∨ d = '4' ∨ d = '5' ∨ d = '6' ∨ d = '7' ∨ d = '8'
      ∨ d = '9' := by
  have e : Char.ofNat d.toNat = d := Char.ofNat_toNat d
  have h1 : 48 ≤ d.toNat ∧ d.toNat ≤ 57 := by
    simpa [isDigit] using h
  rw [← e]
  generalize d.toNat = k at h1
  obtain ⟨ha, hb⟩ := h1
  interval_cases k <;> decide

theorem parseValue_number (f : Nat) (d : Char) (t : Str) (hd : isDigit d = true ∨ d = '-') :
    parseValue (f + 1) (d :: t) = (parseJsonNumber (d :: t)).map (fun t => (.num t.1, t.2)) := by
  rcases hd with hd | rfl
  · rcases char_cases_of_isDigit d hd with
      rfl | rfl | rfl | rfl | rfl | rfl | rfl | rfl | rfl | rfl <;> rfl
  · rfl

theorem parseValue_intToDec (f : Nat) (x : Int) (hx : x.natAbs ≤ 2 ^ 53) (c : Char)
    (rest : Str) (hc : c = ',' ∨ c = ']') :
    parseValue (f + 1) (intToDec x ++ c :: rest) = some (.num (.fin x 0), c :: rest) := by
  obtain ⟨d, t, h, hd⟩ := intToDec_head x (c :: rest)
  have := parseValue_number f d t hd
  rw [← h, parseJsonNumber_intToDec x hx c rest hc] at this
  exact this

/-- The JSON values of a list of whole numbers. -/
theorem parseElements_ints (xs : List Int) :
    ∀ (x : Int) (f : Nat) (rest : Str), (∀ y ∈ x :: xs, y.natAbs ≤ 2 ^ 53) →
      xs.length + 2 ≤ f →
      parseElements f (joinComma ((x :: xs).map intToDec) ++ ']' :: rest)
        = some ((x :: xs).map (fun y => JSValue.num (.fin y 0)), rest) := by
  induction xs with
  | nil =>
    intro x f rest hs hf
    obtain ⟨g, rfl⟩ : ∃ g, f = g + 2 := ⟨f - 2, by simp at hf; omega⟩
    have hv := parseValue_intToDec g x (hs x (by simp)) ']' rest (Or.inr rfl)
    show parseElements (g + 1 + 1) (intToDec x ++ ']' :: rest) = _
    rw [parseElements, hv]
    rfl
  | cons y ys ih =>
    intro x f rest hs hf
    obtain ⟨g, rfl⟩ : ∃ g, f = g + 2 := ⟨f - 2, by simp at hf; omega⟩
    have e : joinComma ((x :: y :: ys).map intToDec) ++ ']' :: rest
        = intToDec x ++ ',' :: (joinComma ((y :: ys).map intToDec) ++ ']' :: rest) := by
      simp [joinComma]
    have hv := parseValue_intToDec g x (hs x (by simp)) ','
      (joinComma ((y :: ys).map intToDec) ++ ']' :: rest) (Or.inl rfl)
    have hrec := ih y (g + 1) rest (fun z hz => hs z (by simp [List.mem_cons] at hz ⊢; tauto))
      (by simp at hf ⊢; omega)
    rw [e]
    show parseElements (g + 1 + 1) _ = _
    rw [parseElements, hv]
    show Option.map _ (parseElements (g + 1) _) = _
    rw [hrec]
    rfl

theorem encIntArray_length (xs : List Int) : xs.length ≤ (encIntArray xs).length := by
  have h : ∀ l : List Int, l.length ≤ (joinComma (l.map intToDec)).length + 1 := by
    intro l
    induction l with
    | nil => simp
    | cons a t ih =>
      cases t with
      | nil => simp
      | cons b r =>
        simp only [List.map_cons, joinComma, List.length_append, List.length_cons] at ih ⊢
        omega
  have := h xs
  simp only [encIntArray, List.length_cons, List.length_append, List.length_singleton]
  omega

/-- `JSON.parse` of the text of a list of whole numbers of magnitude at most `2 ^ 53`
returns the array of these numbers. -/
theorem jsonParse_encIntArray (xs : List Int) (hs : ∀ y ∈ xs, y.natAbs ≤ 2 ^ 53) :
    jsonParse (encIntArray xs) = .ok (.arr (xs.map (fun y => JSValue.num (.fin y 0)))) := by
  have hlen := encIntArray_length xs
  unfold jsonParse
  obtain ⟨g, hg⟩ : ∃ g, 2 * (encIntArray xs).length + 2 = g + 1 := ⟨_, rfl⟩
  rw [hg]
  cases xs with
  | nil => rfl
  | cons x t =>
    obtain ⟨d, r, hd, hdd⟩ := intToDec_head x []
    have hpe := parseElements_ints t x g [] hs (by simp at hlen ⊢; omega)
    have e : encIntArray (x :: t) = '[' :: (joinComma ((x :: t).map intToDec) ++ [']']) := rfl
    obtain ⟨d, r, hdr, hd⟩ : ∃ d r, joinComma ((x :: t).map intToDec) ++ [']'] = d :: r
        ∧ (isDigit d = true ∨ d = '-') := by
      cases t with
      | nil =>
        obtain ⟨d, r, h1, h2⟩ := intToDec_head x [']']
        exact ⟨d, r, h1, h2⟩
      | cons y ys =>
        obtain ⟨d, r, h1, h2⟩ := intToDec_head x (',' :: (joinComma ((y :: ys).map intToDec) ++ [']']))
        refine ⟨d, r, ?_, h2⟩
        rw [← h1]
        simp [joinComma]
    have hws : skipWs (d :: r) = d :: r := by
      rcases hd with hd | rfl
      · rcases char_cases_of_isDigit d hd with
          rfl | rfl | rfl | rfl | rfl | rfl | rfl | rfl | rfl | rfl <;> rfl
      · rfl
    have hnb : d ≠ ']' := by
      rcases hd with hd | rfl
      · rintro rfl; revert hd; decide
      · decide
    rw [e]
    have step : parseValue (g + 1) ('[' :: (joinComma ((x :: t).map intToDec) ++ [']']))
        = (parseElements g (joinComma ((x :: t).map intToDec) ++ [']'])).map
            (fun (t : List JSValue × Str) => (JSValue.arr t.1, t.2)) := by
      rw [parseValue]
      show (match skipWs (joinComma ((x :: t).map intToDec) ++ [']']) with
        | ']' :: r2 => some (JSValue.arr [], r2)
        | _ => (parseElements g (joinComma ((x :: t).map intToDec) ++ [']'])).map
            (fun (t : List JSValue × Str) => (JSValue.arr t.1, t.2))) = _
      rw [hdr, hws]
      split
      · rename_i h; injection h with h1 _; exact absurd h1 hnb
      · rfl
    rw [step, hpe]
    rfl

theorem isEncChar_props (c : Char) (h : isEncChar c = true) :
    isJsSpace c = false ∧ c.toNat < 0x10000 := by
  simp only [isEncChar, Bool.or_eq_true, beq_iff_eq] at h
  rcases h with (((h | rfl) | rfl) | rfl) | rfl
  · rcases char_cases_of_isDigit c h with
      rfl | rfl | rfl | rfl | rfl | rfl | rfl | rfl | rfl | rfl <;> decide
  all_goals decide

theorem intToDec_encChars (x : Int) : ∀ c ∈ intToDec x, isEncChar c = true := by
  intro c hc
  cases x with
  | ofNat n =>
    have := natToDec_allDigits n c hc
    simp [isEncChar, this]
  | negSucc m =>
    rcases List.mem_cons.mp hc with rfl | hc
    · decide
    · have := natToDec_allDigits (m + 1) c hc
      simp [isEncChar, this]

theorem joinComma_encChars (xs : List Int) :
    ∀ c ∈ joinComma (xs.map intToDec), isEncChar c = true := by
  induction xs with
  | nil => intro c hc; simp [joinComma] at hc
  | cons a t ih =>
    cases t with
    | nil =>
      intro c hc
      exact intToDec_encChars a c (by simpa [joinComma] using hc)
    | cons b r =>
      intro c hc
      simp only [List.map_cons, joinComma, List.mem_append, List.mem_cons] at hc
      rcases hc with hc | rfl | hc
      · exact intToDec_encChars a c hc
      · decide
      · exact ih c (by simpa [joinComma] using hc)

theorem encIntArray_encChars (xs : List Int) : ∀ c ∈ encIntArray xs, isEncChar c = true := by
  intro c hc
  simp only [encIntArray, List.mem_cons, List.mem_append, List.mem_singleton,
    List.not_mem_nil, or_false] at hc
  rcases hc with (rfl | hc) | rfl
  · decide
  · exact joinComma_encChars xs c hc
  · decide

theorem stripWs_encIntArray (xs : List Int) : stripWs (encIntArray xs) = encIntArray xs := by
  unfold stripWs
  rw [List.filter_eq_self]
  intro c hc
  simp [(isEncChar_props c (encIntArray_encChars xs c hc)).1]

theorem toUtf16_bmp (s : Str) (h : ∀ c ∈ s, c.toNat < 0x10000) :
    toUtf16 s = s.map Char.toNat := by
  induction s with
  | nil => rfl
  | cons c t ih =>
    have hc : c.toNat < 0x10000 := h c (by simp)
    have e : toUtf16 (c :: t) = utf16 c ++ toUtf16 t := by simp [toUtf16]
    rw [e, ih (fun d hd => h d (by simp [hd]))]
    simp [utf16, hc]

theorem numberToString_int (x : Int) (hx : x.natAbs ≤ 2 ^ 53) :
    numberToString (.fin x 0) = intToDec x := by
  cases x with
  | ofNat n =>
    cases n with
    | zero => rfl
    | succ m =>
      have hm : m + 1 ≤ 2 ^ 53 := hx
      show posToString (m + 1) 0 = natToDec (m + 1)
      unfold posToString
      rw [if_pos ⟨rfl, hm⟩]
  | negSucc m =>
    have hm : m + 1 ≤ 2 ^ 53 := hx
    show '-' :: posToString (m + 1) 0 = '-' :: natToDec (m + 1)
    unfold posToString
    rw [if_pos ⟨rfl, hm⟩]

theorem jsonStringify_int (x : Int) (hx : x.natAbs ≤ 2 ^ 53) :
    jsonStringify (.num (.fin x 0)) = (intToDec x).map Char.toNat := by
  have e : jsonStringify (.num (.fin x 0)) = toUtf16 (numberToString (.fin x 0)) := by
    rw [jsonStringify]
    rfl
  rw [e, numberToString_int x hx]
  exact toUtf16_bmp _ (fun c hc => (isEncChar_props c (intToDec_encChars x c hc)).2)

theorem stringifyElements_ints (xs : List Int) (hs : ∀ y ∈ xs, y.natAbs ≤ 2 ^ 53) :
    stringifyElements (xs.map (fun y => JSValue.num (.fin y 0)))
      = (joinComma (xs.map intToDec)).map Char.toNat := by
  induction xs with
  | nil => simp [stringifyElements, joinComma]
  | cons a t ih =>
    cases t with
    | nil =>
      simp only [List.map_cons, List.map_nil, stringifyElements, joinComma]
      exact jsonStringify_int a (hs a (by simp))
    | cons b r =>
      have ih' := ih (fun y hy => hs y (by simp [hy]))
      simp only [List.map_cons] at ih' ⊢
      rw [stringifyElements, ih', jsonStringify_int a (hs a (by simp))]
      simp [joinComma]

/-- `JSON.stringify` of an array of whole numbers of magnitude at most `2 ^ 53` is the
bracketed, comma-joined decimal text. -/
theorem jsonStringify_ints (xs : List Int) (hs : ∀ y ∈ xs, y.natAbs ≤ 2 ^ 53) :
    jsonStringify (.arr (xs.map (fun y => JSValue.num (.fin y 0))))
      = (encIntArray xs).map Char.toNat := by
  rw [jsonStringify, stringifyElements_ints xs hs]
  simp [encIntArray]

theorem parseArray_encIntArray (xs : List Int) (hs : ∀ y ∈ xs, y.natAbs ≤ 2 ^ 53) :
    parseArray jsonParse (encIntArray xs) = .arr (xs.map (fun y => JSValue.num (.fin y 0))) := by
  unfold parseArray
  simp only [stripWs_encIntArray]
  have h1 : startsWithChar (encIntArray xs) '[' = true := rfl
  have h2 : endsWithChar (encIntArray xs) ']' = true := by
    have e : encIntArray xs = ('[' :: joinComma (xs.map intToDec)) ++ [']'] := rfl
    rw [endsWithChar, e, List.getLast?_concat]
    rfl
  rw [h1, h2, jsonParse_encIntArray xs hs]
  rfl

theorem char_toNat_injective : Function.Injective Char.toNat := by
  intro a b h
  rw [← Char.ofNat_toNat a, ← Char.ofNat_toNat b, h]

theorem encIntArray_injective (xs ys : List Int) (hx : ∀ y ∈ xs, y.natAbs ≤ 2 ^ 53)
    (hy : ∀ y ∈ ys, y.natAbs ≤ 2 ^ 53) (h : encIntArray xs = encIntArray ys) : xs = ys := by
  have h1 := jsonParse_encIntArray xs hx
  rw [h, jsonParse_encIntArray ys hy] at h1
  injection h1 with h1
  injection h1 with h1
  refine List.map_injective_iff.mpr ?_ h1.symm
  intro a b hab
  injection hab with hab
  injection hab

theorem compareOutputs_encIntArray (xs ys : List Int) (hx : ∀ y ∈ xs, y.natAbs ≤ 2 ^ 53)
    (hy : ∀ y ∈ ys, y.natAbs ≤ 2 ^ 53) :
    compareOutputs (encIntArray xs) (encIntArray ys) "integer[]".toList
      = ((encIntArray xs).map Char.toNat == (encIntArray ys).map Char.toNat) := by
  have ht : isArrayType "integer[]".toList = true := by decide
  unfold compareOutputs compareOutputsWith compareOutputsBody
  simp only [ht, if_true, stripWs_encIntArray, parseArray_encIntArray xs hx,
    parseArray_encIntArray ys hy, truthy, Bool.not_true, Bool.or_self, Bool.false_eq_true,
    if_false, jsonStringify_ints xs hx, jsonStringify_ints ys hy]

/-- C2, as stated, fails: the texts of the one-element lists `[2^53 + 1]` and `[2^53]`
are judged equal, because `JSON.parse` rounds both numerals to the same double. -/
theorem compareOutputs_intArray_unbounded_counterexample :
    ¬ (∀ xs ys : List Int,
        compareOutputs (encIntArray xs) (encIntArray ys) "integer[]".toList = true ↔ xs = ys) := by
  intro h
  have h1 := (h [9007199254740993] [9007199254740992]).mp (by decide)
  revert h1
  decide

/-- C2 (amended): for lists of whole numbers of magnitude at most `2 ^ 53` (the range
in which a JavaScript number holds every whole number exactly), with the texts
`encIntArray xs` and `encIntArray ys`, `compareOutputs` on the type `integer[]` is
`true` exactly when the lists are equal: same length, same element at every position,
in order; `compareOutputs("[1,2]", "[2,1]", "integer[]")` is `false`. -/
theorem compareOutputs_intArray_iff (xs ys : List Int)
    (hx : ∀ x ∈ xs, x.natAbs ≤ 2 ^ 53) (hy : ∀ y ∈ ys, y.natAbs ≤ 2 ^ 53) :
    (compareOutputs (encIntArray xs) (encIntArray ys) "integer[]".toList = true
      ↔ (xs.length = ys.length ∧ ∀ i : Nat, xs[i]? = ys[i]?))
    ∧ compareOutputs "[1,2]".toList "[2,1]".toList "integer[]".toList = false := by
  refine ⟨?_, by decide⟩
  rw [compareOutputs_encIntArray xs ys hx hy]
  constructor
  · intro h
    have h1 : (encIntArray xs).map Char.toNat = (encIntArray ys).map Char.toNat := by
      simpa using h
    have h2 := List.map_injective_iff.mpr char_toNat_injective h1
    have h3 := encIntArray_injective xs ys hx hy h2
    subst h3
    exact ⟨rfl, fun _ => rfl⟩
  · rintro ⟨_, h⟩
    have : xs = ys := List.ext_getElem? h
    subst this
    simp

/-- Witness for C2 (amended) at the lists `[1, 2]` and `[2, 1]`. -/
theorem compareOutputs_intArray_iff_witness :
    (∀ x ∈ ([1, 2] : List Int), x.natAbs ≤ 2 ^ 53) ∧ (∀ y ∈ ([2, 1] : List Int), y.natAbs ≤ 2 ^ 53)
    ∧ ((compareOutputs (encIntArray [1, 2]) (encIntArray [2, 1]) "integer[]".toList = true
        ↔ (([1, 2] : List Int).length = ([2, 1] : List Int).length
            ∧ ∀ i : Nat, ([1, 2] : List Int)[i]? = ([2, 1] : List Int)[i]?))
      ∧ compareOutputs "[1,2]".toList "[2,1]".toList "integer[]".toList = false) :=
  ⟨by decide, by decide, compareOutputs_intArray_iff [1, 2] [2, 1] (by decide) (by decide)⟩

/-! ## The test runner -/

theorem runTestsLoop_eq (exec : Nat → Str → Except Str Str) (metadata : Metadata)
    (testCases : List Str) :
    ∀ (i : Nat) (results : List TestResult),
      runTestsLoop exec metadata i testCases results
        = results ++ (testCases.enumFrom i).map (fun p => runCase exec metadata p.1 p.2) := by
  induction testCases with
  | nil => intro i results; simp [runTestsLoop]
  | cons tc rest ih =>
    intro i results
    rw [runTestsLoop, ih (i + 1) (results ++ [runCase exec metadata i tc])]
    simp

theorem runTests_eq (exec : Nat → Str → Except Str Str) (metadata : Metadata)
    (testCases : List Str) :
    runTests exec metadata testCases
      = .ok (testCases.enum.map (fun p => runCase exec metadata p.1 p.2)) := by
  unfold runTests
  rw [runTestsLoop_eq]
  rfl

theorem runTests_getElem? (exec : Nat → Str → Except Str Str) (metadata : Metadata)
    (testCases : List Str) (i : Nat) :
    (testCases.enum.map (fun p => runCase exec metadata p.1 p.2))[i]?
      = testCases[i]?.map (fun tc => runCase exec metadata i tc) := by
  rw [List.getElem?_map, List.getElem?_enum]
  cases testCases[i]? <;> rfl

theorem runCase_frame (exec : Nat → Str → Except Str Str) (metadata : Metadata) (i : Nat)
    (tc : Str) :
    (runCase exec metadata i tc).testCase = i + 1 ∧ (runCase exec metadata i tc).input = tc
      ∧ (runCase exec metadata i tc).expectedOutput = metadata.expectedOutputs[i]? := by
  unfold runCase
  cases exec i tc with
  | error m => exact ⟨rfl, rfl, rfl⟩
  | ok out =>
    cases h : metadata.expectedOutputs[i]? with
    | none => exact ⟨rfl, rfl, rfl⟩
    | some e => exact ⟨rfl, rfl, rfl⟩

/-- C5: a completed run of `runTests` over `N` loaded test cases returns exactly `N`
results in input order: result `i` has `testCase = i + 1`, `input = testCases[i]` and
`expectedOutput = metadata.expectedOutputs[i]`, whatever each call of `executeTest`
does (return an output or throw). -/
theorem runTests_one_result_per_case (exec : Nat → Str → Except Str Str)
    (metadata : Metadata) (testCases : List Str) :
    ∃ results : List TestResult,
      runTests exec metadata testCases = .ok results
      ∧ results.length = testCases.length
      ∧ ∀ i : Nat, i < testCases.length →
          ∃ r tc, results[i]? = some r ∧ testCases[i]? = some tc
            ∧ r.testCase = i + 1 ∧ r.input = tc
            ∧ r.expectedOutput = metadata.expectedOutputs[i]? := by
  refine ⟨_, runTests_eq exec metadata testCases, by simp, ?_⟩
  intro i hi
  refine ⟨runCase exec metadata i testCases[i], testCases[i], ?_, ?_, ?_⟩
  · rw [runTests_getElem?, List.getElem?_eq_getElem hi]
    rfl
  · exact List.getElem?_eq_getElem hi
  · exact runCase_frame exec metadata i testCases[i]

/-- C6: in a run over `N` test cases with aligned expected outputs in which
`executeTest` throws `message` for the case at index `k` and returns an output for every
other case, there are `N` results; result `k` has `passed = false`, `actualOutput = null`
and `error = message`; every other result `i` has `error = null`, the trimmed output as
`actualOutput` and `passed = compareOutputs(trimmed output, trimmed expected, return
type)`, and is the result of any run in which `executeTest` does the same for case `i`,
whatever it does for case `k`. -/
theorem runTests_single_failure (exec : Nat → Str → Except Str Str) (metadata : Metadata)
    (testCases : List Str) (k : Nat) (message : Str)
    (hlen : metadata.expectedOutputs.length = testCases.length)
    (hthrow : ∃ tc, testCases[k]? = some tc ∧ exec k tc = .error message)
    (hok : ∀ i tc, testCases[i]? = some tc → i ≠ k → ∃ output, exec i tc = .ok output) :
    ∃ results : List TestResult,
      runTests exec metadata testCases = .ok results
      ∧ results.length = testCases.length
      ∧ (∃ r, results[k]? = some r ∧ r.passed = false ∧ r.actualOutput = none
          ∧ r.error = some message)
      ∧ (∀ i tc, testCases[i]? = some tc → i ≠ k →
          ∃ r output expected, results[i]? = some r ∧ exec i tc = .ok output
            ∧ metadata.expectedOutputs[i]? = some expected
            ∧ r.error = none ∧ r.actualOutput = some (trim output)
            ∧ r.passed = compareOutputs (trim output) (trim expected) metadata.returnType)
      ∧ (∀ (exec' : Nat → Str → Except Str Str) (results' : List TestResult),
          runTests exec' metadata testCases = .ok results' →
          ∀ i tc, testCases[i]? = some tc → exec' i tc = exec i tc →
            results'[i]? = results[i]?) := by
  refine ⟨_, runTests_eq exec metadata testCases, by simp, ?_, ?_, ?_⟩
  · obtain ⟨tc, htc, he⟩ := hthrow
    refine ⟨runCase exec metadata k tc, ?_, ?_, ?_, ?_⟩
    · rw [runTests_getElem?, htc]; rfl
    all_goals simp [runCase, he]
  · intro i tc htc hne
    obtain ⟨output, ho⟩ := hok i tc htc hne
    have hi : i < testCases.length := by
      by_contra hc
      rw [List.getElem?_eq_none (by omega)] at htc
      cases htc
    have hexp : metadata.expectedOutputs[i]? = some metadata.expectedOutputs[i] :=
      List.getElem?_eq_getElem (by omega)
    refine ⟨runCase exec metadata i tc, output, metadata.expectedOutputs[i], ?_, ho, hexp, ?_⟩
    · rw [runTests_getElem?, htc]; rfl
    · simp [runCase, ho, hexp]
  · intro exec' results' hr i tc htc he
    rw [runTests_eq] at hr
    injection hr with hr
    rw [← hr, runTests_getElem?, runTests_getElem?, htc]
    simp [runCase, he]

/-- Witness for C6: three test cases, the second of which throws `boom`. -/
theorem runTests_single_failure_witness :
    ∃ results : List TestResult,
      runTests sampleExec sampleMetadata ["a".toList, "b".toList, "c".toList] = .ok results
      ∧ results.length = 3
      ∧ (∃ r, results[1]? = some r ∧ r.passed = false ∧ r.actualOutput = none
          ∧ r.error = some "boom".toList) := by
  obtain ⟨results, h1, h2, h3, _⟩ :=
    runTests_single_failure sampleExec sampleMetadata ["a".toList, "b".toList, "c".toList] 1
      "boom".toList (by decide) ⟨"b".toList, by decide, rfl⟩
      (by
        intro i tc htc hne
        refine ⟨tc ++ ['\n'], ?_⟩
        simp [sampleExec, hne])
  exact ⟨results, h1, h2, h3⟩

theorem execSync_fail (sys : Str → List Nat → ProcResult) (cmd : Str) (input : List Nat)
    (h : (sys cmd input).status ≠ 0) :
    execSync sys cmd input
      = .error ("Command failed: ".toList ++ cmd
          ++ (if (sys cmd input).stderr = [] then [] else '\n' :: (sys cmd input).stderr)) := by
  unfold execSync
  simp [h]

theorem executeTest_cpp_build_fails (sys : Str → List Nat → ProcResult) (p : ExecPaths)
    (tc : Str) (h : (sys (cppCompileCmd p) []).status ≠ 0) :
    executeTest sys p tc "cpp".toList = execSync sys (cppCompileCmd p) [] := by
  have e := execSync_fail sys (cppCompileCmd p) [] h
  unfold executeTest
  rw [if_pos rfl, e]

theorem executeTest_java_build_fails (sys : Str → List Nat → ProcResult) (p : ExecPaths)
    (tc : Str) (h : (sys (javaCompileCmd p) []).status ≠ 0) :
    executeTest sys p tc "java".toList
      = match testInput tc with
        | .error e => .error e
        | .ok _ => execSync sys (javaCompileCmd p) [] := by
  have e := execSync_fail sys (javaCompileCmd p) [] h
  unfold executeTest
  rw [if_neg (by decide), if_neg (by decide), if_pos rfl, e]

theorem runCase_error (exec : Nat → Str → Except Str Str) (metadata : Metadata) (i : Nat)
    (tc message : Str) (h : exec i tc = .error message) :
    (runCase exec metadata i tc).passed = false ∧ (runCase exec metadata i tc).actualOutput = none
      ∧ (runCase exec metadata i tc).error = some message := by
  simp [runCase, h]

theorem runTests_mem (exec : Nat → Str → Except Str Str) (metadata : Metadata)
    (testCases : List Str) (r : TestResult)
    (h : r ∈ testCases.enum.map (fun p => runCase exec metadata p.1 p.2)) :
    ∃ i tc, testCases[i]? = some tc ∧ r = runCase exec metadata i tc := by
  obtain ⟨j, hj⟩ := List.getElem?_of_mem h
  rw [runTests_getElem?] at hj
  cases htc : testCases[j]? with
  | none => rw [htc] at hj; cases hj
  | some tc =>
    rw [htc] at hj
    injection hj with hj
    exact ⟨j, tc, htc, hj.symm⟩

/-- C7, as stated, fails: with a failing C++ build and one test case, `runTests` does
not fail and does not return zero results; it returns one result that carries the
message of the failed compiler command. -/
theorem runTests_build_failure_counterexample :
    (brokenBuild (cppCompileCmd samplePaths) []).status ≠ 0
    ∧ runTests (fun _ tc => executeTest brokenBuild samplePaths tc "cpp".toList) sampleMetadata
        ["{}".toList]
      = .ok [{ testCase := 1, input := "{}".toList, expectedOutput := some "[0,1]".toList,
               actualOutput := none, passed := false,
               error := some ("Command failed: g++ -std=c++17 \"/t/solution.cpp\" -o "
                 ++ "\"/t/solution\"\nerror: expected ';'").toList }] := by
  refine ⟨by decide, ?_⟩
  rfl

/-- C7 (amended): when the compiler invocation of `executeTest` exits non-zero (C++ or
Java), `runTests` does not abort.  It returns one result per test case, each with
`passed = false` and `actualOutput = null`; the `error` is the message of the failed
compiler command, which carries the compiler's diagnostic text (for Java, when the
test case is valid JSON; a test case that is not is reported with the parse error).
The results do not depend on what running the program would do: no test case is run. -/
theorem runTests_build_failure (sys : Str → List Nat → ProcResult) (p : ExecPaths)
    (metadata : Metadata) (testCases : List Str) (language compileCmd : Str)
    (hlang : (language = "cpp".toList ∧ compileCmd = cppCompileCmd p)
      ∨ (language = "java".toList ∧ compileCmd = javaCompileCmd p))
    (hfail : (sys compileCmd []).status ≠ 0) :
    ∃ results : List TestResult,
      runTests (fun _ tc => executeTest sys p tc language) metadata testCases = .ok results
      ∧ results.length = testCases.length
      ∧ (∀ r ∈ results, r.passed = false ∧ r.actualOutput = none
          ∧ ((∃ input, testInput r.input = .ok input) ∨ language = "cpp".toList →
              r.error = some ("Command failed: ".toList ++ compileCmd
                ++ (if (sys compileCmd []).stderr = [] then []
                    else '\n' :: (sys compileCmd []).stderr))))
      ∧ (∀ sys' : Str → List Nat → ProcResult, sys' compileCmd [] = sys compileCmd [] →
          runTests (fun _ tc => executeTest sys' p tc language) metadata testCases
            = .ok results) := by
  have key : ∀ (s : Str → List Nat → ProcResult), s compileCmd [] = sys compileCmd [] →
      ∀ tc, executeTest s p tc language
        = (if language = "cpp".toList then
            .error ("Command failed: ".toList ++ compileCmd
                ++ (if (sys compileCmd []).stderr = [] then []
                    else '\n' :: (sys compileCmd []).stderr))
          else match testInput tc with
            | .error e => .error e
            | .ok _ => .error ("Command failed: ".toList ++ compileCmd
                ++ (if (sys compileCmd []).stderr = [] then []
                    else '\n' :: (sys compileCmd []).stderr))) := by
    intro s hs tc
    have hf : (s compileCmd []).status ≠ 0 := by rw [hs]; exact hfail
    rcases hlang with ⟨rfl, rfl⟩ | ⟨rfl, rfl⟩
    · rw [executeTest_cpp_build_fails s p tc hf, execSync_fail s _ [] hf, hs, if_pos rfl]
    · have hne : ¬ ("java".toList = "cpp".toList) := by decide
      rw [executeTest_java_build_fails s p tc hf, execSync_fail s _ [] hf, hs, if_neg hne]
  have same : ∀ (s : Str → List Nat → ProcResult), s compileCmd [] = sys compileCmd [] →
      (fun (_ : Nat) tc => executeTest s p tc language)
        = (fun (_ : Nat) tc => executeTest sys p tc language) := by
    intro s hs
    funext _ tc
    rw [key s hs tc, key sys rfl tc]
  refine ⟨_, runTests_eq _ metadata testCases, by simp, ?_, ?_⟩
  · intro r hr
    obtain ⟨i, tc, _, rfl⟩ := runTests_mem _ metadata testCases r hr
    have hin : (runCase (fun _ tc => executeTest sys p tc language) metadata i tc).input = tc :=
      (runCase_frame _ metadata i tc).2.1
    have hk := key sys rfl tc
    by_cases hc : language = "cpp".toList
    · rw [if_pos hc] at hk
      have := runCase_error (fun _ tc => executeTest sys p tc language) metadata i tc _ hk
      exact ⟨this.1, this.2.1, fun _ => this.2.2⟩
    · rw [if_neg hc] at hk
      cases hti : testInput tc with
      | error e =>
        rw [hti] at hk
        have := runCase_error (fun _ tc => executeTest sys p tc language) metadata i tc _ hk
        refine ⟨this.1, this.2.1, ?_⟩
        rintro (⟨input, hinput⟩ | h)
        · rw [hin, hti] at hinput
          cases hinput
        · exact absurd h hc
      | ok input =>
        rw [hti] at hk
        have := runCase_error (fun _ tc => executeTest sys p tc language) metadata i tc _ hk
        exact ⟨this.1, this.2.1, fun _ => this.2.2⟩
  · intro sys' hs
    rw [same sys' hs]
    exact runTests_eq _ metadata testCases

/-- Witness for C7 (amended): the failing C++ build of `brokenBuild` with one test case. -/
theorem runTests_build_failure_witness :
    ∃ results : List TestResult,
      runTests (fun _ tc => executeTest brokenBuild samplePaths tc "cpp".toList) sampleMetadata
        ["{}".toList] = .ok results
      ∧ results.length = 1 := by
  obtain ⟨results, h1, h2, _⟩ :=
    runTests_build_failure brokenBuild samplePaths sampleMetadata ["{}".toList] "cpp".toList
      (cppCompileCmd samplePaths) (Or.inl ⟨rfl, rfl⟩) (by decide)
  exact ⟨results, h1, h2⟩

/-! ## Level-order arrays and the tree loops -/

theorem tokAt_of_lt (a : List (Option Int)) (q : Nat) (h : q < a.length) :
    a[q]? = some (tokAt a q) := by
  simp [tokAt, List.getElem?_eq_getElem h]

theorem tokAt_of_ge (a : List (Option Int)) (q : Nat) (h : a.length ≤ q) : tokAt a q = none := by
  simp [tokAt, List.getElem?_eq_none h]

theorem nodesBefore_zero (a : List (Option Int)) : nodesBefore a 0 = 0 := by
  simp [nodesBefore]

theorem nodesBefore_succ (a : List (Option Int)) (q : Nat) :
    nodesBefore a (q + 1) = nodesBefore a q + (if (tokAt a q).isSome then 1 else 0) := by
  unfold nodesBefore
  rw [List.take_succ, List.countP_append]
  by_cases h : q < a.length
  · rw [tokAt_of_lt a q h]
    cases tokAt a q <;> simp
  · rw [tokAt_of_ge a q (by omega), List.getElem?_eq_none (by omega)]
    simp

theorem nodesBefore_of_ge (a : List (Option Int)) (q : Nat) (h : a.length ≤ q) :
    nodesBefore a q = nodesBefore a a.length := by
  unfold nodesBefore
  rw [List.take_of_length_le h, List.take_of_length_le (le_refl _)]

theorem nodesBefore_mono (a : List (Option Int)) (p q : Nat) (h : p ≤ q) :
    nodesBefore a p ≤ nodesBefore a q := by
  induction q with
  | zero =>
    have : p = 0 := by omega
    subst this; exact le_refl _
  | succ q ih =>
    by_cases hp : p = q + 1
    · subst hp; exact le_refl _
    · have := ih (by omega)
      rw [nodesBefore_succ]
      omega

theorem length_filterMap_id (l : List (Option Int)) :
    (l.filterMap id).length = l.countP Option.isSome := by
  induction l with
  | nil => rfl
  | cons x t ih => cases x <;> simp [List.filterMap_cons, ih]

/-- The value of the node made from an integer token is that integer. -/
theorem val_nodesBefore (a : List (Option Int)) (q : Nat) (v : Int) (h : tokAt a q = some v) :
    (a.filterMap id).getD (nodesBefore a q) 0 = v := by
  have hq : q < a.length := by
    by_contra hc
    rw [tokAt_of_ge a q (by omega)] at h
    cases h
  have hget : a[q] = some v := by
    have := tokAt_of_lt a q hq
    rw [h, List.getElem?_eq_getElem hq] at this
    exact Option.some.inj this
  have hsplit : a = a.take q ++ a[q] :: a.drop (q + 1) := by
    rw [List.getElem_cons_drop a q hq, List.take_append_drop]
  have e : a.filterMap id = (a.take q).filterMap id ++ v :: (a.drop (q + 1)).filterMap id := by
    conv_lhs => rw [hsplit]
    rw [List.filterMap_append, hget]
    simp [List.filterMap_cons]
  have hl : ((a.take q).filterMap id).length = nodesBefore a q := length_filterMap_id _
  rw [e, List.getD_eq_getElem?_getD, List.getElem?_append_right (by omega), hl]
  simp

theorem nodesBefore_lt_of_some (a : List (Option Int)) (q : Nat) (v : Int)
    (h : tokAt a q = some v) : nodesBefore a q < nodesBefore a a.length := by
  have hq : q < a.length := by
    by_contra hc
    rw [tokAt_of_ge a q (by omega)] at h
    cases h
  have h1 := nodesBefore_succ a q
  rw [h] at h1
  have h2 := nodesBefore_mono a (q + 1) a.length (by omega)
  simp at h1
  omega

theorem ptrAt_of_some (a : List (Option Int)) (q : Nat) (v : Int) (h : tokAt a q = some v) :
    ptrAt a q = some (nodesBefore a q) := by
  simp [ptrAt, h]

theorem ptrAt_of_none (a : List (Option Int)) (q : Nat) (h : tokAt a q = none) :
    ptrAt a q = none := by
  simp [ptrAt, h]

theorem attachChild_spec {τ ε : Type} (isNull : τ → Bool) (mk : τ → Except ε Int)
    (parts : List τ) (a : List (Option Int)) (hT : TokensOf isNull mk parts a)
    (isRight : Bool) (H : TreeHeap) (queue : List Nat) (cur i : Nat)
    (hsize : H.size = nodesBefore a i) (hcur : cur < H.size) :
    ∃ H', attachChild isNull mk parts isRight H queue cur i
        = .ok (H', queue ++ (ptrAt a i).toList)
      ∧ H'.size = nodesBefore a (i + 1)
      ∧ (∀ j, j ≠ cur → j < H.size → H'.cell j = H.cell j)
      ∧ (∀ v, tokAt a i = some v → H'.cell H.size = ⟨v, none, none⟩)
      ∧ H'.cell cur = (match ptrAt a i with
          | none => H.cell cur
          | some c => withChild (H.cell cur) isRight (some c)) := by
  obtain ⟨hlen, htok⟩ := hT
  have hnull : tokAt a i = none →
      nodesBefore a (i + 1) = H.size ∧ ptrAt a i = none := by
    intro h
    refine ⟨?_, ptrAt_of_none a i h⟩
    rw [nodesBefore_succ, h, hsize]
    simp
  unfold attachChild
  cases hp : parts[i]? with
  | none =>
    have hi : a.length ≤ i := by
      by_contra hc
      rw [List.getElem?_eq_getElem (by omega)] at hp
      cases hp
    obtain ⟨h1, h2⟩ := hnull (tokAt_of_ge a i hi)
    refine ⟨H, by simp [h2], h1.symm, fun _ _ _ => rfl, ?_, by simp [h2]⟩
    intro v hv
    rw [tokAt_of_ge a i hi] at hv
    cases hv
  | some part =>
    rcases htok i part hp with ⟨hn, ht⟩ | ⟨hn, v, hmk, ht⟩
    · obtain ⟨h1, h2⟩ := hnull ht
      refine ⟨H, by simp [hn, h2], h1.symm, fun _ _ _ => rfl, ?_, by simp [h2]⟩
      intro v hv
      rw [ht] at hv
      cases hv
    · have hptr : ptrAt a i = some H.size := by
        rw [ptrAt_of_some a i v ht, hsize]
      have hne : cur ≠ H.size := by omega
      refine ⟨(H.alloc v).setChild isRight cur H.size, by simp [hn, hmk, hptr], ?_, ?_, ?_, ?_⟩
      · show H.size + 1 = _
        rw [nodesBefore_succ, ht, hsize]
        simp
      · intro j hj hjs
        show Function.update (Function.update H.cell H.size _) cur _ j = _
        rw [Function.update_noteq hj, Function.update_noteq (by omega)]
      · intro w hw
        rw [ht] at hw
        injection hw with hw
        subst hw
        show Function.update (Function.update H.cell H.size _) cur _ H.size = _
        rw [Function.update_noteq (Ne.symm hne), Function.update_same]
      · rw [hptr]
        show Function.update (Function.update H.cell H.size _) cur _ cur = _
        rw [Function.update_same]
        show (if isRight = true then _ else _) = withChild (H.cell cur) isRight (some H.size)
        have e : Function.update H.cell H.size (⟨v, none, none⟩ : TreeCell) cur = H.cell cur :=
          Function.update_noteq hne _ _
        unfold withChild
        cases isRight <;> simp [e, TreeHeap.alloc]

theorem cellOf_eq_leaf (a : List (Option Int)) (j : Nat) (h : a.length ≤ 1 + 2 * j) :
    cellOf a j = leafCell a j := by
  unfold cellOf leafCell
  rw [ptrAt_of_none a _ (tokAt_of_ge a _ h), ptrAt_of_none a _ (tokAt_of_ge a _ (by omega))]

theorem buildLoop_done (a : List (Option Int)) (t : Nat) (H : TreeHeap)
    (hsize : H.size = nodesBefore a (1 + 2 * t))
    (hcells : ∀ j, j < H.size → H.cell j = if j < t then cellOf a j else leafCell a j)
    (hend : a.length ≤ 1 + 2 * t) :
    H.size = nodesBefore a a.length ∧ ∀ j, j < H.size → H.cell j = cellOf a j := by
  refine ⟨by rw [hsize, nodesBefore_of_ge a _ hend], ?_⟩
  intro j hj
  rw [hcells j hj]
  by_cases h : j < t
  · simp [h]
  · simp only [h, if_false]
    exact (cellOf_eq_leaf a j (by omega)).symm

theorem range'_snoc (s n : Nat) : List.range' s n ++ [s + n] = List.range' s (n + 1) := by
  rw [List.range'_concat]
  simp

theorem buildLoop_spec {τ ε : Type} (isNull : τ → Bool) (mk : τ → Except ε Int)
    (parts : List τ) (a : List (Option Int)) (hT : TokensOf isNull mk parts a)
    (hwf : ∀ p, p < a.length → p ≤ 2 * nodesBefore a p) :
    ∀ (f t : Nat) (H : TreeHeap), H.size = nodesBefore a (1 + 2 * t) → t ≤ H.size →
      (∀ j, j < H.size → H.cell j = if j < t then cellOf a j else leafCell a j) →
      a.length ≤ 1 + 2 * t + 2 * f →
      ∃ H', buildLoop isNull mk parts f H (List.range' t (H.size - t)) (1 + 2 * t) = .ok H'
        ∧ H'.size = nodesBefore a a.length ∧ ∀ j, j < H'.size → H'.cell j = cellOf a j := by
  intro f
  induction f with
  | zero =>
    intro t H hsize _ hcells hfuel
    exact ⟨H, by simp [buildLoop], buildLoop_done a t H hsize hcells (by omega)⟩
  | succ f ih =>
    intro t H hsize ht hcells hfuel
    by_cases hq : t = H.size
    · -- the queue is empty
      have hend : a.length ≤ 1 + 2 * t := by
        by_contra hc
        have := hwf (1 + 2 * t) (by omega)
        omega
      refine ⟨H, ?_, buildLoop_done a t H hsize hcells hend⟩
      rw [hq, Nat.sub_self]
      rfl
    · have hlt : t < H.size := by omega
      have hqueue : List.range' t (H.size - t) = t :: List.range' (t + 1) (H.size - t - 1) := by
        have e : H.size - t = (H.size - t - 1) + 1 := by omega
        rw [e, List.range'_succ]
        simp
      rw [hqueue]
      by_cases hi : 1 + 2 * t < a.length
      · obtain ⟨H1, hr1, hs1, hk1, hn1, hc1⟩ :=
          attachChild_spec isNull mk parts a hT false H (List.range' (t + 1) (H.size - t - 1))
            t (1 + 2 * t) hsize hlt
        have hmono1 : H.size ≤ H1.size := by
          rw [hs1, hsize]; exact nodesBefore_mono a _ _ (by omega)
        obtain ⟨H2, hr2, hs2, hk2, hn2, hc2⟩ :=
          attachChild_spec isNull mk parts a hT true H1
            (List.range' (t + 1) (H.size - t - 1) ++ (ptrAt a (1 + 2 * t)).toList)
            t (1 + 2 * t + 1) hs1 (by omega)
        have hmono2 : H1.size ≤ H2.size := by
          rw [hs2, hs1]; exact nodesBefore_mono a _ _ (by omega)
        have e2 : 1 + 2 * (t + 1) = 1 + 2 * t + 1 + 1 := by omega
        have hHt : H.cell t = leafCell a t := by
          rw [hcells t hlt]; simp
        -- sizes and queue, by the two tokens read
        have hsz1 : H1.size = H.size + (if (tokAt a (1 + 2 * t)).isSome then 1 else 0) := by
          rw [hs1, nodesBefore_succ, hsize]
        have hsz2 : H2.size = H1.size + (if (tokAt a (1 + 2 * t + 1)).isSome then 1 else 0) := by
          rw [hs2, nodesBefore_succ, hs1]
        have hp1 : (ptrAt a (1 + 2 * t)).toList
            = if (tokAt a (1 + 2 * t)).isSome then [H.size] else [] := by
          unfold ptrAt
          rw [← hsize]
          split <;> rfl
        have hp2 : (ptrAt a (1 + 2 * t + 1)).toList
            = if (tokAt a (1 + 2 * t + 1)).isSome then [H1.size] else [] := by
          unfold ptrAt
          rw [← hs1]
          split <;> rfl
        have hq2 : List.range' (t + 1) (H.size - t - 1) ++ (ptrAt a (1 + 2 * t)).toList
            ++ (ptrAt a (1 + 2 * t + 1)).toList = List.range' (t + 1) (H2.size - (t + 1)) := by
          rw [hp1, hp2]
          have hA : H.size = (t + 1) + (H.size - t - 1) := by omega
          by_cases c1 : (tokAt a (1 + 2 * t)).isSome
          · by_cases c2 : (tokAt a (1 + 2 * t + 1)).isSome
            · simp only [c1, c2, if_true] at hsz1 hsz2 ⊢
              have e : H2.size - (t + 1) = (H.size - t - 1) + 1 + 1 := by omega
              rw [e, ← range'_snoc, ← range'_snoc]
              congr 2
              all_goals first | omega | congr 1
            · simp only [c1, c2, if_true, if_false, Bool.false_eq_true] at hsz1 hsz2 ⊢
              have e : H2.size - (t + 1) = (H.size - t - 1) + 1 := by omega
              rw [e, ← range'_snoc, List.append_nil]
              congr 2
          · by_cases c2 : (tokAt a (1 + 2 * t + 1)).isSome
            · simp only [c1, c2, if_true, if_false, Bool.false_eq_true] at hsz1 hsz2 ⊢
              have e : H2.size - (t + 1) = (H.size - t - 1) + 1 := by omega
              rw [e, ← range'_snoc, List.append_nil]
              congr 2
              all_goals omega
            · simp only [c1, c2, if_false, Bool.false_eq_true] at hsz1 hsz2 ⊢
              have e : H2.size - (t + 1) = H.size - t - 1 := by omega
              rw [e, List.append_nil, List.append_nil]
        have hcells2 : ∀ j, j < H2.size →
            H2.cell j = if j < t + 1 then cellOf a j else leafCell a j := by
          intro j hj
          by_cases hjt : j = t
          · subst hjt
            simp only [Nat.lt_succ_self, if_true]
            rw [hc2, hc1, hHt]
            unfold cellOf leafCell withChild
            have e3 : 2 + 2 * j = 1 + 2 * j + 1 := by omega
            rw [e3]
            cases ptrAt a (1 + 2 * j) <;> cases ptrAt a (1 + 2 * j + 1) <;> simp
          · by_cases hjH : j < H.size
            · rw [hk2 j hjt (by omega), hk1 j hjt hjH, hcells j hjH]
              by_cases h1 : j < t
              · simp [h1, Nat.lt_succ_of_lt h1]
              · have : ¬ j < t + 1 := by omega
                simp [h1, this]
            · have hnot : ¬ j < t + 1 := by omega
              simp only [hnot, if_false]
              by_cases hj1 : j < H1.size
              · -- the node made from the left token
                have c1 : (tokAt a (1 + 2 * t)).isSome := by
                  by_contra c
                  simp only [c, if_false, Bool.false_eq_true] at hsz1
                  omega
                obtain ⟨v, hv⟩ := Option.isSome_iff_exists.mp c1
                have hjeq : j = H.size := by
                  simp only [c1, if_true] at hsz1
                  omega
                subst hjeq
                rw [hk2 _ hjt hj1, hn1 v hv]
                unfold leafCell
                rw [hsize, val_nodesBefore a _ v hv]
              · have c2 : (tokAt a (1 + 2 * t + 1)).isSome := by
                  by_contra c
                  simp only [c, if_false, Bool.false_eq_true] at hsz2
                  omega
                obtain ⟨v, hv⟩ := Option.isSome_iff_exists.mp c2
                have hjeq : j = H1.size := by
                  simp only [c2, if_true] at hsz2
                  omega
                subst hjeq
                rw [hn2 v hv]
                unfold leafCell
                rw [hs1, val_nodesBefore a _ v hv]
        have hrec := ih (t + 1) H2 (by rw [hs2, e2]) (by omega) hcells2 (by omega)
        obtain ⟨H', hb, hpost⟩ := hrec
        refine ⟨H', ?_, hpost⟩
        have hpl : 1 + 2 * t < parts.length := by rw [hT.1]; exact hi
        rw [buildLoop, if_pos hpl, hr1]
        simp only []
        rw [hr2]
        simp only []
        rw [hq2, ← e2]
        exact hb
      · refine ⟨H, ?_, buildLoop_done a t H hsize hcells (by omega)⟩
        have hpl : ¬ 1 + 2 * t < parts.length := by rw [hT.1]; exact hi
        rw [buildLoop, if_neg hpl]

theorem levelOrderLoop_spec (a : List (Option Int)) (H : TreeHeap)
    (hcells : ∀ j, j < nodesBefore a a.length → H.cell j = cellOf a j)
    (hwf : ∀ p, p < 2 * nodesBefore a a.length + 1 → p < 1 + 2 * nodesBefore a p) :
    ∀ (f p : Nat) (out : List (Option Int)), p ≤ 2 * nodesBefore a a.length + 1 →
      2 * nodesBefore a a.length + 1 - p ≤ f → p ≤ 1 + 2 * nodesBefore a p →
      levelOrderLoop H f ((List.range' p (1 + 2 * nodesBefore a p - p)).map (ptrAt a)) out
        = some (out ++ (List.range' p (2 * nodesBefore a a.length + 1 - p)).map (tokAt a)) := by
  intro f
  induction f with
  | zero =>
    intro p out hp hf hle
    have hm : nodesBefore a p ≤ nodesBefore a a.length := by
      by_cases h : p ≤ a.length
      · exact nodesBefore_mono a _ _ h
      · rw [nodesBefore_of_ge a p (by omega)]
    have e1 : 1 + 2 * nodesBefore a p - p = 0 := by omega
    have e2 : 2 * nodesBefore a a.length + 1 - p = 0 := by omega
    rw [e1, e2]
    simp [levelOrderLoop]
  | succ f ih =>
    intro p out hp hf hle
    have hm : nodesBefore a p ≤ nodesBefore a a.length := by
      by_cases h : p ≤ a.length
      · exact nodesBefore_mono a _ _ h
      · rw [nodesBefore_of_ge a p (by omega)]
    by_cases hend : p = 2 * nodesBefore a a.length + 1
    · have e1 : 1 + 2 * nodesBefore a p - p = 0 := by omega
      have e2 : 2 * nodesBefore a a.length + 1 - p = 0 := by omega
      rw [e1, e2]
      simp [levelOrderLoop]
    · have hlt := hwf p (by omega)
      have eq1 : 1 + 2 * nodesBefore a p - p = (1 + 2 * nodesBefore a p - p - 1) + 1 := by omega
      have eq2 : 2 * nodesBefore a a.length + 1 - p
          = (2 * nodesBefore a a.length + 1 - (p + 1)) + 1 := by omega
      rw [eq1, eq2, List.range'_succ, List.range'_succ, List.map_cons, List.map_cons]
      cases ht : tokAt a p with
      | none =>
        have hn := nodesBefore_succ a p
        rw [ht] at hn
        simp only [Option.isSome_none, Bool.false_eq_true, if_false, Nat.add_zero] at hn
        have hrec := ih (p + 1) (out ++ [none]) (by omega) (by omega) (by omega)
        rw [hn] at hrec
        rw [ptrAt_of_none a p ht, levelOrderLoop]
        have e3 : 1 + 2 * nodesBefore a p - p - 1 = 1 + 2 * nodesBefore a p - (p + 1) := by omega
        rw [e3, hrec]
        simp
      | some v =>
        have hn := nodesBefore_succ a p
        rw [ht] at hn
        simp only [Option.isSome_some, if_true] at hn
        have hj := nodesBefore_lt_of_some a p v ht
        have hcell := hcells _ hj
        have hrec := ih (p + 1) (out ++ [some v]) (by omega) (by omega) (by omega)
        rw [ptrAt_of_some a p v ht, levelOrderLoop, hcell]
        have hval : (cellOf a (nodesBefore a p)).val = v := val_nodesBefore a p v ht
        have hq : List.map (ptrAt a) (List.range' (p + 1) (1 + 2 * nodesBefore a p - p - 1))
              ++ [(cellOf a (nodesBefore a p)).left, (cellOf a (nodesBefore a p)).right]
            = List.map (ptrAt a) (List.range' (p + 1) (1 + 2 * nodesBefore a (p + 1) - (p + 1))) := by
          have e4 : 1 + 2 * nodesBefore a (p + 1) - (p + 1)
              = (1 + 2 * nodesBefore a p - p - 1) + 1 + 1 := by omega
          rw [e4, ← range'_snoc, ← range'_snoc, List.map_append, List.map_append]
          have e5 : p + 1 + (1 + 2 * nodesBefore a p - p - 1) = 1 + 2 * nodesBefore a p := by omega
          have e6 : p + 1 + (1 + 2 * nodesBefore a p - p - 1 + 1) = 2 + 2 * nodesBefore a p := by
            omega
          rw [e5, e6]
          simp [cellOf]
        rw [hq, hval, hrec]
        simp

theorem map_tokAt_range (a : List (Option Int)) (k : Nat) :
    (List.range' 0 (a.length + k)).map (tokAt a) = a ++ List.replicate k none := by
  rw [Nat.add_comm a.length k, ← List.range'_append_1 0 a.length k, List.map_append]
  congr 1
  · apply List.ext_getElem?
    intro i
    rw [List.getElem?_map]
    by_cases h : i < a.length
    · have h1 : (List.range' 0 a.length)[i]? = some (0 + i) := by
        rw [List.getElem?_range' _ _ h, Nat.one_mul]
      rw [h1, Option.map_some', Nat.zero_add, tokAt_of_lt a i h]
    · have h1 : (List.range' 0 a.length)[i]? = none :=
        List.getElem?_eq_none (by rw [List.length_range']; omega)
      have h2 : a[i]? = none := List.getElem?_eq_none (by omega)
      rw [h1, h2]
      rfl
  · apply List.ext_getElem?
    intro i
    rw [List.getElem?_map]
    by_cases h : i < k
    · have h1 : (List.range' (0 + a.length) k)[i]? = some (0 + a.length + i) := by
        rw [List.getElem?_range' _ _ h, Nat.one_mul]
      have h2 : (List.replicate k (none : Option Int))[i]? = some none := by
        rw [List.getElem?_replicate]
        simp [h]
      rw [h1, h2, Option.map_some', tokAt_of_ge a _ (by omega)]
    · have h1 : (List.range' (0 + a.length) k)[i]? = none :=
        List.getElem?_eq_none (by rw [List.length_range']; omega)
      have h2 : (List.replicate k (none : Option Int))[i]? = none :=
        List.getElem?_eq_none (by rw [List.length_replicate]; omega)
      rw [h1, h2]
      rfl

theorem stripTrailingNulls_append (a : List (Option Int)) (k : Nat)
    (hlast : a.getLast? ≠ some none) :
    stripTrailingNulls (a ++ List.replicate k none) = a := by
  unfold stripTrailingNulls
  rw [List.reverse_append, List.reverse_replicate]
  have h1 : ∀ (k : Nat) (l : List (Option Int)),
      (List.replicate k none ++ l).dropWhile (fun t => t.isNone) = l.dropWhile (fun t => t.isNone) := by
    intro k l
    induction k with
    | zero => rfl
    | succ k ih => simp [List.replicate_succ, List.dropWhile_cons, ih]
  rw [h1]
  cases hr : a.reverse with
  | nil =>
    have : a = [] := by simpa using hr
    subst this; rfl
  | cons x t =>
    have hx : a.getLast? = some x := by
      rw [List.getLast?_eq_head?_reverse, hr]; rfl
    cases x with
    | none => exact absurd hx hlast
    | some v =>
      rw [List.dropWhile_cons]
      simp only [Option.isNone_some, Bool.false_eq_true, if_false]
      rw [← hr, List.reverse_reverse]

/-- The tokens of a level-order array are what breadth-first traversal, with the
trailing nulls removed, reads from the tree that the array describes. -/
theorem levelOrderTokens_spec (a : List (Option Int)) (hlo : LevelOrder a) (H : TreeHeap)
    (hsize : H.size = nodesBefore a a.length)
    (hcells : ∀ j, j < H.size → H.cell j = cellOf a j) :
    levelOrderTokens H 0 = some a := by
  obtain ⟨hne, hlast, hwf⟩ := hlo
  have hpos : 0 < a.length := List.length_pos.mpr hne
  have hlen : a.length ≤ 2 * nodesBefore a a.length + 1 := by
    have h1 := hwf (a.length - 1) (by omega)
    have h2 := nodesBefore_mono a (a.length - 1) a.length (by omega)
    omega
  have hwf' : ∀ p, p < 2 * nodesBefore a a.length + 1 → p < 1 + 2 * nodesBefore a p := by
    intro p hp
    by_cases h : p < a.length
    · have := hwf p h; omega
    · rw [nodesBefore_of_ge a p (by omega)]; omega
  have hspec := levelOrderLoop_spec a H (by rw [← hsize]; exact hcells) hwf'
    (2 * H.size + 1) 0 [] (by omega) (by omega) (by omega)
  have hq : List.map (ptrAt a) (List.range' 0 (1 + 2 * nodesBefore a 0 - 0)) = [some 0] := by
    have h0 : tokAt a 0 ≠ none := by
      intro hc
      by_cases h1 : 1 < a.length
      · have := hwf 1 h1
        have hs := nodesBefore_succ a 0
        rw [hc, nodesBefore_zero] at hs
        simp at hs
        omega
      · have hl : a.length = 1 := by omega
        apply hlast
        rw [List.getLast?_eq_getElem?, hl]
        have := tokAt_of_lt a 0 hpos
        rw [hc] at this
        simpa using this
    obtain ⟨v, hv⟩ := Option.ne_none_iff_exists'.mp h0
    rw [nodesBefore_zero]
    simp [ptrAt, hv, nodesBefore_zero]
  rw [hq] at hspec
  unfold levelOrderTokens
  rw [hspec]
  have e : 2 * nodesBefore a a.length + 1 - 0
      = a.length + (2 * nodesBefore a a.length + 1 - a.length) := by omega
  rw [List.nil_append, e, map_tokAt_range, Option.map_some', stripTrailingNulls_append a _ hlast]

/-- The decoder loop followed by the encoder loop: a level-order array comes back. -/
theorem buildTree_levelOrder {τ ε : Type} (isNull : τ → Bool) (mk : τ → Except ε Int)
    (parts : List τ) (first : τ) (a : List (Option Int)) (hT : TokensOf isNull mk parts a)
    (hfirst : parts[0]? = some first) (hlo : LevelOrder a) :
    ∃ t, buildTree isNull mk first parts = .ok t ∧ t.root = some 0
      ∧ levelOrderTokens t.heap 0 = some a := by
  obtain ⟨hne, hlast, hwf⟩ := hlo
  have hpos : 0 < a.length := List.length_pos.mpr hne
  -- the first token is an integer
  have hspec0 := levelOrderTokens_spec a ⟨hne, hlast, hwf⟩
  rcases hT.2 0 first hfirst with ⟨_, h0⟩ | ⟨_, v, hmk, h0⟩
  · exfalso
    by_cases h1 : 1 < a.length
    · have := hwf 1 h1
      have hs := nodesBefore_succ a 0
      rw [h0, nodesBefore_zero] at hs
      simp at hs
      omega
    · have hl : a.length = 1 := by omega
      apply hlast
      rw [List.getLast?_eq_getElem?, hl]
      have := tokAt_of_lt a 0 hpos
      rw [h0] at this
      simpa using this
  · have hs1 : nodesBefore a (1 + 2 * 0) = 1 := by
      have hs := nodesBefore_succ a 0
      rw [h0, nodesBefore_zero] at hs
      simpa using hs
    obtain ⟨H', hb, hsz, hc⟩ := buildLoop_spec isNull mk parts a hT hwf parts.length 0
      (TreeHeap.empty.alloc v) (by rw [hs1]; rfl) (Nat.zero_le _)
      (by
        intro j hj
        have hj0 : j = 0 := by
          have : (TreeHeap.empty.alloc v).size = 1 := rfl
          omega
        subst hj0
        simp only [Nat.lt_irrefl, if_false]
        have e : (TreeHeap.empty.alloc v).cell 0 = ⟨v, none, none⟩ := by
          simp [TreeHeap.alloc, TreeHeap.empty]
        have := val_nodesBefore a 0 v h0
        rw [nodesBefore_zero] at this
        rw [e, leafCell, this])
      (by rw [hT.1]; omega)
    refine ⟨⟨H', some 0⟩, ?_, rfl, hspec0 H' hsz hc⟩
    unfold buildTree
    have hq : List.range' 0 ((TreeHeap.empty.alloc v).size - 0) = [0] := rfl
    rw [hq] at hb
    simp only [Nat.mul_zero, Nat.add_zero] at hb
    simp only [hmk, hb]

/-! ## The tree decoders and encoders of the drivers -/

theorem splitOn_noSep (sep : Char) (t : Str) (h : ∀ c ∈ t, c ≠ sep) : splitOn sep t = [t] := by
  induction t with
  | nil => rfl
  | cons c r ih =>
    have hc : c ≠ sep := h c (by simp)
    rw [splitOn, if_neg hc, ih (fun x hx => h x (by simp [hx]))]

theorem splitOn_append (sep : Char) (t r : Str) (h : ∀ c ∈ t, c ≠ sep) :
    splitOn sep (t ++ sep :: r) = t :: splitOn sep r := by
  induction t with
  | nil => simp [splitOn]
  | cons c u ih =>
    have hc : c ≠ sep := h c (by simp)
    rw [List.cons_append, splitOn, if_neg hc, ih (fun x hx => h x (by simp [hx]))]

theorem splitOn_joinComma (ts : List Str) (hne : ts ≠ []) (h : ∀ t ∈ ts, ∀ c ∈ t, c ≠ ',') :
    splitOn ',' (joinComma ts) = ts := by
  induction ts with
  | nil => exact absurd rfl hne
  | cons t r ih =>
    cases r with
    | nil => exact splitOn_noSep ',' t (h t (by simp))
    | cons u r' =>
      rw [joinComma, splitOn_append ',' t _ (h t (by simp)),
        ih (by simp) (fun x hx => h x (by simp [hx]))]

theorem dropWhile_of_all_false {α : Type} (p : α → Bool) (s : List α)
    (h : ∀ c ∈ s, p c = false) : s.dropWhile p = s := by
  cases s with
  | nil => rfl
  | cons c r => rw [List.dropWhile_cons, h c (by simp)]; rfl

theorem isTokenChar_cases (c : Char) (h : isTokenChar c = true) :
    isDigit c = true ∨ c = '-' ∨ c = 'n' ∨ c = 'u' ∨ c = 'l' := by
  simp only [isTokenChar, Bool.or_eq_true, beq_iff_eq] at h
  tauto

theorem isTokenChar_props (c : Char) (h : isTokenChar c = true) :
    c ≠ ',' ∧ c ≠ ' ' ∧ c ≠ '"' ∧ 32 < c.toNat ∧ Cpp.isspace c = false := by
  rcases isTokenChar_cases c h with h | rfl | rfl | rfl | rfl
  · rcases char_cases_of_isDigit c h with
      rfl | rfl | rfl | rfl | rfl | rfl | rfl | rfl | rfl | rfl <;> decide
  all_goals decide

theorem tokenText_chars (t : Option Int) : ∀ c ∈ tokenText t, isTokenChar c = true := by
  intro c hc
  cases t with
  | none =>
    simp only [tokenText, String.toList] at hc
    have : c = 'n' ∨ c = 'u' ∨ c = 'l' ∨ c = 'l' := by simpa using hc
    rcases this with rfl | rfl | rfl | rfl <;> decide
  | some v =>
    cases v with
    | ofNat n =>
      have := natToDec_allDigits n c hc
      simp [isTokenChar, this]
    | negSucc m =>
      rcases List.mem_cons.mp hc with rfl | hc
      · decide
      · have := natToDec_allDigits (m + 1) c hc
        simp [isTokenChar, this]

theorem intToDec_ne_nil (v : Int) : intToDec v ≠ [] := by
  cases v with
  | ofNat n => exact natToDec_ne_nil n
  | negSucc m => simp [intToDec]

theorem tokenText_ne_nil (t : Option Int) : tokenText t ≠ [] := by
  cases t with
  | none => decide
  | some v => exact intToDec_ne_nil v

theorem intToDec_ne_null (v : Int) : intToDec v ≠ "null".toList := by
  intro h
  obtain ⟨d, t, hd, hdd⟩ := intToDec_head v []
  rw [List.append_nil, h] at hd
  have : d = 'n' := by
    have := congrArg List.head? hd
    simpa using this.symm
  subst this
  rcases hdd with hdd | hdd
  · revert hdd; decide
  · revert hdd; decide

theorem joinComma_ne_nil (ts : List Str) (hne : ts ≠ []) (h : ∀ t ∈ ts, t ≠ []) :
    joinComma ts ≠ [] := by
  cases ts with
  | nil => exact absurd rfl hne
  | cons t r =>
    cases r with
    | nil => exact h t (by simp)
    | cons u r' =>
      rw [joinComma]
      have := h t (by simp)
      cases t with
      | nil => exact absurd rfl this
      | cons c cs => simp

theorem joinComma_chars (ts : List Str) (p : Char → Prop) (hp : p ',')
    (h : ∀ t ∈ ts, ∀ c ∈ t, p c) : ∀ c ∈ joinComma ts, p c := by
  induction ts with
  | nil => intro c hc; simp [joinComma] at hc
  | cons t r ih =>
    cases r with
    | nil => intro c hc; exact h t (by simp) c (by simpa [joinComma] using hc)
    | cons u r' =>
      intro c hc
      rw [joinComma] at hc
      rcases List.mem_append.mp hc with hc | hc
      · exact h t (by simp) c hc
      · rcases List.mem_cons.mp hc with rfl | hc
        · exact hp
        · exact ih (fun x hx => h x (by simp [hx])) c hc

theorem encTokens_eq (a : List (Option Int)) :
    encTokens a = '[' :: (joinComma (a.map tokenText) ++ [']']) := rfl

theorem endsWithChar_concat (s : Str) (c : Char) : endsWithChar (s ++ [c]) c = true := by
  rw [endsWithChar, List.getLast?_concat]
  simp

theorem Java.trim_of_all_gt (s : Str) (h : ∀ c ∈ s, 32 < c.toNat) : Java.trim s = s := by
  have hp : ∀ c ∈ s, (fun c : Char => decide (c.toNat ≤ 32)) c = false := by
    intro c hc
    have := h c hc
    simp
    omega
  unfold Java.trim
  rw [dropWhile_of_all_false _ s hp,
    dropWhile_of_all_false _ s.reverse (fun c hc => hp c (List.mem_reverse.mp hc)),
    List.reverse_reverse]

theorem Java.trim_tokenText (t : Option Int) : Java.trim (tokenText t) = tokenText t :=
  Java.trim_of_all_gt _ (fun c hc => (isTokenChar_props c (tokenText_chars t c hc)).2.2.2.1)

theorem Java.java_stripBrackets_encTokens (a : List (Option Int)) :
    Java.stripBrackets (encTokens a) = joinComma (a.map tokenText) := by
  have htrim : Java.trim (encTokens a) = encTokens a := by
    apply Java.trim_of_all_gt
    intro c hc
    rw [encTokens_eq] at hc
    rcases List.mem_cons.mp hc with rfl | hc
    · decide
    · rcases List.mem_append.mp hc with hc | hc
      · exact joinComma_chars _ (fun c => 32 < c.toNat) (by decide)
          (by
            intro t ht c hc
            obtain ⟨x, _, rfl⟩ := List.mem_map.mp ht
            exact (isTokenChar_props c (tokenText_chars x c hc)).2.2.2.1) c hc
      · have : c = ']' := by simpa using hc
        subst this; decide
  unfold Java.stripBrackets
  simp only [htrim]
  have h1 : startsWithChar (encTokens a) '[' = true := rfl
  rw [h1, if_pos rfl]
  have h2 : (encTokens a).drop 1 = joinComma (a.map tokenText) ++ [']'] := rfl
  rw [h2, endsWithChar_concat, if_pos rfl, List.dropLast_concat]

theorem Java.dropTrailingEmpty_of_nonempty (ts : List Str) (h : ∀ t ∈ ts, t ≠ []) :
    Java.dropTrailingEmpty ts = ts := by
  unfold Java.dropTrailingEmpty
  rw [dropWhile_of_all_false _ ts.reverse, List.reverse_reverse]
  intro t ht
  have := h t (List.mem_reverse.mp ht)
  cases t with
  | nil => exact absurd rfl this
  | cons c r => rfl

theorem tokenTexts_nonempty (a : List (Option Int)) : ∀ t ∈ a.map tokenText, t ≠ [] := by
  intro t ht
  obtain ⟨x, _, rfl⟩ := List.mem_map.mp ht
  exact tokenText_ne_nil x

theorem tokenTexts_noComma (a : List (Option Int)) :
    ∀ t ∈ a.map tokenText, ∀ c ∈ t, c ≠ ',' := by
  intro t ht c hc
  obtain ⟨x, _, rfl⟩ := List.mem_map.mp ht
  exact (isTokenChar_props c (tokenText_chars x c hc)).1

theorem Java.split_joinComma (a : List (Option Int)) (hne : a ≠ []) :
    Java.split (joinComma (a.map tokenText)) = a.map tokenText := by
  have hne' : a.map tokenText ≠ [] := by simpa using hne
  unfold Java.split
  rw [if_neg (joinComma_ne_nil _ hne' (tokenTexts_nonempty a)),
    splitOn_joinComma _ hne' (tokenTexts_noComma a),
    Java.dropTrailingEmpty_of_nonempty _ (tokenTexts_nonempty a)]

theorem Java.parseInt_digit (d : Char) (t : Str) (hd : isDigit d = true) :
    Java.parseInt (d :: t)
      = (if (d :: t) ≠ [] ∧ (d :: t).all isDigit then
          (if isInt32 ((digitsVal 0 (d :: t) : Nat) : Int) then
            .ok ((digitsVal 0 (d :: t) : Nat) : Int)
           else .error (.numberFormat (d :: t)))
         else .error (.numberFormat (d :: t))) := by
  rcases char_cases_of_isDigit d hd with
    rfl | rfl | rfl | rfl | rfl | rfl | rfl | rfl | rfl | rfl <;> rfl

theorem all_isDigit_natToDec (n : Nat) : (natToDec n).all isDigit = true := by
  rw [List.all_eq_true]
  exact natToDec_allDigits n

/-- `Integer.parseInt` reads the numeral of a 32-bit integer back. -/
theorem Java.parseInt_intToDec (v : Int) (hv : isInt32 v) :
    Java.parseInt (intToDec v) = .ok v := by
  cases v with
  | ofNat n =>
    obtain ⟨d, t, hdt, hd⟩ := natToDec_head_digit n []
    rw [List.append_nil] at hdt
    show Java.parseInt (natToDec n) = _
    have hv' : isInt32 ((n : Nat) : Int) := hv
    rw [hdt, Java.parseInt_digit d t hd, ← hdt, all_isDigit_natToDec, digitsVal_natToDec,
      if_pos ⟨natToDec_ne_nil n, rfl⟩, if_pos hv']
    rfl
  | negSucc m =>
    show Java.parseInt ('-' :: natToDec (m + 1)) = _
    have e : Java.parseInt ('-' :: natToDec (m + 1))
        = (if natToDec (m + 1) ≠ [] ∧ (natToDec (m + 1)).all isDigit then
            (if isInt32 (-((digitsVal 0 (natToDec (m + 1)) : Nat) : Int)) then
              .ok (-((digitsVal 0 (natToDec (m + 1)) : Nat) : Int))
             else .error (.numberFormat ('-' :: natToDec (m + 1))))
           else .error (.numberFormat ('-' :: natToDec (m + 1)))) := rfl
    rw [e, all_isDigit_natToDec, digitsVal_natToDec, if_pos ⟨natToDec_ne_nil _, rfl⟩]
    have hv' : isInt32 (-((m + 1 : Nat) : Int)) := hv
    rw [if_pos hv']
    rfl

theorem Java.java_tokensOf (a : List (Option Int)) (hint : ∀ v, some v ∈ a → isInt32 v) :
    TokensOf (fun part => Java.trim part == "null".toList)
      (fun part => Java.parseInt (Java.trim part)) (a.map tokenText) a := by
  refine ⟨by simp, ?_⟩
  intro q part hq
  rw [List.getElem?_map] at hq
  cases ha : a[q]? with
  | none => rw [ha] at hq; cases hq
  | some t =>
    rw [ha] at hq
    injection hq with hq
    subst hq
    have htok : tokAt a q = t := by simp [tokAt, ha]
    have hmem : t ∈ a := List.getElem?_mem ha
    cases t with
    | none =>
      left
      refine ⟨?_, htok⟩
      show (Java.trim (tokenText none) == "null".toList) = true
      rw [Java.trim_tokenText]
      rfl
    | some v =>
      right
      refine ⟨?_, v, ?_, htok⟩
      · show (Java.trim (tokenText (some v)) == "null".toList) = false
        rw [Java.trim_tokenText]
        show (intToDec v == "null".toList) = false
        exact beq_false_of_ne (intToDec_ne_null v)
      · show Java.parseInt (Java.trim (tokenText (some v))) = _
        rw [Java.trim_tokenText]
        exact Java.parseInt_intToDec v (hint v hmem)

theorem Java.removeSpaces_of_noSpace (s : Str) (h : ∀ c ∈ s, c ≠ ' ') :
    Java.removeSpaces s = s := by
  unfold Java.removeSpaces
  rw [List.filter_eq_self]
  intro c hc
  simp [h c hc]

theorem Java.removeSpaces_joinWith (ts : List Str) (h : ∀ t ∈ ts, ∀ c ∈ t, c ≠ ' ') :
    Java.removeSpaces (joinWith [',', ' '] ts) = joinComma ts := by
  induction ts with
  | nil => rfl
  | cons t r ih =>
    cases r with
    | nil => exact Java.removeSpaces_of_noSpace t (h t (by simp))
    | cons u r' =>
      have ih' := ih (fun x hx => h x (by simp [hx]))
      have ht := Java.removeSpaces_of_noSpace t (h t (by simp))
      unfold Java.removeSpaces at ih' ht ⊢
      have e : List.filter (fun c => c != ' ') [',', ' '] = [','] := by decide
      rw [joinWith, joinComma, List.filter_append, List.filter_append, ht, ih', e]
      simp

theorem Java.removeSpaces_listToString (a : List (Option Int)) :
    Java.removeSpaces (Java.listToString (a.map tokenText)) = encTokens a := by
  have h := Java.removeSpaces_joinWith (a.map tokenText) (by
    intro t ht c hc
    obtain ⟨x, _, rfl⟩ := List.mem_map.mp ht
    exact (isTokenChar_props c (tokenText_chars x c hc)).2.1)
  unfold Java.removeSpaces at h ⊢
  unfold Java.listToString
  have e1 : List.filter (fun c => c != ' ') [']'] = [']'] := by decide
  have e2 : (fun c : Char => c != ' ') '[' = true := by decide
  rw [List.filter_append, List.filter_cons, if_pos e2, h, e1]
  rfl

theorem spanDigits_all (s : Str) (hs : ∀ d ∈ s, isDigit d = true) : spanDigits s = (s, []) := by
  induction s with
  | nil => rfl
  | cons d s ih =>
    have hd : isDigit d = true := hs d (by simp)
    have ih' := ih (fun x hx => hs x (by simp [hx]))
    simp [spanDigits, hd, ih']

theorem Cpp.cpp_stripBrackets_encTokens (a : List (Option Int)) :
    Cpp.stripBrackets (encTokens a) = joinComma (a.map tokenText) := by
  unfold Cpp.stripBrackets
  have h1 : startsWithChar (encTokens a) '[' = true := rfl
  simp only [h1, if_true]
  have h2 : (encTokens a).drop 1 = joinComma (a.map tokenText) ++ [']'] := rfl
  rw [h2, endsWithChar_concat, if_pos rfl, List.dropLast_concat]

theorem Cpp.items_joinComma (a : List (Option Int)) (hne : a ≠ []) :
    Cpp.items (joinComma (a.map tokenText)) = a.map tokenText := by
  have hne' : a.map tokenText ≠ [] := by simpa using hne
  unfold Cpp.items
  rw [splitOn_joinComma _ hne' (tokenTexts_noComma a), List.filter_eq_self]
  intro t ht
  have := tokenTexts_nonempty a t ht
  cases t with
  | nil => exact absurd rfl this
  | cons c r => rfl

theorem Cpp.stripQuotes_tokenText (t : Option Int) : Cpp.stripQuotes (tokenText t) = tokenText t := by
  have hq : ∀ c ∈ tokenText t, c ≠ '"' := fun c hc =>
    (isTokenChar_props c (tokenText_chars t c hc)).2.2.1
  have h1 : startsWithChar (tokenText t) '"' = false := by
    cases hs : tokenText t with
    | nil => rfl
    | cons c r =>
      have := hq c (by rw [hs]; simp)
      simp [startsWithChar, this]
  have h2 : endsWithChar (tokenText t) '"' = false := by
    unfold endsWithChar
    cases hl : (tokenText t).getLast? with
    | none => rfl
    | some c =>
      have := hq c (List.mem_of_getLast?_eq_some hl)
      simp [this]
  unfold Cpp.stripQuotes
  simp only [h1, Bool.false_eq_true, if_false, h2]

theorem Cpp.parseStringArray_encTokens (a : List (Option Int)) (hne : a ≠ []) :
    Cpp.parseStringArray (encTokens a) = a.map tokenText := by
  have hne' : a.map tokenText ≠ [] := by simpa using hne
  unfold Cpp.parseStringArray
  simp only [Cpp.cpp_stripBrackets_encTokens]
  rw [if_neg (joinComma_ne_nil _ hne' (tokenTexts_nonempty a)), Cpp.items_joinComma a hne,
    List.map_map]
  apply List.map_congr_left
  intro t _
  exact Cpp.stripQuotes_tokenText t

theorem Cpp.stoi_digit (d : Char) (t : Str) (hd : isDigit d = true) :
    Cpp.stoi (d :: t)
      = (if (spanDigits (d :: t)).1 = [] then .error .invalidArgument
         else if isInt32 ((digitsVal 0 (spanDigits (d :: t)).1 : Nat) : Int) then
           .ok ((digitsVal 0 (spanDigits (d :: t)).1 : Nat) : Int)
         else .error .outOfRange) := by
  rcases char_cases_of_isDigit d hd with
    rfl | rfl | rfl | rfl | rfl | rfl | rfl | rfl | rfl | rfl <;> rfl

/-- `stoi` reads the numeral of a 32-bit integer back. -/
theorem Cpp.stoi_intToDec (v : Int) (hv : isInt32 v) : Cpp.stoi (intToDec v) = .ok v := by
  cases v with
  | ofNat n =>
    obtain ⟨d, t, hdt, hd⟩ := natToDec_head_digit n []
    rw [List.append_nil] at hdt
    show Cpp.stoi (natToDec n) = _
    have hv' : isInt32 ((n : Nat) : Int) := hv
    rw [hdt, Cpp.stoi_digit d t hd, ← hdt, spanDigits_all _ (natToDec_allDigits n),
      if_neg (natToDec_ne_nil n), digitsVal_natToDec, if_pos hv']
    rfl
  | negSucc m =>
    show Cpp.stoi ('-' :: natToDec (m + 1)) = _
    have e : Cpp.stoi ('-' :: natToDec (m + 1))
        = (if (spanDigits (natToDec (m + 1))).1 = [] then .error .invalidArgument
           else if isInt32 (-((digitsVal 0 (spanDigits (natToDec (m + 1))).1 : Nat) : Int)) then
             .ok (-((digitsVal 0 (spanDigits (natToDec (m + 1))).1 : Nat) : Int))
           else .error .outOfRange) := rfl
    have hv' : isInt32 (-((m + 1 : Nat) : Int)) := hv
    rw [e, spanDigits_all _ (natToDec_allDigits _), if_neg (natToDec_ne_nil _),
      digitsVal_natToDec, if_pos hv']
    rfl

theorem Cpp.cpp_tokensOf (a : List (Option Int)) (hint : ∀ v, some v ∈ a → isInt32 v) :
    TokensOf (fun v => v == "null".toList) Cpp.stoi (a.map tokenText) a := by
  refine ⟨by simp, ?_⟩
  intro q part hq
  rw [List.getElem?_map] at hq
  cases ha : a[q]? with
  | none => rw [ha] at hq; cases hq
  | some t =>
    rw [ha] at hq
    injection hq with hq
    subst hq
    have htok : tokAt a q = t := by simp [tokAt, ha]
    have hmem : t ∈ a := List.getElem?_mem ha
    cases t with
    | none => exact Or.inl ⟨rfl, htok⟩
    | some v =>
      right
      refine ⟨?_, v, Cpp.stoi_intToDec v (hint v hmem), htok⟩
      show (intToDec v == "null".toList) = false
      exact beq_false_of_ne (intToDec_ne_null v)

theorem Cpp.printLoop_eq (items : List Str) :
    ∀ (i : Nat) (out : Str),
      Cpp.printLoop items i out
        = out ++ (if 0 < i ∧ items ≠ [] then [','] else []) ++ joinComma items := by
  induction items with
  | nil => intro i out; simp [Cpp.printLoop, joinComma]
  | cons item rest ih =>
    intro i out
    rw [Cpp.printLoop, ih]
    cases rest with
    | nil =>
      by_cases h : 0 < i <;> simp [h, joinComma]
    | cons u r =>
      by_cases h : 0 < i <;> simp [h, joinComma]

theorem Cpp.printLoop_bracket (items : List Str) :
    Cpp.printLoop items 0 ['['] ++ [']'] = '[' :: joinComma items ++ [']'] := by
  rw [Cpp.printLoop_eq]
  simp

theorem encTokens_ne (a : List (Option Int)) (hne : a ≠ []) :
    encTokens a ≠ "null".toList ∧ encTokens a ≠ "[]".toList := by
  have hj := joinComma_ne_nil (a.map tokenText) (by simpa using hne) (tokenTexts_nonempty a)
  rw [encTokens_eq]
  constructor
  · intro h
    injection h with h1 _
    revert h1; decide
  · intro h
    injection h with _ h2
    cases hq : joinComma (a.map tokenText) with
    | nil => exact hj hq
    | cons c r =>
      rw [hq] at h2
      injection h2 with h3 h4
      cases r <;> simp at h4

theorem Java.java_decodeEncodeTree_levelOrder (a : List (Option Int)) (hlo : LevelOrder a)
    (hint : ∀ v, some v ∈ a → isInt32 v) :
    Java.decodeEncodeTree (encTokens a) = some (encTokens a) := by
  have hne : a ≠ [] := hlo.1
  obtain ⟨first, rest, hparts⟩ : ∃ first rest, a.map tokenText = first :: rest := by
    cases a with
    | nil => exact absurd rfl hne
    | cons x r => exact ⟨_, _, rfl⟩
  obtain ⟨t, hb, hroot, htok⟩ := buildTree_levelOrder _ _ (a.map tokenText) first a
    (Java.java_tokensOf a hint) (by rw [hparts]; simp) hlo
  have hpt : Java.parseTreeNode (some (encTokens a)) = .ok t := by
    unfold Java.parseTreeNode
    have h1 := encTokens_ne a hne
    simp only [h1.1, h1.2, or_self, if_false, Java.java_stripBrackets_encTokens]
    rw [if_neg (joinComma_ne_nil _ (by simpa using hne) (tokenTexts_nonempty a)),
      Java.split_joinComma a hne, hparts]
    rw [hparts] at hb
    exact hb
  unfold Java.decodeEncodeTree
  rw [hpt]
  have hnull : (Java.Result.treeNode t).isNull = false := by
    simp [Java.Result.isNull, hroot]
  have htype : endsWithBrackets "TreeNode".toList = false := by decide
  simp only [Java.formatResult, hnull, Bool.false_eq_true, if_false, htype,
    Java.treeNodeToString, hroot, htok, Option.map_some', Java.removeSpaces_listToString]

/-- C8, as stated, fails: the array `[1,null,null,2]` does not end in a null, but its
last token is the child of no node; the Java decoder stops when its queue is empty and
the driver prints `[1]`. -/
theorem tree_roundTrip_counterexample :
    ¬ (∀ a : List (Option Int), a.getLast? ≠ some none →
        Java.decodeEncodeTree (encTokens a) = some (encTokens a)) := by
  intro h
  have h1 := h [some 1, none, none, some 2] (by decide)
  have h2 : Java.decodeEncodeTree (encTokens [some 1, none, none, some 2])
      = some "[1]".toList := by decide
  rw [h2] at h1
  revert h1
  decide

/-- C8 (amended): for the Java driver and every array of tokens, each a 32-bit integer
or null, that is the level-order form of a binary tree (not empty, not ending in a
null, every token the child slot of a node before it), decoding the text of the array
with `parseTreeNode` and encoding the tree with `treeNodeToString` gives the text
back. -/
theorem tree_roundTrip (a : List (Option Int)) (hlo : LevelOrder a)
    (hint : ∀ v, some v ∈ a → isInt32 v) :
    Java.decodeEncodeTree (encTokens a) = some (encTokens a) :=
  Java.java_decodeEncodeTree_levelOrder a hlo hint

/-- Witness for C8 (amended): the array `[3,9,20,null,null,15,7]`. -/
theorem tree_roundTrip_witness :
    encTokens [some 3, some 9, some 20, none, none, some 15, some 7]
      = "[3,9,20,null,null,15,7]".toList
    ∧ Java.decodeEncodeTree "[3,9,20,null,null,15,7]".toList
      = some "[3,9,20,null,null,15,7]".toList := by
  have h := tree_roundTrip [some 3, some 9, some 20, none, none, some 15, some 7]
    (by decide)
    (by
      intro v hv
      simp only [List.mem_cons, Option.some.injEq, List.mem_singleton, reduceCtorEq,
        false_or, List.not_mem_nil, or_false] at hv
      rcases hv with rfl | rfl | rfl | rfl | rfl <;> decide)
  have e : encTokens [some 3, some 9, some 20, none, none, some 15, some 7]
      = "[3,9,20,null,null,15,7]".toList := by decide
  rw [e] at h
  exact ⟨e, h⟩

/-! ## The linked-list decoders and encoders, and the array encoders -/

theorem map_tokenText_some (xs : List Int) : (xs.map some).map tokenText = xs.map intToDec := by
  rw [List.map_map]
  rfl

theorem encTokens_some (xs : List Int) : encTokens (xs.map some) = encIntArray xs := by
  unfold encTokens encIntArray
  rw [map_tokenText_some]

theorem Java.parseParts_ints (xs : List Int) (hint : ∀ v ∈ xs, isInt32 v) :
    Java.parseParts (xs.map intToDec) = .ok xs := by
  induction xs with
  | nil => rfl
  | cons x r ih =>
    have ht : Java.trim (intToDec x) = intToDec x := Java.trim_tokenText (some x)
    rw [List.map_cons, Java.parseParts, ht, Java.parseInt_intToDec x (hint x (by simp)),
      ih (fun v hv => hint v (by simp [hv]))]

theorem Java.java_parseIntArray_enc (xs : List Int) (hne : xs ≠ []) (hint : ∀ v ∈ xs, isInt32 v) :
    Java.parseIntArray (some (encIntArray xs)) = .ok (some xs) := by
  have hne' : xs.map some ≠ [] := by simpa using hne
  have h1 := encTokens_ne (xs.map some) hne'
  have hs := Java.java_stripBrackets_encTokens (xs.map some)
  have hsp := Java.split_joinComma (xs.map some) hne'
  have hj := joinComma_ne_nil ((xs.map some).map tokenText) (by simpa using hne)
    (tokenTexts_nonempty _)
  rw [encTokens_some] at h1 hs
  rw [map_tokenText_some] at hs hsp hj
  unfold Java.parseIntArray
  simp only [h1.1, if_false, hs]
  rw [if_neg hj, hsp, Java.parseParts_ints xs hint]

theorem Java.listNodeLoop_eq (xs : List Int) :
    ∀ (first : Bool) (sb : Str),
      Java.listNodeLoop (ListRef.ofList xs) first sb
        = sb ++ (if first = false ∧ xs ≠ [] then [','] else []) ++ joinComma (xs.map intToDec) := by
  induction xs with
  | nil => intro first sb; simp [ListRef.ofList, Java.listNodeLoop, joinComma]
  | cons x r ih =>
    intro first sb
    rw [ListRef.ofList, Java.listNodeLoop, ih]
    cases r with
    | nil => cases first <;> simp [joinComma]
    | cons y r' => cases first <;> simp [joinComma]

theorem Java.listNodeToString_ofList (xs : List Int) :
    Java.listNodeToString (ListRef.ofList xs) = encIntArray xs := by
  unfold Java.listNodeToString
  rw [Java.listNodeLoop_eq]
  simp [encIntArray]

theorem Java.java_decodeEncodeList_ints (xs : List Int) (hne : xs ≠ []) (hint : ∀ v ∈ xs, isInt32 v) :
    Java.decodeEncodeList (encIntArray xs) = some (encIntArray xs) := by
  unfold Java.decodeEncodeList Java.parseListNode
  rw [Java.java_parseIntArray_enc xs hne hint]
  cases xs with
  | nil => exact absurd rfl hne
  | cons x r =>
    have htype : endsWithBrackets "ListNode".toList = false := by decide
    simp only [Java.formatResult, Java.Result.isNull, ListRef.ofList, Bool.false_eq_true,
      if_false, htype]
    rw [← Java.listNodeToString_ofList (x :: r)]
    rfl

theorem Cpp.filter_isspace_enc (xs : List Int) :
    (encIntArray xs).filter (fun c => !Cpp.isspace c) = encIntArray xs := by
  rw [List.filter_eq_self]
  intro c hc
  rw [← encTokens_some, encTokens_eq] at hc
  have hcs : Cpp.isspace c = false := by
    rcases List.mem_cons.mp hc with rfl | hc
    · decide
    · rcases List.mem_append.mp hc with hc | hc
      · exact joinComma_chars _ (fun c => Cpp.isspace c = false) (by decide)
          (by
            intro t ht c hc
            obtain ⟨x, _, rfl⟩ := List.mem_map.mp ht
            exact (isTokenChar_props c (tokenText_chars x c hc)).2.2.2.2) c hc
      · have : c = ']' := by simpa using hc
        subst this; decide
  simp [hcs]

theorem Cpp.parseItems_ints (xs : List Int) (hint : ∀ v ∈ xs, isInt32 v) :
    Cpp.parseItems (xs.map intToDec) = .ok xs := by
  induction xs with
  | nil => rfl
  | cons x r ih =>
    have ht : Cpp.stripQuotes (intToDec x) = intToDec x := Cpp.stripQuotes_tokenText (some x)
    rw [List.map_cons, Cpp.parseItems, ht, Cpp.stoi_intToDec x (hint x (by simp)),
      ih (fun v hv => hint v (by simp [hv]))]

theorem Cpp.cpp_parseIntArray_enc (xs : List Int) (hint : ∀ v ∈ xs, isInt32 v) :
    Cpp.parseIntArray (encIntArray xs) = .ok xs := by
  unfold Cpp.parseIntArray
  simp only [Cpp.filter_isspace_enc]
  have hs := Cpp.cpp_stripBrackets_encTokens (xs.map some)
  rw [encTokens_some, map_tokenText_some] at hs
  rw [hs]
  cases xs with
  | nil => rfl
  | cons x r =>
    have hne' : (x :: r).map some ≠ [] := by simp
    have hj := joinComma_ne_nil (((x :: r).map some).map tokenText) (by simp)
      (tokenTexts_nonempty _)
    have hi := Cpp.items_joinComma ((x :: r).map some) hne'
    rw [map_tokenText_some] at hj hi
    rw [if_neg hj, hi, Cpp.parseItems_ints _ hint]

theorem Cpp.listLoop_eq (xs : List Int) :
    ∀ (first : Bool) (out : Str),
      Cpp.listLoop (ListRef.ofList xs) first out
        = out ++ (if first = false ∧ xs ≠ [] then [','] else []) ++ joinComma (xs.map intToDec) := by
  induction xs with
  | nil => intro first out; simp [ListRef.ofList, Cpp.listLoop, joinComma]
  | cons x r ih =>
    intro first out
    rw [ListRef.ofList, Cpp.listLoop, ih]
    cases r with
    | nil => cases first <;> simp [joinComma]
    | cons y r' => cases first <;> simp [joinComma]

theorem Cpp.cpp_decodeEncodeList_ints (xs : List Int) (hint : ∀ v ∈ xs, isInt32 v) :
    Cpp.decodeEncodeList (encIntArray xs) = some (encIntArray xs) := by
  unfold Cpp.decodeEncodeList Cpp.parseListNode
  rw [Cpp.cpp_parseIntArray_enc xs hint]
  simp only [Cpp.formatListNode, Cpp.listLoop_eq]
  simp [encIntArray]

/-- C9, as stated, fails: the one-element list `[2147483648]` is a list of integers,
but `Integer.parseInt` of the Java decoder throws on a numeral outside `int`, so no
text comes back. -/
theorem list_roundTrip_counterexample :
    ¬ (∀ xs : List Int, Java.decodeEncodeList (encIntArray xs) = some (encIntArray xs)) := by
  intro h
  have h1 := h [2147483648]
  revert h1
  decide

/-- C9 (amended): for every list `xs` of 32-bit integers, the C++ driver (the empty
list included) and, when `xs` is not empty, the Java driver decode the text
`[x1,...,xn]` into a linked list and encode that list as the same text. -/
theorem list_roundTrip (xs : List Int) (hint : ∀ v ∈ xs, isInt32 v) :
    Cpp.decodeEncodeList (encIntArray xs) = some (encIntArray xs)
    ∧ (xs ≠ [] → Java.decodeEncodeList (encIntArray xs) = some (encIntArray xs)) :=
  ⟨Cpp.cpp_decodeEncodeList_ints xs hint, fun hne => Java.java_decodeEncodeList_ints xs hne hint⟩

/-- Witness for C9 (amended): the list `[1,2,3]`. -/
theorem list_roundTrip_witness :
    encIntArray [1, 2, 3] = "[1,2,3]".toList
    ∧ Cpp.decodeEncodeList "[1,2,3]".toList = some "[1,2,3]".toList
    ∧ Java.decodeEncodeList "[1,2,3]".toList = some "[1,2,3]".toList := by
  have h := list_roundTrip [1, 2, 3] (by decide)
  have e : encIntArray [1, 2, 3] = "[1,2,3]".toList := by decide
  rw [e] at h
  exact ⟨e, h.1, h.2 (by decide)⟩

/-- C10 (failing input): the C++ formatter and Java's `formatResult` print an integer
array as the bracketed, comma-joined numerals without whitespace, for every list; the
Python `serialize_result` prints the list `[0, 1]` with a space after the comma. -/
theorem intArray_encoding_python_space :
    (∀ xs : List Int, Cpp.formatIntVector xs = encIntArray xs)
    ∧ (∀ xs : List Int,
        Java.formatResult (.intArray xs) "integer[]".toList = some (encIntArray xs))
    ∧ Py.serialize_result (.value (.list [.int 0, .int 1])) "integer[]".toList
        = some "[0, 1]".toList
    ∧ encIntArray [0, 1] = "[0,1]".toList := by
  refine ⟨?_, ?_, by decide, by decide⟩
  · intro xs
    unfold Cpp.formatIntVector
    rw [Cpp.printLoop_bracket]
    rfl
  · intro xs
    have htype : endsWithBrackets "integer[]".toList = true := by decide
    have h := Java.removeSpaces_listToString (xs.map some)
    rw [map_tokenText_some, encTokens_some] at h
    simp only [Java.formatResult, Java.Result.isNull, Bool.false_eq_true, if_false, htype,
      if_true, h]

/-- C11 (failing input): for a null linked list the C++ formatter prints `[]`, while
Java's `formatResult` and Python's `serialize_result` return `null` for the return
type `ListNode`. -/
theorem null_list_encoding :
    Cpp.formatListNode .null = "[]".toList
    ∧ Java.formatResult (.listNode .null) "ListNode".toList = some "null".toList
    ∧ Java.formatResult .null "ListNode".toList = some "null".toList
    ∧ Py.serialize_result (.value .none) "ListNode".toList = some "null".toList := by
  decide

/-! ## Type mappers and driver generation -/

/-- C12: driver generation is deterministic.  The result of `getLanguageDriver` is the
same for every `FileHandler` object it is called on, so it depends on nothing but the
runtime id, the signature and the user source; two calls either both throw the same
error or both return the same program text. -/
theorem getLanguageDriver_deterministic :
    (∀ (self self' : FileHandler) (R : Str) (S : Signature) (c : Str),
        getLanguageDriver self R S c = getLanguageDriver self' R S c)
    ∧ (∀ (self self' : FileHandler) (R : Str) (S : Signature) (c : Str),
        (∃ e, getLanguageDriver self R S c = .error e ∧ getLanguageDriver self' R S c = .error e)
        ∨ (∃ text, getLanguageDriver self R S c = .ok text
            ∧ getLanguageDriver self' R S c = .ok text)) := by
  refine ⟨fun _ _ _ _ _ => rfl, ?_⟩
  intro self self' R S c
  have h : getLanguageDriver self R S c = getLanguageDriver self' R S c := rfl
  cases hr : getLanguageDriver self R S c with
  | error e => exact Or.inl ⟨e, rfl, by rw [← h, hr]⟩
  | ok text => exact Or.inr ⟨text, rfl, by rw [← h, hr]⟩

theorem cppParamParsing_ok_iff (name : Str) (m : Mapped) :
    (∃ t, cppParamParsing name m = .ok t) ↔ cppSupported m := by
  unfold cppParamParsing cppSupported
  simp only [List.map_cons, List.map_nil, List.mem_cons, List.not_mem_nil, or_false]
  constructor
  · rintro ⟨t, h⟩
    by_contra hc
    simp only [not_or] at hc
    obtain ⟨h1, h2, h3, h4, h5, h6, h7⟩ := hc
    rw [if_neg h1, if_neg h2, if_neg h3, if_neg h4, if_neg h5, if_neg h6, if_neg h7] at h
    cases h
  · intro h
    split_ifs <;> first | exact ⟨_, rfl⟩ | (exfalso; tauto)

theorem generateOutputFormatting_ok_iff (returnType : Str) :
    (∃ t, generateOutputFormatting returnType = .ok t)
      ↔ cppSupported (mapLeetCodeType returnType) := by
  unfold generateOutputFormatting cppSupported
  simp only [List.map_cons, List.map_nil, List.mem_cons, List.not_mem_nil, or_false]
  constructor
  · rintro ⟨t, h⟩
    by_contra hc
    simp only [not_or] at hc
    obtain ⟨h1, h2, h3, h4, h5, h6, h7⟩ := hc
    rw [if_neg h1, if_neg h3, if_neg h2, if_neg h4, if_neg h5, if_neg h6, if_neg h7] at h
    cases h
  · intro h
    split_ifs <;> first | exact ⟨_, rfl⟩ | (exfalso; tauto)

theorem mapExcept_ok_iff {α β : Type} (f : α → Except Str β) (xs : List α) :
    (∃ ys, mapExcept f xs = .ok ys) ↔ ∀ x ∈ xs, ∃ y, f x = .ok y := by
  induction xs with
  | nil => simp [mapExcept]
  | cons x r ih =>
    constructor
    · rintro ⟨ys, h⟩
      rw [mapExcept] at h
      cases hx : f x with
      | error e => rw [hx] at h; cases h
      | ok y =>
        rw [hx] at h
        cases hr : mapExcept f r with
        | error e => rw [hr] at h; cases h
        | ok zs =>
          intro z hz
          rcases List.mem_cons.mp hz with rfl | hz
          · exact ⟨y, hx⟩
          · exact ih.mp ⟨zs, hr⟩ z hz
    · intro h
      obtain ⟨y, hy⟩ := h x (by simp)
      obtain ⟨zs, hz⟩ := ih.mpr (fun z hz => h z (by simp [hz]))
      exact ⟨y :: zs, by rw [mapExcept, hy, hz]⟩

theorem getCppDriver_ok_iff (userCode : Str) (metadata : Signature) :
    (∃ text, getCppDriver userCode metadata = .ok text)
      ↔ (∀ p ∈ metadata.params, cppSupported (mapLeetCodeType p.type))
        ∧ cppSupported (mapLeetCodeType metadata.returnType) := by
  have hp : (∃ t, generateParamParsing metadata = .ok t)
      ↔ ∀ p ∈ metadata.params, cppSupported (mapLeetCodeType p.type) := by
    unfold generateParamParsing
    rw [← (show (∀ p ∈ metadata.params, ∃ y,
        cppParamParsing p.name (mapLeetCodeType p.type) = .ok y)
        ↔ ∀ p ∈ metadata.params, cppSupported (mapLeetCodeType p.type) from
      forall₂_congr (fun p _ => cppParamParsing_ok_iff p.name _)), ← mapExcept_ok_iff]
    cases mapExcept (fun p => cppParamParsing p.name (mapLeetCodeType p.type)) metadata.params with
    | error e => simp
    | ok ts => simp
  rw [← hp, ← generateOutputFormatting_ok_iff]
  unfold getCppDriver
  cases generateParamParsing metadata with
  | error e => simp
  | ok pp =>
    cases generateOutputFormatting metadata.returnType with
    | error e => simp
    | ok o => simp

set_option maxRecDepth 100000 in
theorem templates_declare_nodes :
    includes Cpp.template0 "struct ListNode".toList = true
    ∧ includes Cpp.template0 "struct TreeNode".toList = true
    ∧ includes Py.template0 "class ListNode:".toList = true
    ∧ includes Py.template0 "class TreeNode:".toList = true
    ∧ includes Java.template0 "class ListNode".toList = true
    ∧ includes Java.template0 "class TreeNode".toList = true := by
  refine ⟨?_, ?_, ?_, ?_, ?_, ?_⟩ <;> decide

set_option maxRecDepth 100000 in
theorem templates_call_solution :
    "auto result = solution.".toList.reverse.isPrefixOf Cpp.template2.reverse = true
    ∧ Cpp.template3 = "(".toList ∧ ");".toList.isPrefixOf Cpp.template4 = true
    ∧ "result = solution.".toList.reverse.isPrefixOf Py.template2.reverse = true
    ∧ "(*params)".toList.isPrefixOf Py.template3 = true
    ∧ "var result = solution.".toList.reverse.isPrefixOf Java.template2.reverse = true
    ∧ Java.template3 = "(".toList ∧ ");".toList.isPrefixOf Java.template4 = true := by
  refine ⟨?_, ?_, ?_, ?_, ?_, ?_, ?_, ?_⟩ <;> decide

/-- C13: for each runtime the generated program is `P ++ c ++ D`: the user source `c`
verbatim, between a fixed prefix `P` (piece 0 of the template, which holds the ListNode
and TreeNode declarations and depends neither on the signature nor on `c`) and a suffix
`D` that holds the parameter decoding, the call `solution.<name>(...)` with the
parameters in signature order (`*params` in Python, filled in signature order), and
the result encoding. -/
theorem driver_program_shape :
    (∀ (self : FileHandler) (S : Signature) (c text : Str),
        getLanguageDriver self "cpp".toList S c = .ok text →
        ∃ paramParsing outputFormatting,
          generateParamParsing S = .ok paramParsing
          ∧ generateOutputFormatting S.returnType = .ok outputFormatting
          ∧ text = Cpp.template0 ++ c ++ (Cpp.template1 ++ paramParsing ++ Cpp.template2
              ++ S.name ++ Cpp.template3 ++ joinWith ", ".toList (S.params.map (fun p => p.name))
              ++ Cpp.template4 ++ outputFormatting ++ Cpp.template5
              ++ generateCleanup S.returnType ++ Cpp.template6))
    ∧ (∀ (self : FileHandler) (S : Signature) (c : Str),
        getLanguageDriver self "python".toList S c
          = .ok (Py.template0 ++ c ++ (Py.template1 ++ generatePythonParamParsing S
              ++ Py.template2 ++ S.name ++ Py.template3 ++ S.returnType ++ Py.template4)))
    ∧ (∀ (self : FileHandler) (S : Signature) (c : Str),
        getLanguageDriver self "java".toList S c
          = .ok (Java.template0 ++ c ++ (Java.template1 ++ generateJavaParamParsing S
              ++ Java.template2 ++ S.name ++ Java.template3
              ++ joinWith ", ".toList (S.params.map (fun p => p.name)) ++ Java.template4
              ++ S.returnType ++ Java.template5)))
    ∧ (includes Cpp.template0 "struct ListNode".toList = true
        ∧ includes Cpp.template0 "struct TreeNode".toList = true
        ∧ includes Py.template0 "class ListNode:".toList = true
        ∧ includes Py.template0 "class TreeNode:".toList = true
        ∧ includes Java.template0 "class ListNode".toList = true
        ∧ includes Java.template0 "class TreeNode".toList = true)
    ∧ ("auto result = solution.".toList.reverse.isPrefixOf Cpp.template2.reverse = true
        ∧ Cpp.template3 = "(".toList ∧ ");".toList.isPrefixOf Cpp.template4 = true
        ∧ "result = solution.".toList.reverse.isPrefixOf Py.template2.reverse = true
        ∧ "(*params)".toList.isPrefixOf Py.template3 = true
        ∧ "var result = solution.".toList.reverse.isPrefixOf Java.template2.reverse = true
        ∧ Java.template3 = "(".toList ∧ ");".toList.isPrefixOf Java.template4 = true) := by
  refine ⟨?_, ?_, ?_, templates_declare_nodes, templates_call_solution⟩
  · intro self S c text h
    have h' : getCppDriver c S = .ok text := h
    unfold getCppDriver at h'
    cases hp : generateParamParsing S with
    | error e => rw [hp] at h'; cases h'
    | ok pp =>
      cases ho : generateOutputFormatting S.returnType with
      | error e => rw [hp, ho] at h'; cases h'
      | ok o =>
        rw [hp, ho] at h'
        injection h' with h'
        refine ⟨pp, o, rfl, rfl, ?_⟩
        rw [← h']
        simp [generateFunctionParams, List.append_assoc]
  · intro self S c
    show Except.ok (getPythonDriver c S) = _
    simp [getPythonDriver, List.append_assoc]
  · intro self S c
    show Except.ok (getJavaDriver c S) = _
    simp [getJavaDriver, List.append_assoc]

/-- Witness for C13: the C++ driver of `twoSum` around the user source `code`. -/
theorem driver_program_shape_witness :
    ∃ text paramParsing outputFormatting,
      getLanguageDriver sampleHandler "cpp".toList twoSumSignature "code".toList = .ok text
      ∧ text = Cpp.template0 ++ "code".toList ++ (Cpp.template1 ++ paramParsing ++ Cpp.template2
          ++ twoSumSignature.name ++ Cpp.template3
          ++ joinWith ", ".toList (twoSumSignature.params.map (fun p => p.name))
          ++ Cpp.template4 ++ outputFormatting ++ Cpp.template5
          ++ generateCleanup twoSumSignature.returnType ++ Cpp.template6) := by
  obtain ⟨text, ht⟩ : ∃ text,
      getLanguageDriver sampleHandler "cpp".toList twoSumSignature "code".toList = .ok text :=
    (getCppDriver_ok_iff "code".toList twoSumSignature).mpr (by decide)
  obtain ⟨pp, o, _, _, h⟩ :=
    driver_program_shape.1 sampleHandler twoSumSignature "code".toList text ht
  exact ⟨text, pp, o, ht, h⟩

theorem lookup_mem {α : Type} [BEq α] [LawfulBEq α] (table : List (α × Str)) (k : α) (v : Str)
    (h : table.lookup k = some v) : (k, v) ∈ table := by
  induction table with
  | nil => cases h
  | cons p r ih =>
    obtain ⟨a, b⟩ := p
    by_cases hk : k = a
    · subst hk
      simp [List.lookup] at h
      simp [h]
    · have hb : (k == a) = false := by simpa using hk
      rw [List.lookup, hb] at h
      exact List.mem_cons_of_mem _ (ih h)

theorem mapJavaType_of_key (t : Str) (v : Str)
    (h : javaTypeMap.lookup (toLowerCase (cleanType t)) = some v) :
    mapJavaType t = .text v := by
  have hown : ∀ p ∈ javaTypeMap, javaTypeMap.lookup (toLowerCase p.1) = some p.2 := by decide
  have hinh : ∀ m ∈ objectPrototypeMembers, javaTypeMap.lookup (toLowerCase m) = none := by
    decide
  unfold mapJavaType tableLookup
  cases hr : javaTypeMap.lookup (cleanType t) with
  | some w =>
    have := hown _ (lookup_mem _ _ _ hr)
    rw [h] at this
    injection this with this
    simp [this]
  | none =>
    by_cases hm : cleanType t ∈ objectPrototypeMembers
    · have := hinh _ hm
      rw [h] at this
      cases this
    · simp [hm, h]

/-- C14: type-token lookup is case-insensitive.  For each of the three mappers, two
tokens with the same cleaned (`?` removed, trimmed), lower-cased form that is a key of
the mapper's table get the same mapped type: the table entry of that key.  So
`ListNode`, `listnode` and `LISTNODE` resolve alike. -/
theorem typeMappers_case_insensitive (t1 t2 : Str)
    (hsame : toLowerCase (cleanType t1) = toLowerCase (cleanType t2)) :
    (∀ v, cppTypeMap.lookup (toLowerCase (cleanType t1)) = some v →
        mapLeetCodeType t1 = .text v ∧ mapLeetCodeType t2 = .text v)
    ∧ (∀ v, pythonTypeMap.lookup (toLowerCase (cleanType t1)) = some v →
        mapPythonType t1 = .text v ∧ mapPythonType t2 = .text v)
    ∧ (∀ v, javaTypeMap.lookup (toLowerCase (cleanType t1)) = some v →
        mapJavaType t1 = .text v ∧ mapJavaType t2 = .text v) := by
  refine ⟨?_, ?_, ?_⟩
  · intro v h
    have h2 := h
    rw [hsame] at h2
    exact ⟨by simp [mapLeetCodeType, tableLookup, h], by simp [mapLeetCodeType, tableLookup, h2]⟩
  · intro v h
    have h2 := h
    rw [hsame] at h2
    exact ⟨by simp [mapPythonType, tableLookup, h], by simp [mapPythonType, tableLookup, h2]⟩
  · intro v h
    have h2 := h
    rw [hsame] at h2
    exact ⟨mapJavaType_of_key t1 v h, mapJavaType_of_key t2 v h2⟩

/-- Witness for C14: the tokens `ListNode` and `LISTNODE`. -/
theorem typeMappers_case_insensitive_witness :
    toLowerCase (cleanType "ListNode".toList) = toLowerCase (cleanType "LISTNODE".toList)
    ∧ mapLeetCodeType "ListNode".toList = .text "ListNode*".toList
    ∧ mapLeetCodeType "LISTNODE".toList = .text "ListNode*".toList
    ∧ mapLeetCodeType "listnode".toList = .text "ListNode*".toList
    ∧ mapJavaType "ListNode".toList = .text "ListNode".toList
    ∧ mapJavaType "LISTNODE".toList = .text "ListNode".toList := by
  have h := typeMappers_case_insensitive "ListNode".toList "LISTNODE".toList (by decide)
  have h1 := h.1 "ListNode*".toList (by decide)
  have h3 := h.2.2 "ListNode".toList (by decide)
  exact ⟨by decide, h1.1, h1.2, by decide, h3.1, h3.2⟩

/-- C15, as stated, fails: for the Java and the Python runtime a signature whose
parameter and return type `matrix` no mapper resolves still gets a program text. -/
theorem unresolved_type_counterexample :
    tableLookup javaTypeMap (cleanType "matrix".toList) = none
    ∧ tableLookup javaTypeMap (toLowerCase (cleanType "matrix".toList)) = none
    ∧ tableLookup pythonTypeMap (toLowerCase (cleanType "matrix".toList)) = none
    ∧ (∃ text, getLanguageDriver sampleHandler "java".toList unknownTypeSignature [] = .ok text)
    ∧ (∃ text, getLanguageDriver sampleHandler "python".toList unknownTypeSignature [] = .ok text) :=
  ⟨by decide, by decide, by decide, ⟨_, rfl⟩, ⟨_, rfl⟩⟩

/-- C15 (amended): for the C++ runtime, if `mapLeetCodeType` gives a parameter type or
the return type a mapped type outside the supported seven (as it does for an
unresolved token, which is returned as it is, unless the token itself is one of the
seven names), `getLanguageDriver` throws and returns no program text; for the Java and
the Python runtime generation returns a program text whatever the types are. -/
theorem unresolved_type_generation (self : FileHandler) (S : Signature) (c : Str)
    (h : (∃ p ∈ S.params, ¬ cppSupported (mapLeetCodeType p.type))
      ∨ ¬ cppSupported (mapLeetCodeType S.returnType)) :
    (∃ e, getLanguageDriver self "cpp".toList S c = .error e)
    ∧ (∃ text, getLanguageDriver self "java".toList S c = .ok text)
    ∧ (∃ text, getLanguageDriver self "python".toList S c = .ok text) := by
  refine ⟨?_, ⟨_, rfl⟩, ⟨_, rfl⟩⟩
  have hno : ¬ ∃ text, getCppDriver c S = .ok text := by
    rw [getCppDriver_ok_iff]
    rintro ⟨h1, h2⟩
    rcases h with ⟨p, hp, hn⟩ | hn
    · exact hn (h1 p hp)
    · exact hn h2
  show ∃ e, getCppDriver c S = .error e
  cases hr : getCppDriver c S with
  | error e => exact ⟨e, rfl⟩
  | ok text => exact absurd ⟨text, hr⟩ hno

/-- Witness for C15 (amended): the signature with the unknown type `matrix`. -/
theorem unresolved_type_generation_witness :
    ¬ cppSupported (mapLeetCodeType unknownTypeSignature.returnType)
    ∧ (∃ e, getLanguageDriver sampleHandler "cpp".toList unknownTypeSignature [] = .error e) :=
  ⟨by decide,
   (unresolved_type_generation sampleHandler unknownTypeSignature [] (Or.inr (by decide))).1⟩

/-- C16: the fallback of `mapLeetCodeType`.  When the cleaned, lower-cased token is not
a key of the table and is not the name of a member that every object inherits from
`Object.prototype`, the mapper returns the raw token itself, unchanged.  When it is
such a name, `typeMap[key]` finds the inherited member and the mapper returns that
member instead of the token: for the token `constructor`, which is no key of the
table, it returns the function `Object`. -/
theorem mapLeetCodeType_fallback :
    (∀ type : Str, cppTypeMap.lookup (toLowerCase (cleanType type)) = none →
        toLowerCase (cleanType type) ∉ objectPrototypeMembers →
        mapLeetCodeType type = .text type)
    ∧ (∀ type : Str, cppTypeMap.lookup (toLowerCase (cleanType type)) = none →
        toLowerCase (cleanType type) ∈ objectPrototypeMembers →
        mapLeetCodeType type = .inherited (toLowerCase (cleanType type)))
    ∧ (cppTypeMap.lookup (toLowerCase (cleanType "constructor".toList)) = none
        ∧ mapLeetCodeType "constructor".toList = .inherited "constructor".toList
        ∧ mapLeetCodeType "constructor".toList ≠ .text "constructor".toList
        ∧ (mapLeetCodeType "constructor".toList).toText
            = "function Object() \x7b [native code] \x7d".toList) := by
  refine ⟨?_, ?_, by decide, by rfl, ?_, by rfl⟩
  · intro type h hm
    simp [mapLeetCodeType, tableLookup, h, hm]
  · intro type h hm
    simp [mapLeetCodeType, tableLookup, h, hm]
  · have e : mapLeetCodeType "constructor".toList = .inherited "constructor".toList := by rfl
    rw [e]
    intro hc
    cases hc

/-- Witness for C16: the token ` Matrix? ` comes back with its blanks and its mark. -/
theorem mapLeetCodeType_fallback_witness :
    cppTypeMap.lookup (toLowerCase (cleanType " Matrix? ".toList)) = none
    ∧ toLowerCase (cleanType " Matrix? ".toList) ∉ objectPrototypeMembers
    ∧ mapLeetCodeType " Matrix? ".toList = .text " Matrix? ".toList :=
  ⟨by decide, by decide, mapLeetCodeType_fallback.1 " Matrix? ".toList (by decide) (by decide)⟩

/-- C29: generation for the C++ runtime succeeds exactly when `mapLeetCodeType` maps
every parameter type and the return type to one of `vector<int>`, `int`,
`vector<string>`, `string`, `bool`, `ListNode*`, `TreeNode*`; the token `double`, a key
of the table, makes `generateParamParsing` throw `Unsupported parameter type: double`
and `generateOutputFormatting` throw `Unsupported return type: double`. -/
theorem cpp_generation_succeeds_iff :
    (∀ (self : FileHandler) (S : Signature) (c : Str),
        (∃ text, getLanguageDriver self "cpp".toList S c = .ok text)
          ↔ ((∀ p ∈ S.params, cppSupported (mapLeetCodeType p.type))
              ∧ cppSupported (mapLeetCodeType S.returnType)))
    ∧ cppTypeMap.lookup "double".toList = some "double".toList
    ∧ generateParamParsing ⟨"f".toList, [⟨"x".toList, "double".toList⟩], "integer".toList⟩
        = .error "Unsupported parameter type: double".toList
    ∧ generateOutputFormatting "double".toList
        = .error "Unsupported return type: double".toList := by
  refine ⟨fun self S c => getCppDriver_ok_iff c S, by decide, rfl, rfl⟩

/-! ## The fallback of the comparator and its reflexivity -/

theorem skipWs_bracket (r : Str) : skipWs ('[' :: r) = '[' :: r := by
  rfl

theorem parseValue_bracket_eq (f : Nat) (r : Str) :
    parseValue (f + 1) ('[' :: r)
      = match skipWs r with
        | ']' :: r2 => some (.arr [], r2)
        | _ => (parseElements f r).map (fun t => (.arr t.1, t.2)) := rfl

theorem parseValue_bracket (f : Nat) (r : Str) (v : JSValue) (rest : Str)
    (h : parseValue f ('[' :: r) = some (v, rest)) : ∃ items, v = .arr items := by
  cases f with
  | zero => simp [parseValue] at h
  | succ f =>
    rw [parseValue_bracket_eq] at h
    split at h
    · injection h with h
      injection h with h1 h2
      exact ⟨[], h1.symm⟩
    · cases hp : parseElements f r with
      | none => rw [hp] at h; cases h
      | some t =>
        rw [hp] at h
        injection h with h
        injection h with h1 h2
        exact ⟨t.1, h1.symm⟩

theorem jsonParse_bracket (s : Str) (v : JSValue) (hs : startsWithChar s '[' = true)
    (h : jsonParse s = .ok v) : ∃ items, v = .arr items := by
  cases s with
  | nil => simp [startsWithChar] at hs
  | cons c r =>
    have hc : c = '[' := by simpa [startsWithChar] using hs
    subst hc
    unfold jsonParse at h
    cases hp : parseValue (2 * ('[' :: r).length + 2) ('[' :: r) with
    | none => rw [hp] at h; cases h
    | some t =>
      obtain ⟨w, rest⟩ := t
      rw [hp] at h
      simp only at h
      split at h
      · injection h with h
        subst h
        exact parseValue_bracket _ _ _ _ hp
      · cases h

/-- A bracketed text gives `parseArray` an array, from `JSON.parse` or from the split. -/
theorem parseArray_bracketed (str : Str)
    (h1 : startsWithChar (stripWs str) '[' = true) (h2 : endsWithChar (stripWs str) ']' = true) :
    ∃ items, parseArray jsonParse str = .arr items := by
  unfold parseArray
  simp only [h1, h2, Bool.not_true, Bool.or_self, Bool.false_eq_true, if_false]
  cases hp : jsonParse (stripWs str) with
  | ok v => exact jsonParse_bracket _ v h1 hp
  | error e => exact ⟨_, rfl⟩

/-- A text that is not bracketed gives `parseArray` its `null`. -/
theorem parseArray_unbracketed {ε : Type} (parse : Str → Except ε JSValue) (str : Str)
    (h : startsWithChar (stripWs str) '[' = false ∨ endsWithChar (stripWs str) ']' = false) :
    parseArray parse str = .null := by
  unfold parseArray
  rcases h with h | h <;> simp [h]

theorem compareOutputs_array (actual expected returnType : Str)
    (ht : isArrayType returnType = true) :
    compareOutputs actual expected returnType
      = if !truthy (parseArray jsonParse actual) || !truthy (parseArray jsonParse expected)
        then false
        else jsonStringify (parseArray jsonParse actual)
              == jsonStringify (parseArray jsonParse expected) := by
  unfold compareOutputs compareOutputsWith compareOutputsBody
  simp only [ht, if_true, parseArray_stripWs]
  by_cases hc : (!truthy (parseArray jsonParse actual) || !truthy (parseArray jsonParse expected)) = true
  · rw [if_pos hc, if_pos hc]
  · rw [if_neg hc, if_neg hc]

theorem splitOn_ne_nil (sep : Char) (s : Str) : splitOn sep s ≠ [] := by
  cases s with
  | nil => simp [splitOn]
  | cons c cs =>
    unfold splitOn
    split
    · simp
    · split <;> simp

theorem splitOn_length (sep : Char) (s : Str) :
    (splitOn sep s).length = s.count sep + 1 := by
  induction s with
  | nil => simp [splitOn]
  | cons c cs ih =>
    unfold splitOn
    by_cases hc : c = sep
    · subst hc
      simp [ih]
    · have hne : (c == sep) = false := by simpa using hc
      simp only [hc, if_false]
      rw [List.count_cons, hne]
      cases hsp : splitOn sep cs with
      | nil => exact absurd hsp (splitOn_ne_nil sep cs)
      | cons h t =>
        rw [hsp] at ih
        simpa using ih

/-- C17, as stated, fails: on `[[1,2],x]`, which `JSON.parse` rejects, the fallback of
`parseArray` gives the three strings `[1`, `2]` and `x`, not the two elements `[1,2]`
and `x`: the comma inside the nested bracket pair separates elements too. -/
theorem parseArray_fallback_counterexample :
    (∃ e, jsonParse "[[1,2],x]".toList = .error e)
    ∧ parseArray jsonParse "[[1,2],x]".toList
        = .arr [.str (toUtf16 "[1".toList), .str (toUtf16 "2]".toList), .str (toUtf16 "x".toList)]
    ∧ parseArray jsonParse "[[1,2],x]".toList
        ≠ .arr [.str (toUtf16 "[1,2]".toList), .str (toUtf16 "x".toList)] := by
  have h : parseArray jsonParse "[[1,2],x]".toList
      = .arr [.str (toUtf16 "[1".toList), .str (toUtf16 "2]".toList), .str (toUtf16 "x".toList)] :=
    by rfl
  refine ⟨⟨_, rfl⟩, h, ?_⟩
  rw [h]
  intro hc
  injection hc with hc
  have := congrArg List.length hc
  simp at this

/-- C17 (amended): when `JSON.parse` rejects a bracketed side, `parseArray` splits the
bracket-stripped text on every comma, nested ones included, so that it has one element
more than the text has commas, and turns each piece that is not `NaN` as a number into
that number and leaves the others as strings. -/
theorem parseArray_fallback (str : Str)
    (h1 : startsWithChar (stripWs str) '[' = true) (h2 : endsWithChar (stripWs str) ']' = true)
    (hp : ∀ v, jsonParse (stripWs str) ≠ .ok v) :
    ∃ items, parseArray jsonParse str = .arr items
      ∧ items = (splitOn ',' (slice1 (stripWs str))).map
          (fun item => if !isNaN item then JSValue.num (toNumber item)
            else JSValue.str (toUtf16 item))
      ∧ items.length = (slice1 (stripWs str)).count ',' + 1 := by
  refine ⟨_, ?_, rfl, ?_⟩
  · unfold parseArray
    simp only [h1, h2, Bool.not_true, Bool.or_self, Bool.false_eq_true, if_false]
    cases hj : jsonParse (stripWs str) with
    | ok v => exact absurd hj (hp v)
    | error e => rfl
  · rw [List.length_map, splitOn_length]

/-- Witness for C17 (amended): the side `[7, x,2]`, which `JSON.parse` rejects. -/
theorem parseArray_fallback_witness :
    ∃ items, parseArray jsonParse "[7, x,2]".toList = .arr items
      ∧ items = (splitOn ',' (slice1 (stripWs "[7, x,2]".toList))).map
          (fun item => if !isNaN item then JSValue.num (toNumber item)
            else JSValue.str (toUtf16 item))
      ∧ items.length = (slice1 (stripWs "[7, x,2]".toList)).count ',' + 1 :=
  parseArray_fallback "[7, x,2]".toList (by decide) (by decide)
    (by
      intro v hv
      have e : jsonParse (stripWs "[7, x,2]".toList) = .error "SyntaxError" := by rfl
      rw [e] at hv
      cases hv)

/-- C18, as stated, fails: `JSON.parse` rejects `[a]`, yet the pair `[a]`, `[a]` is
judged equal, and so is the pair `[a]`, `["a"]`, of which only one side parses. -/
theorem compareOutputs_unparsable_counterexample :
    (∃ e, jsonParse "[a]".toList = .error e)
    ∧ compareOutputs "[a]".toList "[a]".toList "string[]".toList = true
    ∧ (∃ v, jsonParse "[\"a\"]".toList = .ok v)
    ∧ compareOutputs "[a]".toList "[\"a\"]".toList "string[]".toList = true :=
  ⟨⟨_, rfl⟩, by rfl, ⟨_, rfl⟩, by rfl⟩

/-- C18 (amended): for an array-like return type, `compareOutputs` returns `false`
whenever the whitespace-stripped text of a side does not start with `[` and end with
`]`; when both sides are bracketed the verdict is the equality of the `JSON.stringify`
texts of the two arrays that `parseArray` returns, a side that `JSON.parse` rejects
being replaced by its comma split. -/
theorem compareOutputs_unparsable (actual expected returnType : Str)
    (ht : isArrayType returnType = true) :
    ((startsWithChar (stripWs actual) '[' = false ∨ endsWithChar (stripWs actual) ']' = false
        ∨ startsWithChar (stripWs expected) '[' = false
        ∨ endsWithChar (stripWs expected) ']' = false) →
      compareOutputs actual expected returnType = false)
    ∧ (startsWithChar (stripWs actual) '[' = true → endsWithChar (stripWs actual) ']' = true →
        startsWithChar (stripWs expected) '[' = true → endsWithChar (stripWs expected) ']' = true →
        compareOutputs actual expected returnType
          = (jsonStringify (parseArray jsonParse actual)
              == jsonStringify (parseArray jsonParse expected))) := by
  rw [compareOutputs_array actual expected returnType ht]
  constructor
  · intro h
    rcases h with h | h | h | h
    · simp [parseArray_unbracketed jsonParse actual (Or.inl h), truthy]
    · simp [parseArray_unbracketed jsonParse actual (Or.inr h), truthy]
    · simp [parseArray_unbracketed jsonParse expected (Or.inl h), truthy]
    · simp [parseArray_unbracketed jsonParse expected (Or.inr h), truthy]
  · intro a1 a2 e1 e2
    obtain ⟨x, hx⟩ := parseArray_bracketed actual a1 a2
    obtain ⟨y, hy⟩ := parseArray_bracketed expected e1 e2
    simp [hx, hy, truthy]

/-- Witness for C18 (amended): the unbracketed side `1,2` against `[1,2]`. -/
theorem compareOutputs_unparsable_witness :
    isArrayType "integer[]".toList = true
    ∧ compareOutputs "1,2".toList "[1,2]".toList "integer[]".toList = false :=
  ⟨by decide,
   (compareOutputs_unparsable "1,2".toList "[1,2]".toList "integer[]".toList (by decide)).1
     (Or.inl (by decide))⟩

/-- C26: `compareOutputs(x, x, t)` is true exactly when `t` is not array-like or the
whitespace-stripped `x` starts with `[` and ends with `]`; so for the array-like type
`integer[]` the output `5` is judged unequal to itself. -/
theorem compareOutputs_reflexive_iff :
    (∀ x t : Str, compareOutputs x x t = true
        ↔ (isArrayType t = false
            ∨ (startsWithChar (stripWs x) '[' = true ∧ endsWithChar (stripWs x) ']' = true)))
    ∧ compareOutputs "5".toList "5".toList "integer[]".toList = false := by
  refine ⟨?_, by rfl⟩
  intro x t
  cases ht : isArrayType t with
  | false =>
    simp only [true_or, iff_true]
    unfold compareOutputs compareOutputsWith compareOutputsBody
    simp [ht]
  | true =>
    rw [compareOutputs_array x x t ht]
    cases h1 : startsWithChar (stripWs x) '['
    · simp [parseArray_unbracketed jsonParse x (Or.inl h1), truthy]
    · cases h2 : endsWithChar (stripWs x) ']'
      · simp [parseArray_unbracketed jsonParse x (Or.inr h2), truthy]
      · obtain ⟨items, hi⟩ := parseArray_bracketed x h1 h2
        simp [hi, truthy]

/-! ## Sanitized problem titles -/

theorem isSlugChar_hyphen : isSlugChar '-' = false := by decide

theorem replaceRuns_chars (l : Str) :
    ∀ b : Bool, ∀ c ∈ replaceRuns b l, isSlugChar c = true ∨ c = '-' := by
  induction l with
  | nil => intro b c hc; simp [replaceRuns] at hc
  | cons a l ih =>
    intro b c hc
    unfold replaceRuns at hc
    by_cases ha : isSlugChar a = true
    · simp only [ha, if_true, List.mem_cons] at hc
      rcases hc with rfl | hc
      · exact Or.inl ha
      · exact ih false c hc
    · simp only [ha, Bool.false_eq_true, if_false] at hc
      cases b with
      | true =>
        simp only [if_true] at hc
        exact ih true c hc
      | false =>
        simp only [Bool.false_eq_true, if_false, List.mem_cons] at hc
        rcases hc with rfl | hc
        · exact Or.inr rfl
        · exact ih true c hc

theorem replaceRuns_chain (l : Str) :
    ∀ b : Bool, List.Chain' (fun a b => ¬ (a = '-' ∧ b = '-')) (replaceRuns b l)
      ∧ (b = true → (replaceRuns b l).head? ≠ some '-') := by
  induction l with
  | nil => intro b; simp [replaceRuns]
  | cons a l ih =>
    intro b
    unfold replaceRuns
    by_cases ha : isSlugChar a = true
    · simp only [ha, if_true]
      have hne : a ≠ '-' := by
        rintro rfl
        rw [isSlugChar_hyphen] at ha
        cases ha
      refine ⟨List.Chain'.cons' (ih false).1 ?_, ?_⟩
      · intro y _ h
        exact hne h.1
      · intro _ h
        simp only [List.head?_cons, Option.some.injEq] at h
        exact hne h
    · simp only [ha, Bool.false_eq_true, if_false]
      cases b with
      | true =>
        simp only [if_true]
        exact ⟨(ih true).1, fun _ => (ih true).2 rfl⟩
      | false =>
        simp only [Bool.false_eq_true, if_false]
        refine ⟨List.Chain'.cons' (ih true).1 ?_, fun h => by simp at h⟩
        intro y hy h
        have := (ih true).2 rfl
        rw [Option.mem_def] at hy
        rw [hy, h.2] at this
        exact this rfl

theorem stripEdgeHyphens_slug (s : Str)
    (hc : ∀ c ∈ s, isSlugChar c = true ∨ c = '-')
    (hch : List.Chain' (fun a b => ¬ (a = '-' ∧ b = '-')) s) :
    isSlug (stripEdgeHyphens s) := by
  -- the text after the leading hyphen is gone
  obtain ⟨s1, hs1, h1c, h1ch, h1h⟩ : ∃ s1 : Str,
      stripEdgeHyphens s = (if s1.getLast? = some '-' then s1.dropLast else s1)
      ∧ (∀ c ∈ s1, isSlugChar c = true ∨ c = '-')
      ∧ List.Chain' (fun a b => ¬ (a = '-' ∧ b = '-')) s1
      ∧ s1.head? ≠ some '-' := by
    cases s with
    | nil => exact ⟨[], rfl, by simp, List.chain'_nil, by simp⟩
    | cons a r =>
      by_cases ha : a = '-'
      · subst ha
        refine ⟨r, by simp [stripEdgeHyphens], fun c h => hc c (List.mem_cons_of_mem _ h),
          hch.tail, ?_⟩
        intro h
        cases r with
        | nil => simp at h
        | cons b r' =>
          simp only [List.head?_cons, Option.some.injEq] at h
          have := List.chain'_cons.mp hch
          exact this.1 ⟨rfl, h⟩
      · refine ⟨a :: r, by simp [stripEdgeHyphens, ha], hc, hch, ?_⟩
        simp [ha]
  rw [hs1]
  by_cases hl : s1.getLast? = some '-'
  · rw [if_pos hl]
    have hsplit : s1.dropLast ++ ['-'] = s1 := List.dropLast_append_getLast? _ hl
    refine ⟨fun c h => h1c c (List.mem_of_mem_dropLast h), ?_, ?_,
      h1ch.prefix (List.dropLast_prefix _)⟩
    · intro h
      apply h1h
      rw [← hsplit]
      cases hd : s1.dropLast with
      | nil => rw [hd] at h; simp at h
      | cons x t => rw [hd] at h; simpa using h
    · intro h
      rw [← hsplit, List.chain'_append] at h1ch
      exact h1ch.2.2 '-' h '-' (by simp) ⟨rfl, rfl⟩
  · rw [if_neg hl]
    exact ⟨h1c, h1h, hl, h1ch⟩

theorem sanitize_slug (l : Str) : isSlug (stripEdgeHyphens (replaceRuns false l)) :=
  stripEdgeHyphens_slug _ (replaceRuns_chars l false) (replaceRuns_chain l false).1

theorem lowerTitle_slugChar (c : Char) (h : isSlugChar c = true ∨ c = '-') :
    (if c.toNat = 0x212A then ['k'] else if c.toNat = 0x130 then ['i', Char.ofNat 0x307]
      else [c.toLower]) = [c] := by
  have hr : c.toNat ≤ 122 ∧ ¬ (65 ≤ c.toNat ∧ c.toNat ≤ 90) := by
    rcases h with h | rfl
    · simp only [isSlugChar, Bool.or_eq_true, Bool.and_eq_true, decide_eq_true_eq] at h
      omega
    · decide
  have h1 : c.toNat ≠ 0x212A := by omega
  have h2 : c.toNat ≠ 0x130 := by omega
  rw [if_neg h1, if_neg h2]
  have h3 : c.toLower = c := by
    unfold Char.toLower
    rw [if_neg]
    intro hh
    exact hr.2 ⟨hh.1, hh.2⟩
  rw [h3]

theorem lowerTitle_slug (s : Str) (h : ∀ c ∈ s, isSlugChar c = true ∨ c = '-') :
    lowerTitle s = s := by
  induction s with
  | nil => rfl
  | cons a r ih =>
    have hr := ih (fun c hc => h c (List.mem_cons_of_mem _ hc))
    unfold lowerTitle at hr ⊢
    rw [List.flatMap_cons, hr, lowerTitle_slugChar a (h a (List.mem_cons_self _ _))]
    rfl

theorem replaceRuns_slug (s : Str) :
    ∀ b : Bool, (∀ c ∈ s, isSlugChar c = true ∨ c = '-') →
      List.Chain' (fun a b => ¬ (a = '-' ∧ b = '-')) s →
      (b = true → s.head? ≠ some '-') → replaceRuns b s = s := by
  induction s with
  | nil => intro b _ _ _; rfl
  | cons a r ih =>
    intro b hc hch hb
    have hcr : ∀ c ∈ r, isSlugChar c = true ∨ c = '-' :=
      fun c h => hc c (List.mem_cons_of_mem _ h)
    unfold replaceRuns
    by_cases ha : isSlugChar a = true
    · simp only [ha, if_true]
      rw [ih false hcr hch.tail (fun h => by cases h)]
    · have hy : a = '-' := (hc a (List.mem_cons_self _ _)).resolve_left ha
      have hbf : b = false := by
        cases b with
        | false => rfl
        | true => exact absurd (by simp [hy]) (hb rfl)
      subst hbf
      simp only [ha, Bool.false_eq_true, if_false]
      rw [ih true hcr hch.tail ?_, hy]
      intro _ h
      cases r with
      | nil => simp at h
      | cons x t =>
        simp only [List.head?_cons, Option.some.injEq] at h
        exact (List.chain'_cons.mp hch).1 ⟨hy, h⟩

theorem stripEdgeHyphens_id (s : Str) (hh : s.head? ≠ some '-') (hl : s.getLast? ≠ some '-') :
    stripEdgeHyphens s = s := by
  cases s with
  | nil => rfl
  | cons a r =>
    have ha : a ≠ '-' := by simpa using hh
    simp only [stripEdgeHyphens, ha, if_false]
    rw [if_neg hl]

/-- Sanitizing a text of the sanitized shape changes nothing. -/
theorem sanitize_of_slug (s : Str) (h : isSlug s) :
    stripEdgeHyphens (replaceRuns false (lowerTitle s)) = s := by
  obtain ⟨hc, hh, hl, hch⟩ := h
  rw [lowerTitle_slug s hc, replaceRuns_slug s false hc hch (fun h => by cases h),
    stripEdgeHyphens_id s hh hl]

theorem splitOn_head_takeWhile (sep : Char) (s : Str) :
    (match splitOn sep s with
      | [] => []
      | b :: _ => b) = s.takeWhile (fun c => c != sep) := by
  induction s with
  | nil => rfl
  | cons a r ih =>
    unfold splitOn
    by_cases ha : a = sep
    · simp [ha]
    · have hne : (a != sep) = true := by simpa using ha
      simp only [ha, if_false, List.takeWhile_cons, hne, if_true]
      cases hs : splitOn sep r with
      | nil => exact absurd hs (splitOn_ne_nil sep r)
      | cons h t =>
        rw [hs] at ih
        simp only at ih ⊢
        rw [ih]

theorem takeWhile_append_sep (sep : Char) (s rest : Str) (h : sep ∉ s) :
    (s ++ sep :: rest).takeWhile (fun c => c != sep) = s := by
  induction s with
  | nil => simp
  | cons a r ih =>
    have ha : a ≠ sep := fun e => h (by simp [e])
    have hne : (a != sep) = true := by simpa using ha
    simp only [List.cons_append, List.takeWhile_cons, hne, if_true]
    rw [ih (fun hm => h (List.mem_cons_of_mem _ hm))]

theorem isSlug_no_dot (s : Str) (h : isSlug s) : '.' ∉ s := by
  intro hm
  rcases h.1 '.' hm with h1 | h1
  · exact absurd h1 (by decide)
  · exact absurd h1 (by decide)

/-- C27: for every title, `sanitizeProblemTitle(title)` consists only of characters of
`[a-z0-9]` and hyphens, starts with no hyphen, ends with no hyphen and has no two
adjacent hyphens: it is empty or a sequence of non-empty runs of `[a-z0-9]` separated
by single hyphens. -/
theorem sanitizeProblemTitle_slug (title : Str) :
    (∀ c ∈ sanitizeProblemTitle title, isSlugChar c = true ∨ c = '-')
    ∧ (sanitizeProblemTitle title).head? ≠ some '-'
    ∧ (sanitizeProblemTitle title).getLast? ≠ some '-'
    ∧ List.Chain' (fun a b => ¬ (a = '-' ∧ b = '-')) (sanitizeProblemTitle title) :=
  sanitize_slug (lowerTitle title)

/-- C24: `getProblemTitleFromFileName` sanitizes as `sanitizeProblemTitle` does.  For
every title `T`, the file names `sanitizeProblemTitle(T)` followed by `.cpp`, `.py` or
`.java` give back `sanitizeProblemTitle(T)`, and for every file name `f` the result is
`sanitizeProblemTitle` of the part of `f` before its first `.`. -/
theorem getProblemTitleFromFileName_sanitized :
    (∀ T : Str,
        getProblemTitleFromFileName (sanitizeProblemTitle T ++ ".cpp".toList)
          = sanitizeProblemTitle T
        ∧ getProblemTitleFromFileName (sanitizeProblemTitle T ++ ".py".toList)
          = sanitizeProblemTitle T
        ∧ getProblemTitleFromFileName (sanitizeProblemTitle T ++ ".java".toList)
          = sanitizeProblemTitle T)
    ∧ (∀ f : Str,
        getProblemTitleFromFileName f
          = sanitizeProblemTitle (f.takeWhile (fun c => c != '.'))) := by
  have hgen : ∀ f : Str, getProblemTitleFromFileName f
      = sanitizeProblemTitle (f.takeWhile (fun c => c != '.')) := by
    intro f
    unfold getProblemTitleFromFileName sanitizeProblemTitle
    simp only [splitOn_head_takeWhile]
  have hext : ∀ (T rest : Str),
      getProblemTitleFromFileName (sanitizeProblemTitle T ++ '.' :: rest)
        = sanitizeProblemTitle T := by
    intro T rest
    have hs : isSlug (sanitizeProblemTitle T) := sanitize_slug (lowerTitle T)
    rw [hgen, takeWhile_append_sep '.' _ rest (isSlug_no_dot _ hs)]
    exact sanitize_of_slug _ hs
  exact ⟨fun T => ⟨hext T _, hext T _, hext T _⟩, hgen⟩

/-! ## The test-case store -/

theorem natToDec_injective (a b : Nat) (h : natToDec a = natToDec b) : a = b := by
  rw [← digitsVal_natToDec a, ← digitsVal_natToDec b, h]

theorem inputFileName_injective (i j : Nat) (h : inputFileName i = inputFileName j) : i = j := by
  unfold inputFileName at h
  rw [List.append_assoc, List.append_assoc] at h
  have h1 := List.append_cancel_left h
  have h2 := List.append_cancel_right h1
  have := natToDec_injective _ _ h2
  omega

theorem inputFileName_prefix (i : Nat) : "input_".toList.isPrefixOf (inputFileName i) = true := by
  rw [List.isPrefixOf_iff_prefix]
  unfold inputFileName
  rw [List.append_assoc]
  exact List.prefix_append _ _

theorem writeFile_fresh (d : Dir) (name content : Str) (h : ∀ p ∈ d, p.1 ≠ name) :
    d.writeFile name content = d ++ [(name, content)] := by
  unfold Dir.writeFile
  have : d.any (fun p => decide (p.1 = name)) = false := by
    rw [List.any_eq_false]
    intro p hp
    simpa using h p hp
  rw [this]
  rfl

/-- The entries that the loop of `saveTestCases` writes from index `i` on. -/
theorem writeTestCases_fresh (cs : List TestCase) :
    ∀ (i : Nat) (d : Dir), (∀ j, i ≤ j → ∀ p ∈ d, p.1 ≠ inputFileName j) →
      writeTestCases i cs d
        = d ++ (cs.enumFrom i).map (fun q => (inputFileName q.1, testCaseFileText q.2)) := by
  induction cs with
  | nil => intro i d _; simp [writeTestCases]
  | cons c cs ih =>
    intro i d h
    rw [writeTestCases, writeFile_fresh d _ _ (h i (Nat.le_refl i)), ih (i + 1)]
    · simp [List.enumFrom]
    · intro j hj p hp
      rw [List.mem_append] at hp
      rcases hp with hp | hp
      · exact h j (by omega) p hp
      · simp only [List.mem_singleton] at hp
        rw [hp]
        intro e
        have := inputFileName_injective _ _ e
        omega

theorem readTestCases_eq (d : Dir) (names : List Str) :
    readTestCases d names = names.map (fun n =>
      match d.lookup n with
      | some content => content
      | none => fromUtf16 (jsonStringify (.obj []))) := by
  induction names with
  | nil => rfl
  | cons n ns ih =>
    rw [readTestCases, ih, List.map_cons]
    congr 1
    unfold Dir.readFile
    cases d.lookup n <;> rfl

theorem lookup_append_fresh (d e : Dir) (n : Str) (h : ∀ p ∈ d, p.1 ≠ n) :
    (d ++ e).lookup n = e.lookup n := by
  induction d with
  | nil => rfl
  | cons p d ih =>
    obtain ⟨a, b⟩ := p
    have hne : n ≠ a := fun e => h (a, b) (List.mem_cons_self _ _) e.symm
    have hb : (n == a) = false := by simpa using hne
    rw [List.cons_append, List.lookup, hb]
    exact ih (fun p hp => h p (List.mem_cons_of_mem _ hp))

theorem lookup_entries (cs : List TestCase) :
    ∀ (i : Nat) (k : Nat) (c : TestCase), cs[k]? = some c →
      ((cs.enumFrom i).map (fun q => (inputFileName q.1, testCaseFileText q.2))).lookup
          (inputFileName (i + k)) = some (testCaseFileText c) := by
  induction cs with
  | nil => intro i k c h; simp at h
  | cons a cs ih =>
    intro i k c h
    cases k with
    | zero =>
      simp only [List.getElem?_cons_zero, Option.some.injEq] at h
      subst h
      simp [List.enumFrom, List.lookup]
    | succ k =>
      simp only [List.getElem?_cons_succ] at h
      have hne : inputFileName (i + (k + 1)) ≠ inputFileName i := by
        intro e
        have := inputFileName_injective _ _ e
        omega
      have hb : (inputFileName (i + (k + 1)) == inputFileName i) = false := by simpa using hne
      simp only [List.enumFrom, List.map_cons, List.lookup, hb]
      have := ih (i + 1) k c h
      rw [show i + 1 + k = i + (k + 1) by omega] at this
      exact this

theorem enumFrom_names (cs : List TestCase) (i : Nat) :
    ((cs.enumFrom i).map (fun q => (inputFileName q.1, testCaseFileText q.2))).map (fun p => p.1)
      = (List.range' i cs.length).map inputFileName := by
  induction cs generalizing i with
  | nil => rfl
  | cons a cs ih =>
    simp only [List.enumFrom, List.map_cons, List.length_cons, List.range'_succ]
    rw [ih]

theorem jsSort_inputNames (n : Nat) (h : n ≤ 9) :
    jsSort ((List.range' 0 n).map inputFileName) = (List.range' 0 n).map inputFileName := by
  interval_cases n <;> rfl

theorem filter_inputNames (names : List Str) (n : Nat)
    (h : ∀ x ∈ names, "input_".toList.isPrefixOf x = false) :
    (names ++ (List.range' 0 n).map inputFileName).filter (fun f => "input_".toList.isPrefixOf f)
      = (List.range' 0 n).map inputFileName := by
  rw [List.filter_append]
  have h1 : names.filter (fun f => "input_".toList.isPrefixOf f) = [] := by
    rw [List.filter_eq_nil_iff]
    intro x hx
    rw [h x hx]
    simp
  have h2 : ((List.range' 0 n).map inputFileName).filter (fun f => "input_".toList.isPrefixOf f)
      = (List.range' 0 n).map inputFileName := by
    rw [List.filter_eq_self]
    intro x hx
    obtain ⟨i, _, rfl⟩ := List.mem_map.mp hx
    exact inputFileName_prefix i
  rw [h1, h2]
  rfl

/-- Saving up to nine test cases into a directory without input files and loading them
gives the texts of the saved cases in their order. -/
theorem load_after_save (store : Store) (cs : List TestCase) (m : ProblemMetadata)
    (ht : m.title ≠ [])
    (hfresh : ∀ p ∈ (store (sanitizeProblemTitle m.title)).testCases,
      "input_".toList.isPrefixOf p.1 = false)
    (hn : cs.length ≤ 9) :
    ∃ saved, saveTestCases store { testCases := cs, metadata := some m } = .ok saved
      ∧ loadTestData saved m.title
          = .ok { testCases := cs.map testCaseFileText, metadata := m } := by
  refine ⟨Function.update store (sanitizeProblemTitle m.title)
    { metadata := some m,
      testCases := writeTestCases 0 cs (store (sanitizeProblemTitle m.title)).testCases },
    by simp [saveTestCases, ht], ?_⟩
  unfold loadTestData
  rw [if_neg ht]
  simp only [Function.update_same]
  have hd : ∀ j, 0 ≤ j → ∀ p ∈ (store (sanitizeProblemTitle m.title)).testCases,
      p.1 ≠ inputFileName j := by
    intro j _ p hp e
    have := hfresh p hp
    rw [e, inputFileName_prefix] at this
    cases this
  rw [writeTestCases_fresh cs 0 _ hd]
  unfold Dir.readdir
  rw [List.map_append, enumFrom_names,
    filter_inputNames _ _ (by
      intro x hx
      obtain ⟨p, hp, rfl⟩ := List.mem_map.mp hx
      exact hfresh p hp),
    jsSort_inputNames _ hn, readTestCases_eq]
  congr 2
  apply List.ext_getElem?
  intro k
  rcases Nat.lt_or_ge k cs.length with hk | hk
  · rw [List.getElem?_map, List.getElem?_map, List.getElem?_map, List.getElem?_range' _ _ hk,
      List.getElem?_eq_getElem hk]
    simp only [Option.map_some', Nat.one_mul]
    rw [lookup_append_fresh _ _ _ (hd (0 + k) (Nat.zero_le _)),
      lookup_entries cs 0 k cs[k] (List.getElem?_eq_getElem hk)]
  · rw [List.getElem?_eq_none (by simpa using hk), List.getElem?_eq_none (by simpa using hk)]

/-! ## Saving, loading and deleting test cases; the program file; failed runs -/

/-- C19: saving test cases and loading them again.  Up to nine test-case objects saved
into a directory without input files come back as their JSON texts, in the order in
which they were saved.  With ten, `loadTestData` returns ten texts but in the order of
the file names as strings, in which `input_10.txt` comes before `input_2.txt`: the
second text returned is the text of the tenth saved case. -/
theorem saveTestCases_loadTestData_order :
    (∀ (store : Store) (cs : List JSValue) (m : ProblemMetadata),
        m.title ≠ [] →
        (∀ p ∈ (store (sanitizeProblemTitle m.title)).testCases,
          "input_".toList.isPrefixOf p.1 = false) →
        (∀ c ∈ cs, ∃ ps, c = JSValue.obj ps) →
        cs.length ≤ 9 →
        ∃ saved,
          saveTestCases store { testCases := cs.map TestCase.value, metadata := some m }
            = .ok saved
          ∧ loadTestData saved m.title
              = .ok { testCases := cs.map (fun c => fromUtf16 (jsonStringify c)),
                      metadata := m })
    ∧ loadedCases (sampleStore 10) "Two Sum".toList
        = [0, 9, 1, 2, 3, 4, 5, 6, 7, 8].map (fun i => fromUtf16 (jsonStringify (sampleCase i)))
    ∧ loadedCases (sampleStore 10) "Two Sum".toList
        ≠ (List.range 10).map (fun i => fromUtf16 (jsonStringify (sampleCase i))) := by
  refine ⟨?_, by rfl, by decide⟩
  intro store cs m ht hfresh hobj hn
  obtain ⟨saved, h1, h2⟩ := load_after_save store (cs.map TestCase.value) m ht hfresh
    (by simpa using hn)
  refine ⟨saved, h1, ?_⟩
  rw [h2, List.map_map]
  congr 2
  apply List.map_congr_left
  intro c hc
  obtain ⟨ps, rfl⟩ := hobj c hc
  rfl

/-- Witness for C19: two sample cases saved into the empty store. -/
theorem saveTestCases_loadTestData_order_witness :
    ∃ saved,
      saveTestCases Store.empty
          { testCases := [sampleCase 0, sampleCase 1].map TestCase.value,
            metadata := some (sampleProblem 2) } = .ok saved
      ∧ loadTestData saved (sampleProblem 2).title
          = .ok { testCases := [sampleCase 0, sampleCase 1].map
                    (fun c => fromUtf16 (jsonStringify c)),
                  metadata := sampleProblem 2 } :=
  saveTestCases_loadTestData_order.1 Store.empty [sampleCase 0, sampleCase 1] (sampleProblem 2)
    (by decide) (by intro p hp; cases hp)
    (by
      intro c hc
      simp only [List.mem_cons, List.mem_singleton, List.not_mem_nil, or_false] at hc
      rcases hc with rfl | rfl <;> exact ⟨_, rfl⟩)
    (by decide)

/-- C28: deleting the first of three stored test cases.  `_handleDeleteTestCase` saves
the two remaining cases as `input_1.txt` and `input_2.txt`, leaves the old
`input_3.txt` where it is and then removes `input_1.txt`: `loadTestData` returns the
text of the last case twice, and the first of the two lines up with the expected
output of the dropped middle case.  Deleting the last or the last but one case leaves
the remaining cases in the store, in their order. -/
theorem handleDeleteTestCase_first_of_three :
    loadedCases (sampleStore 3) "Two Sum".toList
        = [0, 1, 2].map (fun i => fromUtf16 (jsonStringify (sampleCase i)))
    ∧ loadedCases (_handleDeleteTestCase (sampleStore 3) "Two Sum".toList 0) "Two Sum".toList
        = [2, 2].map (fun i => fromUtf16 (jsonStringify (sampleCase i)))
    ∧ ((loadTestData (_handleDeleteTestCase (sampleStore 3) "Two Sum".toList 0)
          "Two Sum".toList).toOption.map (fun d => d.metadata.expectedOutputs))
        = some [natToDec 1, natToDec 2]
    ∧ loadedCases (_handleDeleteTestCase (sampleStore 3) "Two Sum".toList 1) "Two Sum".toList
        = [0, 2].map (fun i => fromUtf16 (jsonStringify (sampleCase i)))
    ∧ loadedCases (_handleDeleteTestCase (sampleStore 3) "Two Sum".toList 2) "Two Sum".toList
        = [0, 1].map (fun i => fromUtf16 (jsonStringify (sampleCase i))) :=
  ⟨by rfl, by rfl, by rfl, by rfl, by rfl⟩

theorem unlink_removes (d d' : Dir) (name : Str) (h : d.unlink name = .ok d') :
    name ∉ d'.readdir := by
  unfold Dir.unlink at h
  split at h
  · injection h with h
    subst h
    intro hm
    obtain ⟨p, hp, hpn⟩ := List.mem_map.mp hm
    have := (List.mem_filter.mp hp).2
    simp [hpn] at this
  · cases h

theorem writeFile_mem (d : Dir) (name content : Str) : name ∈ (d.writeFile name content).readdir := by
  unfold Dir.writeFile Dir.readdir
  split
  · rename_i h
    obtain ⟨p, hp, hpn⟩ := List.any_eq_true.mp h
    have hpn' : p.1 = name := by simpa using hpn
    apply List.mem_map.mpr
    refine ⟨(name, content), ?_, rfl⟩
    apply List.mem_map.mpr
    exact ⟨p, hp, by simp [hpn']⟩
  · simp

theorem createTempFile_writes (self : FileHandler) (store : Store) (temp : Dir)
    (editorFileName : Option Str) (userCode language tempFile : Str) (temp1 : Dir)
    (h : CodeExecutor.createTempFile self store temp editorFileName userCode language
      = .ok (tempFile, temp1)) :
    tempFile = CodeExecutor.tempFileName language ∧ tempFile ∈ temp1.readdir := by
  unfold CodeExecutor.createTempFile at h
  cases editorFileName with
  | none => cases h
  | some fileName =>
    simp only at h
    cases hl : loadTestData store (getProblemTitleFromFileName fileName) with
    | error e => rw [hl] at h; cases h
    | ok data =>
      rw [hl] at h
      simp only at h
      cases hg : getLanguageDriver self language data.metadata.signature userCode with
      | error e => rw [hg] at h; cases h
      | ok driverCode =>
        rw [hg] at h
        simp only at h
        injection h with h
        injection h with h1 h2
        subst h1 h2
        exact ⟨rfl, writeFile_mem _ _ _⟩

/-- C22: the program file after `runTests`.  When `runTests` returns results, the
program file that `createTempFile` wrote is gone from the directory `temp`.  When
`loadTestData` throws after `createTempFile` has written the file, `runTests` throws
`Test execution failed: ...` and the program file is still there: the `unlink` at the
end of the `try` block is skipped and the `catch` block removes nothing. -/
theorem runTests_program_file (self : FileHandler) (sys : Str → List Nat → ProcResult)
    (p : ExecPaths) (store storeLater : Store) (temp : Dir) (extension fileName : Str)
    (code : Str) (editorFileName : Option Str) (language tempFile : Str) (temp1 : Dir)
    (hlang : CodeExecutor.getLanguage extension = .ok language)
    (hcreate : CodeExecutor.createTempFile self store temp editorFileName code language
      = .ok (tempFile, temp1)) :
    (∀ results tempAfter,
        CodeExecutor.runTests self sys p store storeLater temp extension fileName (.ok code)
            editorFileName = (.ok results, tempAfter) →
        tempFile ∉ tempAfter.readdir)
    ∧ (∀ e, loadTestData storeLater (getProblemTitleFromFileName fileName) = .error e →
        CodeExecutor.runTests self sys p store storeLater temp extension fileName (.ok code)
            editorFileName = (.error ("Test execution failed: ".toList ++ e), temp1)
        ∧ tempFile ∈ temp1.readdir) := by
  constructor
  · intro results tempAfter h
    unfold CodeExecutor.runTests at h
    rw [hlang] at h
    simp only [hcreate] at h
    cases hl : loadTestData storeLater (getProblemTitleFromFileName fileName) with
    | error e => rw [hl] at h; cases h
    | ok data =>
      rw [hl] at h
      simp only [runTests_eq] at h
      cases hu : temp1.unlink tempFile with
      | error e => rw [hu] at h; cases h
      | ok temp2 =>
        rw [hu] at h
        simp only [Prod.mk.injEq] at h
        rw [← h.2]
        exact unlink_removes _ _ _ hu
  · intro e hl
    refine ⟨?_, (createTempFile_writes _ _ _ _ _ _ _ _ hcreate).2⟩
    unfold CodeExecutor.runTests
    rw [hlang]
    simp only [hcreate, hl]

/-- Witness for C22: the metadata of the problem is gone when `runTests` loads it. -/
theorem runTests_program_file_witness :
    CodeExecutor.runTests sampleHandler noisyMachine samplePaths (sampleStore 1) Store.empty []
        ".py".toList "two-sum.py".toList (.ok "code".toList) (some "two-sum.py".toList)
      = (.error ("Test execution failed: Failed to load metadata: ENOENT: no such file or "
            ++ "directory, open 'metadata.json'").toList,
          [("solution.python".toList,
            getPythonDriver "code".toList twoSumSignature)])
    ∧ "solution.python".toList
        ∈ Dir.readdir [("solution.python".toList, getPythonDriver "code".toList twoSumSignature)] :=
  (runTests_program_file sampleHandler noisyMachine samplePaths (sampleStore 1) Store.empty []
    ".py".toList "two-sum.py".toList "code".toList (some "two-sum.py".toList)
    "python".toList "solution.python".toList
    [("solution.python".toList, getPythonDriver "code".toList twoSumSignature)]
    (by rfl) (by rfl)).2 _ (by rfl)

theorem executeTest_run (sys : Str → List Nat → ProcResult) (p : ExecPaths) (tc : Str)
    (input : List Nat) (language runCmd : Str)
    (hlang : (language = "cpp".toList ∧ runCmd = cppRunCmd p
        ∧ (sys (cppCompileCmd p) []).status = 0)
      ∨ (language = "python".toList ∧ runCmd = pythonRunCmd p)
      ∨ (language = "java".toList ∧ runCmd = javaRunCmd p
        ∧ (sys (javaCompileCmd p) []).status = 0))
    (hin : testInput tc = .ok input) :
    executeTest sys p tc language = execSync sys runCmd input := by
  rcases hlang with ⟨rfl, rfl, hc⟩ | ⟨rfl, rfl⟩ | ⟨rfl, rfl, hc⟩
  · unfold executeTest
    rw [if_pos rfl]
    have : execSync sys (cppCompileCmd p) [] = .ok (sys (cppCompileCmd p) []).stdout := by
      simp [execSync, hc]
    rw [this, hin]
  · have h1 : ¬ ("python".toList = "cpp".toList) := by decide
    unfold executeTest
    rw [if_neg h1, if_pos rfl, hin]
  · have h1 : ¬ ("java".toList = "cpp".toList) := by decide
    have h2 : ¬ ("java".toList = "python".toList) := by decide
    unfold executeTest
    rw [if_neg h1, if_neg h2, if_pos rfl, hin]
    have : execSync sys (javaCompileCmd p) [] = .ok (sys (javaCompileCmd p) []).stdout := by
      simp [execSync, hc]
    rw [this]

/-- C23, as stated, fails: a program that exits with status `0` after writing to its
error stream is not a failed case.  Its result is computed from the standard output
alone: here `passed = true` and `error = null`. -/
theorem runTests_error_stream_counterexample :
    (noisyMachine (pythonRunCmd samplePaths) (jsonStringify (.obj []) ++ [10])).stderr ≠ []
    ∧ runTests (fun _ tc => executeTest noisyMachine samplePaths tc "python".toList)
        sampleMetadata ["\x7b\x7d".toList]
      = .ok [{ testCase := 1, input := "\x7b\x7d".toList, expectedOutput := some "[0,1]".toList,
               actualOutput := some "[0,1]".toList, passed := true, error := none }] :=
  ⟨by decide, by rfl⟩

/-- C23 (amended): with a process outcome modelled as exit status, standard output and
standard error.  The run returns one result per test case.  For a test case that is
valid JSON, once the build (if the runtime has one) has succeeded: if the program
exits non-zero, the result of that case has `passed = false`, no actual output and the
error `Command failed: ...` with the text of the error stream; if it exits with status
`0`, the error stream is ignored and the result is computed from the standard output.
Either way the result of a case depends on that case alone, so the remaining cases
are still executed. -/
theorem runTests_runtime_error (sys : Str → List Nat → ProcResult) (p : ExecPaths)
    (metadata : Metadata) (testCases : List Str) (language runCmd : Str)
    (hlang : (language = "cpp".toList ∧ runCmd = cppRunCmd p
        ∧ (sys (cppCompileCmd p) []).status = 0)
      ∨ (language = "python".toList ∧ runCmd = pythonRunCmd p)
      ∨ (language = "java".toList ∧ runCmd = javaRunCmd p
        ∧ (sys (javaCompileCmd p) []).status = 0)) :
    ∃ results : List TestResult,
      runTests (fun _ tc => executeTest sys p tc language) metadata testCases = .ok results
      ∧ results.length = testCases.length
      ∧ ∀ (i : Nat) (tc : Str) (input : List Nat),
          testCases[i]? = some tc → testInput tc = .ok input →
          ∃ r, results[i]? = some r
            ∧ ((sys runCmd input).status ≠ 0 →
                r.passed = false ∧ r.actualOutput = none
                ∧ r.error = some ("Command failed: ".toList ++ runCmd
                    ++ (if (sys runCmd input).stderr = [] then []
                        else '\n' :: (sys runCmd input).stderr)))
            ∧ ((sys runCmd input).status = 0 →
                ∀ expected, metadata.expectedOutputs[i]? = some expected →
                  r.error = none
                  ∧ r.actualOutput = some (trim (sys runCmd input).stdout)
                  ∧ r.passed = compareOutputs (trim (sys runCmd input).stdout) (trim expected)
                      metadata.returnType) := by
  refine ⟨_, runTests_eq _ metadata testCases, by simp, ?_⟩
  intro i tc input htc hin
  refine ⟨runCase (fun _ tc => executeTest sys p tc language) metadata i tc, ?_, ?_, ?_⟩
  · rw [runTests_getElem?, htc]
    rfl
  · intro hs
    have he := executeTest_run sys p tc input language runCmd hlang hin
    rw [execSync_fail sys runCmd input hs] at he
    exact runCase_error _ metadata i tc _ he
  · intro hs expected hexp
    have he := executeTest_run sys p tc input language runCmd hlang hin
    have : execSync sys runCmd input = .ok (sys runCmd input).stdout := by
      simp [execSync, hs]
    rw [this] at he
    simp [runCase, he, hexp]

/-- Witness for C23 (amended): the Python runtime on a machine where every command
fails. -/
theorem runTests_runtime_error_witness :
    ∃ results : List TestResult,
      runTests (fun _ tc => executeTest brokenBuild samplePaths tc "python".toList)
          sampleMetadata ["\x7b\x7d".toList, "\x7b\x7d".toList] = .ok results
      ∧ results.length = 2
      ∧ ∃ r, results[1]? = some r ∧ r.passed = false ∧ r.actualOutput = none
          ∧ r.error = some ("Command failed: python \"/t/solution.cpp\"\n"
              ++ "error: expected ';'").toList := by
  obtain ⟨results, h1, h2, h3⟩ := runTests_runtime_error brokenBuild samplePaths sampleMetadata
    ["\x7b\x7d".toList, "\x7b\x7d".toList] "python".toList (pythonRunCmd samplePaths)
    (Or.inr (Or.inl ⟨rfl, rfl⟩))
  obtain ⟨r, hr, hfail, _⟩ := h3 1 "\x7b\x7d".toList (jsonStringify (.obj []) ++ [10])
    (by rfl) (by rfl)
  obtain ⟨ha, hb, hc⟩ := hfail (by decide)
  exact ⟨results, h1, h2, r, hr, ha, hb, hc⟩

/-! ## The scraper: decoding the wire record -/

theorem takeWhile_append_stop {α : Type} (p : α → Bool) (a b : List α)
    (ha : ∀ c ∈ a, p c = true) (hb : ∀ c, b.head? = some c → p c = false) :
    (a ++ b).takeWhile p = a ∧ (a ++ b).dropWhile p = b := by
  induction a with
  | nil =>
    cases b with
    | nil => exact ⟨rfl, rfl⟩
    | cons c r =>
      have := hb c rfl
      simp [List.takeWhile, List.dropWhile, this]
  | cons x a ih =>
    have hx := ha x (List.mem_cons_self _ _)
    obtain ⟨h1, h2⟩ := ih (fun c hc => ha c (List.mem_cons_of_mem _ hc))
    simp [List.takeWhile, List.dropWhile, hx, h1, h2]

theorem dropWhile_head_false {α : Type} (p : α → Bool) (b : List α)
    (hb : ∀ c, b.head? = some c → p c = false) : b.dropWhile p = b :=
  (takeWhile_append_stop p [] b (fun _ h => by cases h) hb).2

theorem matchDelimited_body (close : Char) (body tail : Str) (hne : body ≠ [])
    (hb : close ∉ body) :
    matchDelimited close (body ++ close :: tail) = some (body, tail) := by
  have h := takeWhile_append_stop (fun c => c != close) body (close :: tail)
    (fun c hc => by
      have : c ≠ close := fun e => hb (e ▸ hc)
      simpa using this)
    (fun c hc => by
      simp only [List.head?_cons, Option.some.injEq] at hc
      subst hc
      simp)
  unfold matchDelimited
  rw [h.1, h.2]
  simp [hne]

theorem matchDelimited_empty (close : Char) (tail : Str) :
    matchDelimited close (close :: tail) = none := by
  simp [matchDelimited, List.dropWhile, List.takeWhile]

theorem spanDigits_tail (ds tail : Str) (hd : ∀ c ∈ ds, isDigit c = true)
    (ht : recordTail tail) : spanDigits (ds ++ tail) = (ds, tail) := by
  rcases ht with rfl | ⟨r, rfl⟩
  · rw [List.append_nil]
    exact spanDigits_all ds hd
  · exact spanDigits_append ds ',' r hd (by decide)

theorem isDigit_not_special (c : Char) (h : isDigit c = true) :
    c ≠ '[' ∧ c ≠ '"' ∧ c ≠ '-' ∧ c ≠ '=' ∧ isJsSpace c = false ∧ isWordChar c = true := by
  rcases char_cases_of_isDigit c h with
    rfl | rfl | rfl | rfl | rfl | rfl | rfl | rfl | rfl | rfl <;> decide

theorem matchValue_literal (v : WireValue) (tail : Str) (hv : v.wellFormed)
    (hne : v ≠ .emptyList) (ht : recordTail tail) :
    matchValue (v.literal ++ tail) = some (v.literal, tail) := by
  cases v with
  | emptyList => exact absurd rfl hne
  | string body =>
    obtain ⟨h1, h2⟩ := hv
    have e : (WireValue.string body).literal ++ tail = '"' :: (body ++ '"' :: tail) := by
      simp [WireValue.literal]
    rw [e]
    unfold matchValue
    have hq : ¬ ('"' = '[') := by decide
    simp only [hq, if_false, if_true]
    rw [matchDelimited_body '"' body tail h1 h2]
    simp [WireValue.literal]
  | list body =>
    obtain ⟨h1, _, h3⟩ := hv
    have e : (WireValue.list body).literal ++ tail = '[' :: (body ++ ']' :: tail) := by
      simp [WireValue.literal]
    rw [e]
    unfold matchValue
    simp only [if_true]
    rw [matchDelimited_body ']' body tail h1 h3]
    simp [WireValue.literal]
  | int neg digits =>
    obtain ⟨h1, h2⟩ := hv
    cases neg with
    | true =>
      have e : (WireValue.int true digits).literal ++ tail = '-' :: (digits ++ tail) := by
        simp [WireValue.literal]
      rw [e]
      unfold matchValue
      have ha : ¬ ('-' = '[') := by decide
      have hb : ¬ ('-' = '"') := by decide
      simp only [ha, hb, if_false, if_true]
      rw [spanDigits_tail digits tail h2 ht]
      simp [h1, WireValue.literal]
    | false =>
      cases digits with
      | nil => exact absurd rfl h1
      | cons d ds =>
        have hd := isDigit_not_special d (h2 d (List.mem_cons_self _ _))
        have e : (WireValue.int false (d :: ds)).literal ++ tail = d :: (ds ++ tail) := by
          simp [WireValue.literal]
        rw [e]
        unfold matchValue
        simp only [hd.1, hd.2.1, hd.2.2.1, if_false]
        have hs := spanDigits_tail (d :: ds) tail h2 ht
        rw [List.cons_append] at hs
        rw [hs]
        simp [WireValue.literal]

theorem literal_head (v : WireValue) (hv : v.wellFormed) (tail : Str) :
    ∀ c, (v.literal ++ tail).head? = some c → isJsSpace c = false := by
  intro c hc
  cases v with
  | emptyList =>
    simp [WireValue.literal] at hc
    subst hc
    decide
  | string body =>
    simp [WireValue.literal] at hc
    subst hc
    decide
  | list body =>
    simp [WireValue.literal] at hc
    subst hc
    decide
  | int neg digits =>
    obtain ⟨h1, h2⟩ := hv
    cases neg with
    | true =>
      simp [WireValue.literal] at hc
      subst hc
      decide
    | false =>
      cases digits with
      | nil => exact absurd rfl h1
      | cons d ds =>
        simp [WireValue.literal] at hc
        subst hc
        exact (isDigit_not_special _ (h2 _ (List.mem_cons_self _ _))).2.2.2.2.1

/-- The text of one field of a record. -/
theorem matchParam_shape (n : Str) (rest : Str) (hn : n ≠ [])
    (hw : ∀ c ∈ n, isWordChar c = true)
    (hrest : ∀ c, rest.head? = some c → isJsSpace c = false) :
    matchParam (n ++ ' ' :: '=' :: ' ' :: rest)
      = (matchValue rest).map (fun t => (n, t.1, t.2)) := by
  have h := takeWhile_append_stop isWordChar n (' ' :: '=' :: ' ' :: rest) hw
    (fun c hc => by
      simp only [List.head?_cons, Option.some.injEq] at hc
      subst hc
      decide)
  unfold matchParam
  rw [h.1, h.2, if_neg hn]
  have e1 : (' ' :: '=' :: ' ' :: rest).dropWhile isJsSpace = '=' :: ' ' :: rest := by
    have h1 : isJsSpace ' ' = true := by decide
    have h2 : isJsSpace '=' = false := by decide
    simp [List.dropWhile, h1, h2]
  rw [e1]
  simp only [if_true]
  have e2 : (' ' :: rest).dropWhile isJsSpace = rest := by
    have h1 : isJsSpace ' ' = true := by decide
    rw [List.dropWhile_cons, h1]
    exact dropWhile_head_false isJsSpace rest hrest
  rw [e2]

theorem matchParam_field (n : Str) (v : WireValue) (tail : Str) (hn : n ≠ [])
    (hw : ∀ c ∈ n, isWordChar c = true) (hv : v.wellFormed) (hne : v ≠ .emptyList)
    (ht : recordTail tail) :
    matchParam (n ++ " = ".toList ++ v.literal ++ tail) = some (n, v.literal, tail) := by
  have e : n ++ " = ".toList ++ v.literal ++ tail
      = n ++ ' ' :: '=' :: ' ' :: (v.literal ++ tail) := by
    simp
  rw [e, matchParam_shape n _ hn hw (literal_head v hv tail), matchValue_literal v tail hv hne ht]
  rfl

theorem matchParam_nonword (s : Str) (h : ∀ c, s.head? = some c → isWordChar c = false) :
    matchParam s = none := by
  unfold matchParam
  have : s.takeWhile isWordChar = [] := by
    cases s with
    | nil => rfl
    | cons c r => simp [List.takeWhile, h c rfl]
  rw [if_pos this]

theorem matchParam_emptyList (n tail : Str) (hw : ∀ c ∈ n, isWordChar c = true) :
    matchParam (n ++ ' ' :: '=' :: ' ' :: '[' :: ']' :: tail) = none := by
  cases n with
  | nil => exact matchParam_nonword _ (fun c hc => by
      simp only [List.nil_append, List.head?_cons, Option.some.injEq] at hc
      subst hc
      decide)
  | cons a n =>
    rw [matchParam_shape (a :: n) _ (by simp) hw (fun c hc => by
      simp only [List.head?_cons, Option.some.injEq] at hc
      subst hc
      decide)]
    unfold matchValue
    simp only [if_true]
    rw [matchDelimited_empty]
    rfl

theorem execLoop_succ (f : Nat) (s : Str) (acc : List (List Nat × JSValue)) :
    execLoop (f + 1) s acc
      = match matchParam s with
        | some (key, value, rest) => execLoop f rest (assignParam acc key (storedValue value))
        | none =>
          match s with
          | [] => acc
          | _ :: t => execLoop f t acc := rfl

theorem execLoop_skip (skip : Str) :
    ∀ (rest : Str) (acc : List (List Nat × JSValue)) (f : Nat),
      (∀ k, k < skip.length → matchParam (skip.drop k ++ rest) = none) →
      execLoop (f + skip.length) (skip ++ rest) acc = execLoop f rest acc := by
  induction skip with
  | nil => intro rest acc f _; rfl
  | cons c t ih =>
    intro rest acc f h
    have h0 := h 0 (by simp)
    simp only [List.drop_zero] at h0
    have e : f + (c :: t).length = (f + t.length) + 1 := by simp; omega
    rw [e, execLoop_succ, h0]
    simp only [List.cons_append]
    apply ih
    intro k hk
    have := h (k + 1) (by simp; omega)
    simpa using this

theorem execLoop_nil (f : Nat) (acc : List (List Nat × JSValue)) : execLoop f [] acc = acc := by
  cases f with
  | zero => rfl
  | succ f =>
    rw [execLoop_succ, matchParam_nonword [] (fun c hc => by cases hc)]

theorem skip_separator (rest : Str) :
    ∀ k, k < ", ".toList.length → matchParam (", ".toList.drop k ++ rest) = none := by
  intro k hk
  have hk' : k < 2 := hk
  interval_cases k
  · exact matchParam_nonword _ (fun c hc => by
      simp only [List.drop_zero, String.toList, List.cons_append, List.head?_cons,
        Option.some.injEq] at hc
      subst hc
      decide)
  · exact matchParam_nonword _ (fun c hc => by
      have e : List.drop 1 ", ".toList ++ rest = ' ' :: rest := rfl
      rw [e] at hc
      simp only [List.head?_cons, Option.some.injEq] at hc
      subst hc
      decide)

theorem skip_emptyList (n rest : Str) (hw : ∀ c ∈ n, isWordChar c = true) :
    ∀ k, k < (n ++ " = []".toList).length →
      matchParam ((n ++ " = []".toList).drop k ++ rest) = none := by
  intro k hk
  rcases Nat.lt_or_ge k n.length with h | h
  · have e : (n ++ " = []".toList).drop k ++ rest
        = n.drop k ++ ' ' :: '=' :: ' ' :: '[' :: ']' :: rest := by
      rw [List.drop_append_of_le_length (Nat.le_of_lt h)]
      simp
    rw [e]
    exact matchParam_emptyList _ _ (fun c hc => hw c (List.mem_of_mem_drop hc))
  · have e : (n ++ " = []".toList).drop k = " = []".toList.drop (k - n.length) := by
      rw [List.drop_append_eq_append_drop, List.drop_eq_nil_of_le h]
      rfl
    rw [e]
    have hk2 : k - n.length < 5 := by
      have : (n ++ " = []".toList).length = n.length + 5 := by simp
      omega
    generalize k - n.length = j at hk2
    apply matchParam_nonword
    intro c hc
    interval_cases j
    all_goals
      first
      | (have e2 : (List.drop 0 " = []".toList ++ rest) = ' ' :: '=' :: ' ' :: '[' :: ']' :: rest := rfl
         rw [e2] at hc
         simp only [List.head?_cons, Option.some.injEq] at hc
         subst hc
         decide)
      | (have e2 : (List.drop 1 " = []".toList ++ rest) = '=' :: ' ' :: '[' :: ']' :: rest := rfl
         rw [e2] at hc
         simp only [List.head?_cons, Option.some.injEq] at hc
         subst hc
         decide)
      | (have e2 : (List.drop 2 " = []".toList ++ rest) = ' ' :: '[' :: ']' :: rest := rfl
         rw [e2] at hc
         simp only [List.head?_cons, Option.some.injEq] at hc
         subst hc
         decide)
      | (have e2 : (List.drop 3 " = []".toList ++ rest) = '[' :: ']' :: rest := rfl
         rw [e2] at hc
         simp only [List.head?_cons, Option.some.injEq] at hc
         subst hc
         decide)
      | (have e2 : (List.drop 4 " = []".toList ++ rest) = ']' :: rest := rfl
         rw [e2] at hc
         simp only [List.head?_cons, Option.some.injEq] at hc
         subst hc
         decide)

theorem isIntLiteral_digits (ds : Str) (h1 : ds ≠ []) (h2 : ∀ c ∈ ds, isDigit c = true) :
    isIntLiteral ds = true ∧ isIntLiteral ('-' :: ds) = true := by
  have hall : ds.all isDigit = true := List.all_eq_true.mpr h2
  constructor
  · cases ds with
    | nil => exact absurd rfl h1
    | cons d r =>
      have hd := (isDigit_not_special d (h2 d (List.mem_cons_self _ _))).2.2.1
      unfold isIntLiteral
      simp only [hd, if_false]
      exact hall
  · unfold isIntLiteral
    simp only [if_true, hall, Bool.and_true]
    cases ds with
    | nil => exact absurd rfl h1
    | cons d r => rfl

theorem collapseBrackets_flat (f : Nat) (s : Str) (h : "[[".toList.isPrefixOf s = false) :
    collapseBrackets f s = s := by
  cases f with
  | zero => rfl
  | succ f =>
    unfold collapseBrackets
    have hp : ¬ ("[[".toList.isPrefixOf s = true ∧ "]]".toList.isSuffixOf s = true) := by
      rw [h]
      simp
    rw [if_neg hp]

theorem stripWs_list (body : Str) :
    stripWs ('[' :: body ++ [']']) = '[' :: stripWs body ++ [']'] := by
  have h1 : isJsSpace '[' = false := by decide
  have h2 : isJsSpace ']' = false := by decide
  simp [stripWs, List.filter_cons, h1, h2]

theorem storedValue_literal (v : WireValue) (s : Str) (hv : v.wellFormed)
    (hs : v.stored = some s) : storedValue v.literal = s := by
  cases v with
  | emptyList => cases hs
  | int neg digits =>
    obtain ⟨h1, h2⟩ := hv
    simp only [WireValue.stored, Option.some.injEq] at hs
    subst hs
    have hi := isIntLiteral_digits digits h1 h2
    unfold storedValue
    cases neg with
    | true =>
      have e : (WireValue.int true digits).literal = '-' :: digits := rfl
      rw [e, hi.2, if_pos rfl]
    | false =>
      have e : (WireValue.int false digits).literal = digits := rfl
      rw [e, hi.1, if_pos rfl]
  | string body =>
    simp only [WireValue.stored, Option.some.injEq] at hs
    subst hs
    have e : (WireValue.string body).literal = '"' :: (body ++ ['"']) := rfl
    have h1 : isIntLiteral ('"' :: (body ++ ['"'])) = false := by
      have ha : ¬ ('"' = '-') := by decide
      have hb : isDigit '"' = false := by decide
      simp [isIntLiteral, ha, hb]
    have h2 : startsWithChar ('"' :: (body ++ ['"'])) '[' = false := by
      simp [startsWithChar]
    unfold storedValue
    rw [e, h1, h2]
    simp
  | list body =>
    obtain ⟨_, hb, _⟩ := hv
    simp only [WireValue.stored, Option.some.injEq] at hs
    subst hs
    have e : (WireValue.list body).literal = '[' :: body ++ [']'] := rfl
    have h1 : isIntLiteral ('[' :: body ++ [']']) = false := by
      have ha : ¬ ('[' = '-') := by decide
      have hb : isDigit '[' = false := by decide
      simp [isIntLiteral, ha, hb]
    have h2 : startsWithChar ('[' :: body ++ [']']) '[' = true := by
      simp [startsWithChar]
    have h3 : endsWithChar ('[' :: body ++ [']']) ']' = true := by
      exact endsWithChar_concat ('[' :: body) ']'
    unfold storedValue
    rw [e, h1, h2, h3, stripWs_list]
    simp only [Bool.false_eq_true, if_false, Bool.and_self, if_true]
    apply collapseBrackets_flat
    cases hsb : stripWs body with
    | nil => rfl
    | cons c r =>
      have hc : c ≠ '[' := by
        intro e
        have hm : c ∈ stripWs body := by rw [hsb]; exact List.mem_cons_self _ _
        exact hb (e ▸ (List.mem_filter.mp hm).1)
      simp [List.isPrefixOf, Ne.symm hc]

theorem wireRecord_cons (fl : Str × WireValue) (rest : List (Str × WireValue)) :
    wireRecord (fl :: rest) = fl.1 ++ " = ".toList ++ fl.2.literal ++ sepTail rest := by
  cases rest with
  | nil => simp [wireRecord, sepTail]
  | cons g r => simp [wireRecord, sepTail]

theorem recordTail_sepTail (rest : List (Str × WireValue)) : recordTail (sepTail rest) := by
  cases rest with
  | nil => exact Or.inl rfl
  | cons g r => exact Or.inr ⟨_, rfl⟩

theorem execLoop_wireRecord (fields : List (Str × WireValue)) :
    ∀ (acc : List (List Nat × JSValue)) (f : Nat),
      (∀ fl ∈ fields, isParamName fl.1 ∧ fl.2.wellFormed) →
      (wireRecord fields).length + 1 ≤ f →
      execLoop f (wireRecord fields) acc = applyFields acc fields := by
  induction fields with
  | nil =>
    intro acc f _ _
    exact execLoop_nil f acc
  | cons fl rest ih =>
    intro acc f hf hlen
    have hrest : ∀ (acc' : List (List Nat × JSValue)) (f' : Nat),
        (sepTail rest).length + 1 ≤ f' →
        execLoop f' (sepTail rest) acc' = applyFields acc' rest := by
      intro acc' f' hf'
      cases rest with
      | nil => exact execLoop_nil f' acc'
      | cons g r =>
        have hl : (sepTail (g :: r)).length = (wireRecord (g :: r)).length + 2 := by
          simp [sepTail]
        obtain ⟨f'', rfl⟩ : ∃ f'', f' = f'' + ", ".toList.length :=
          ⟨f' - 2, by simp; omega⟩
        show execLoop (f'' + ", ".toList.length) (", ".toList ++ wireRecord (g :: r)) acc' = _
        rw [execLoop_skip ", ".toList _ acc' f'' (skip_separator _)]
        apply ih acc' f'' (fun x hx => hf x (List.mem_cons_of_mem _ hx))
        simp at hf'
        omega
    obtain ⟨⟨hn, hw, _⟩, hv⟩ := hf fl (List.mem_cons_self _ _)
    rw [wireRecord_cons] at hlen ⊢
    have happly : applyFields acc (fl :: rest)
        = applyFields (match fl.2.stored with
            | some s => assignParam acc fl.1 s
            | none => acc) rest := rfl
    by_cases he : fl.2 = .emptyList
    · have e1 : fl.1 ++ " = ".toList ++ fl.2.literal ++ sepTail rest
          = (fl.1 ++ " = []".toList) ++ sepTail rest := by
        rw [he]
        simp [WireValue.literal]
      rw [e1] at hlen ⊢
      obtain ⟨f', rfl⟩ : ∃ f', f = f' + (fl.1 ++ " = []".toList).length :=
        ⟨f - (fl.1 ++ " = []".toList).length, by
          rw [List.length_append] at hlen
          omega⟩
      rw [execLoop_skip _ _ acc f' (skip_emptyList fl.1 _ hw), happly, he]
      apply hrest
      rw [List.length_append] at hlen
      omega
    · obtain ⟨f', rfl⟩ : ∃ f', f = f' + 1 := ⟨f - 1, by omega⟩
      rw [execLoop_succ, matchParam_field fl.1 fl.2 _ hn hw hv he (recordTail_sepTail rest)]
      simp only
      have hst : ∃ s, fl.2.stored = some s := by
        cases h : fl.2 with
        | emptyList => exact absurd h he
        | int neg digits => exact ⟨_, rfl⟩
        | string body => exact ⟨_, rfl⟩
        | list body => exact ⟨_, rfl⟩
      obtain ⟨s, hs⟩ := hst
      rw [storedValue_literal fl.2 s hv hs, happly, hs]
      apply hrest
      have : 1 ≤ (fl.1 ++ " = ".toList ++ fl.2.literal).length := by
        simp
        omega
      rw [List.length_append] at hlen
      omega

theorem isWordChar_bmp (c : Char) (h : isWordChar c = true) : c.toNat < 0x10000 := by
  simp only [isWordChar, Bool.or_eq_true, Bool.and_eq_true, decide_eq_true_eq] at h
  omega

theorem toUtf16_name (n : Str) (hw : ∀ c ∈ n, isWordChar c = true) :
    toUtf16 n = n.map Char.toNat :=
  toUtf16_bmp n (fun c hc => isWordChar_bmp c (hw c hc))

theorem toUtf16_name_injective (n m : Str) (hn : ∀ c ∈ n, isWordChar c = true)
    (hm : ∀ c ∈ m, isWordChar c = true) (h : toUtf16 n = toUtf16 m) : n = m := by
  rw [toUtf16_name n hn, toUtf16_name m hm] at h
  exact List.map_injective_iff.mpr char_toNat_injective h

theorem arrayIndex_name (n : Str) (hn : isParamName n) : arrayIndex (toUtf16 n) = none := by
  obtain ⟨hne, hw, hd⟩ := hn
  rw [toUtf16_name n hw]
  cases n with
  | nil => exact absurd rfl hne
  | cons c r =>
    have hc := hd c rfl
    have hnot : ¬ (48 ≤ c.toNat ∧ c.toNat ≤ 57) := by
      simpa [isDigit] using hc
    unfold arrayIndex
    rw [if_neg]
    rintro ⟨_, hall, _⟩
    simp only [List.map_cons, List.all_cons, Bool.and_eq_true, decide_eq_true_eq] at hall
    exact hnot hall.1

theorem foldl_fixed {α β : Type} (g : β → α → β) (ps : List α) (acc : β)
    (h : ∀ b, ∀ p ∈ ps, g b p = b) : ps.foldl g acc = acc := by
  induction ps generalizing acc with
  | nil => rfl
  | cons p ps ih =>
    rw [List.foldl_cons, h acc p (List.mem_cons_self _ _)]
    exact ih acc (fun b q hq => h b q (List.mem_cons_of_mem _ hq))

theorem objOrder_names (ps : List (List Nat × JSValue))
    (h : ∀ p ∈ ps, arrayIndex p.1 = none) : objOrder ps = ps := by
  unfold objOrder
  simp only
  rw [foldl_fixed _ ps [] (fun b p hp => by simp only [h p hp])]
  simp only [List.map_nil, List.nil_append]
  rw [List.filter_eq_self]
  intro p hp
  rw [h p hp]
  rfl

theorem decodedFields_cons_none (fl : Str × WireValue) (rest : List (Str × WireValue))
    (h : fl.1 = "__proto__".toList ∨ fl.2.stored = none) :
    decodedFields (fl :: rest) = decodedFields rest := by
  unfold decodedFields
  rw [List.filterMap_cons]
  rcases h with h | h
  · rw [if_pos h]
  · rw [h]
    have e : (if fl.1 = "__proto__".toList then (none : Option (List Nat × JSValue))
        else Option.map (fun s => (toUtf16 fl.1, JSValue.str (toUtf16 s))) none) = none := by
      split <;> rfl
    rw [e]

theorem decodedFields_cons_some (fl : Str × WireValue) (rest : List (Str × WireValue))
    (s : Str) (hp : fl.1 ≠ "__proto__".toList) (hs : fl.2.stored = some s) :
    decodedFields (fl :: rest)
      = (toUtf16 fl.1, JSValue.str (toUtf16 s)) :: decodedFields rest := by
  unfold decodedFields
  rw [List.filterMap_cons, if_neg hp, hs]
  rfl

theorem objDefine_fresh (ps : List (List Nat × JSValue)) (k : List Nat) (v : JSValue)
    (h : ∀ p ∈ ps, p.1 ≠ k) : objDefine ps k v = ps ++ [(k, v)] := by
  induction ps with
  | nil => rfl
  | cons p ps ih =>
    obtain ⟨a, b⟩ := p
    have ha : a ≠ k := h (a, b) (List.mem_cons_self _ _)
    simp only [objDefine, ha, if_false, List.cons_append]
    rw [ih (fun q hq => h q (List.mem_cons_of_mem _ hq))]

theorem applyFields_eq (fields : List (Str × WireValue)) :
    ∀ acc : List (List Nat × JSValue),
      (∀ fl ∈ fields, isParamName fl.1) →
      (fields.map (fun fl => fl.1)).Nodup →
      (∀ p ∈ acc, ∀ fl ∈ fields, p.1 ≠ toUtf16 fl.1) →
      applyFields acc fields = acc ++ decodedFields fields := by
  induction fields with
  | nil => intro acc _ _ _; simp [applyFields, decodedFields]
  | cons fl rest ih =>
    intro acc hn hnd hacc
    have hrestn : ∀ x ∈ rest, isParamName x.1 := fun x hx => hn x (List.mem_cons_of_mem _ hx)
    have hnd' : (rest.map (fun x => x.1)).Nodup := (List.nodup_cons.mp hnd).2
    have hfresh : ∀ x ∈ rest, toUtf16 fl.1 ≠ toUtf16 x.1 := by
      intro x hx e
      have := toUtf16_name_injective fl.1 x.1 (hn fl (List.mem_cons_self _ _)).2.1
        (hrestn x hx).2.1 e
      have hm : x.1 ∈ rest.map (fun fl => fl.1) := List.mem_map.mpr ⟨x, hx, rfl⟩
      rw [← this] at hm
      exact (List.nodup_cons.mp hnd).1 hm
    have happly : applyFields acc (fl :: rest)
        = applyFields (match fl.2.stored with
            | some s => assignParam acc fl.1 s
            | none => acc) rest := rfl
    have hacc' : ∀ p ∈ acc, ∀ x ∈ rest, p.1 ≠ toUtf16 x.1 :=
      fun p hp x hx => hacc p hp x (List.mem_cons_of_mem _ hx)
    rw [happly]
    cases hs : fl.2.stored with
    | none =>
      simp only
      rw [ih acc hrestn hnd' hacc', decodedFields_cons_none fl rest (Or.inr hs)]
    | some s =>
      simp only
      by_cases hp : fl.1 = "__proto__".toList
      · rw [assignParam, if_pos hp, ih acc hrestn hnd' hacc',
          decodedFields_cons_none fl rest (Or.inl hp)]
      · rw [assignParam, if_neg hp,
          objDefine_fresh acc _ _ (fun p hp' => hacc p hp' fl (List.mem_cons_self _ _)),
          ih _ hrestn hnd']
        · rw [decodedFields_cons_some fl rest s hp hs]
          simp
        · intro p hp' x hx
          rw [List.mem_append] at hp'
          rcases hp' with hp' | hp'
          · exact hacc' p hp' x hx
          · simp only [List.mem_singleton] at hp'
            rw [hp']
            exact hfresh x hx

theorem decodedFields_keys (fields : List (Str × WireValue)) :
    ∀ p ∈ decodedFields fields, ∃ fl ∈ fields, ∃ s, fl.2.stored = some s
      ∧ fl.1 ≠ "__proto__".toList ∧ p = (toUtf16 fl.1, JSValue.str (toUtf16 s)) := by
  intro p hp
  unfold decodedFields at hp
  obtain ⟨fl, hfl, h⟩ := List.mem_filterMap.mp hp
  by_cases hproto : fl.1 = "__proto__".toList
  · rw [if_pos hproto] at h
    cases h
  · rw [if_neg hproto] at h
    cases hs : fl.2.stored with
    | none => rw [hs] at h; cases h
    | some s =>
      rw [hs] at h
      simp only [Option.map_some', Option.some.injEq] at h
      exact ⟨fl, hfl, s, hs, hproto, h.symm⟩

/-- The JSON text that `parseInput` returns for a record of well-formed fields with
distinct names. -/
theorem parseInput_wireRecord (fields : List (Str × WireValue))
    (hf : ∀ fl ∈ fields, isParamName fl.1 ∧ fl.2.wellFormed)
    (hnd : (fields.map (fun fl => fl.1)).Nodup) :
    parseInput (wireRecord fields) = jsonStringify (.obj (decodedFields fields)) := by
  unfold parseInput
  rw [execLoop_wireRecord fields [] _ hf (Nat.le_refl _),
    applyFields_eq fields [] (fun fl h => (hf fl h).1) hnd (fun p hp => by cases hp),
    List.nil_append, objOrder_names]
  intro p hp
  obtain ⟨fl, hfl, s, _, _, rfl⟩ := decodedFields_keys fields p hp
  exact arrayIndex_name fl.1 (hf fl hfl).1

/-- C20: `parseInput` decodes the flat wire record.  For every record
`n1 = v1, ..., nk = vk` with distinct identifier names other than `__proto__` and each
value a bare, optionally negative, integer literal, a non-empty double-quoted string
without inner quotes or a non-empty flat bracketed list, `parseInput` returns the JSON
text of the object with exactly the keys `n1` .. `nk`, in this order, each mapped to
the literal text of its value, without whitespace for a list.  The identifier
`__proto__` is lost: for the record `__proto__ = 1` the returned object has no key. -/
theorem parseInput_flat_record :
    (∀ fields : List (Str × WireValue),
        (∀ fl ∈ fields, isParamName fl.1 ∧ fl.1 ≠ "__proto__".toList
          ∧ fl.2.wellFormed ∧ fl.2 ≠ .emptyList) →
        (fields.map (fun fl => fl.1)).Nodup →
        parseInput (wireRecord fields)
          = jsonStringify (.obj (fields.map (fun fl =>
              (toUtf16 fl.1, JSValue.str (toUtf16 (fl.2.stored.getD []))))))
        ∧ (∀ fl ∈ fields, fl.2.stored
            = some (match fl.2 with
              | .list body => '[' :: stripWs body ++ [']']
              | v => v.literal)))
    ∧ (isParamName "__proto__".toList
        ∧ wireRecord [("__proto__".toList, .int false "1".toList)] = "__proto__ = 1".toList
        ∧ parseInput "__proto__ = 1".toList = toUtf16 "\x7b\x7d".toList) := by
  refine ⟨?_, ⟨⟨by decide, by decide, ?_⟩, by rfl, by rfl⟩⟩
  · intro fields hf hnd
    constructor
    · rw [parseInput_wireRecord fields (fun fl h => ⟨(hf fl h).1, (hf fl h).2.2.1⟩) hnd]
      congr 2
      unfold decodedFields
      clear hnd
      induction fields with
      | nil => rfl
      | cons fl rest ih =>
        obtain ⟨_, hp, _, hne⟩ := hf fl (List.mem_cons_self _ _)
        have hst : ∃ s, fl.2.stored = some s := by
          cases h : fl.2 with
          | emptyList => exact absurd h hne
          | int neg digits => exact ⟨_, rfl⟩
          | string body => exact ⟨_, rfl⟩
          | list body => exact ⟨_, rfl⟩
        obtain ⟨s, hs⟩ := hst
        have hd := decodedFields_cons_some fl rest s hp hs
        unfold decodedFields at hd
        rw [hd, List.map_cons, ← ih (fun x hx => hf x (List.mem_cons_of_mem _ hx)), hs]
        rfl
    · intro fl hfl
      obtain ⟨_, _, _, hne⟩ := hf fl hfl
      cases h : fl.2 with
      | emptyList => exact absurd h hne
      | int neg digits => rfl
      | string body => rfl
      | list body => rfl
  · intro c hc
    simp only [String.toList, List.head?_cons, Option.some.injEq] at hc
    subst hc
    decide

/-- Witness for C20: the record `nums = [2,7,11,15], target = 9`. -/
theorem parseInput_flat_record_witness :
    wireRecord [("nums".toList, .list "2,7,11,15".toList), ("target".toList, .int false "9".toList)]
      = "nums = [2,7,11,15], target = 9".toList
    ∧ parseInput "nums = [2,7,11,15], target = 9".toList
      = toUtf16 "\x7b\"nums\":\"[2,7,11,15]\",\"target\":\"9\"\x7d".toList := by
  have h := (parseInput_flat_record.1
    [("nums".toList, .list "2,7,11,15".toList), ("target".toList, .int false "9".toList)]
    (by
      intro fl hfl
      simp only [List.mem_cons, List.mem_singleton, List.not_mem_nil, or_false] at hfl
      rcases hfl with rfl | rfl
      · refine ⟨⟨by decide, by decide, ?_⟩, by decide, ⟨by decide, by decide, by decide⟩,
          by decide⟩
        intro c hc
        simp only [String.toList, List.head?_cons, Option.some.injEq] at hc
        subst hc
        decide
      · refine ⟨⟨by decide, by decide, ?_⟩, by decide, ⟨by decide, by decide⟩, by decide⟩
        intro c hc
        simp only [String.toList, List.head?_cons, Option.some.injEq] at hc
        subst hc
        decide)
    (by decide)).1
  refine ⟨by rfl, ?_⟩
  have e : wireRecord [("nums".toList, .list "2,7,11,15".toList),
      ("target".toList, .int false "9".toList)] = "nums = [2,7,11,15], target = 9".toList := by
    rfl
  rw [e] at h
  rw [h]
  rfl

/-- C21: the record `grid = [[1,2],[3,4]]`.  The pattern of `parseInput` takes a list
value up to the first `]`, so the value matched is `[[1,2]`; it does not end with `]]`,
the collapsing loop does nothing, and `grid` is stored as `[[1,2]`, not as
`[1,2],[3,4]`. -/
theorem parseInput_nested_list :
    matchParam "grid = [[1,2],[3,4]]".toList
        = some ("grid".toList, "[[1,2]".toList, ",[3,4]]".toList)
    ∧ storedValue "[[1,2]".toList = "[[1,2]".toList
    ∧ parseInput "grid = [[1,2],[3,4]]".toList
        = toUtf16 "\x7b\"grid\":\"[[1,2]\"\x7d".toList
    ∧ parseInput "grid = [[1,2],[3,4]]".toList
        ≠ toUtf16 "\x7b\"grid\":\"[1,2],[3,4]\"\x7d".toList :=
  ⟨by rfl, by rfl, by rfl, by decide⟩

/-- C30: `parseInput` drops a parameter whose value is the empty list.  For every
record of well-formed fields with distinct names, a field `name = []` leaves no key
`name` in the returned object, and every other field (not named `__proto__`, which
`params[key] = value` cannot create) is returned with its stored text. -/
theorem parseInput_drops_empty_list (fields : List (Str × WireValue))
    (hf : ∀ fl ∈ fields, isParamName fl.1 ∧ fl.2.wellFormed)
    (hnd : (fields.map (fun fl => fl.1)).Nodup) :
    ∃ props, parseInput (wireRecord fields) = jsonStringify (.obj props)
      ∧ (∀ fl ∈ fields, fl.2 = .emptyList → ∀ p ∈ props, p.1 ≠ toUtf16 fl.1)
      ∧ (∀ fl ∈ fields, fl.2 ≠ .emptyList → fl.1 ≠ "__proto__".toList →
          ∃ s, fl.2.stored = some s ∧ (toUtf16 fl.1, JSValue.str (toUtf16 s)) ∈ props) := by
  refine ⟨decodedFields fields, parseInput_wireRecord fields hf hnd, ?_, ?_⟩
  · intro fl hfl he p hp e
    obtain ⟨g, hg, s, hs, _, rfl⟩ := decodedFields_keys fields p hp
    have hname : g.1 = fl.1 :=
      toUtf16_name_injective g.1 fl.1 (hf g hg).1.2.1 (hf fl hfl).1.2.1 e
    have : g = fl := List.inj_on_of_nodup_map hnd hg hfl hname
    rw [this, he] at hs
    cases hs
  · intro fl hfl hne hp
    have hst : ∃ s, fl.2.stored = some s := by
      cases h : fl.2 with
      | emptyList => exact absurd h hne
      | int neg digits => exact ⟨_, rfl⟩
      | string body => exact ⟨_, rfl⟩
      | list body => exact ⟨_, rfl⟩
    obtain ⟨s, hs⟩ := hst
    refine ⟨s, hs, ?_⟩
    unfold decodedFields
    apply List.mem_filterMap.mpr
    exact ⟨fl, hfl, by rw [if_neg hp, hs]; rfl⟩

/-- Witness for C30: the record `nums = [], target = 9`. -/
theorem parseInput_drops_empty_list_witness :
    wireRecord [("nums".toList, .emptyList), ("target".toList, .int false "9".toList)]
      = "nums = [], target = 9".toList
    ∧ parseInput "nums = [], target = 9".toList = toUtf16 "\x7b\"target\":\"9\"\x7d".toList
    ∧ ∃ props, parseInput "nums = [], target = 9".toList = jsonStringify (.obj props)
        ∧ (∀ p ∈ props, p.1 ≠ toUtf16 "nums".toList) := by
  obtain ⟨props, h1, h2, _⟩ := parseInput_drops_empty_list
    [("nums".toList, .emptyList), ("target".toList, .int false "9".toList)]
    (by
      intro fl hfl
      simp only [List.mem_cons, List.mem_singleton, List.not_mem_nil, or_false] at hfl
      rcases hfl with rfl | rfl
      · refine ⟨⟨by decide, by decide, ?_⟩, trivial⟩
        intro c hc
        simp only [String.toList, List.head?_cons, Option.some.injEq] at hc
        subst hc
        decide
      · refine ⟨⟨by decide, by decide, ?_⟩, ⟨by decide, by decide⟩⟩
        intro c hc
        simp only [String.toList, List.head?_cons, Option.some.injEq] at hc
        subst hc
        decide)
    (by decide)
  refine ⟨by rfl, by rfl, props, ?_, ?_⟩
  · exact h1
  · exact h2 _ (List.mem_cons_self _ _) rfl

/-! ## Encoding a tree and decoding it again -/

theorem rootCount_append (a b : List Tree) : rootCount (a ++ b) = rootCount a + rootCount b := by
  simp [rootCount, List.countP_append]

theorem rootCount_single (x : Tree) : rootCount [x] = if x = .nil then 0 else 1 := by
  cases x <;> simp [rootCount, Tree.rootToken]

theorem children_length (x : Tree) : x.children.length = if x = .nil then 0 else 2 := by
  cases x <;> simp [Tree.children]

theorem queueWeight_append (a b : List Tree) :
    queueWeight (a ++ b) = queueWeight a + queueWeight b := by
  induction a with
  | nil => simp [queueWeight]
  | cons x a ih => simp [queueWeight, ih]; omega

theorem queueWeight_children (x : Tree) : queueWeight x.children = 2 * x.size := by
  cases x with
  | nil => rfl
  | node v l r => simp [Tree.children, queueWeight, Tree.size]; omega

/-- The invariant of breadth-first traversal: `done` are the entries taken from the
queue so far, and the sequence `S` of all entries has every child at the two places
that its parent's number gives. -/
theorem bfs_inv (f : Nat) :
    ∀ (done queue : List Tree),
      (done ++ queue).length = 1 + 2 * rootCount done → queueWeight queue ≤ f →
      (done ++ queue) <+: (done ++ bfs f queue)
      ∧ (done ++ bfs f queue).length = 1 + 2 * rootCount (done ++ bfs f queue)
      ∧ (∀ p, done.length ≤ p → p < (done ++ bfs f queue).length →
          p < 1 + 2 * rootCount ((done ++ bfs f queue).take p))
      ∧ (∀ p v l r, done.length ≤ p →
          (done ++ bfs f queue)[p]? = some (Tree.node v l r) →
          (done ++ bfs f queue)[1 + 2 * rootCount ((done ++ bfs f queue).take p)]? = some l
          ∧ (done ++ bfs f queue)[2 + 2 * rootCount ((done ++ bfs f queue).take p)]? = some r) := by
  induction f with
  | zero =>
    intro done queue hlen hw
    have hq : queue = [] := by
      cases queue with
      | nil => rfl
      | cons x q => simp [queueWeight] at hw
    subst hq
    simp only [bfs, List.append_nil] at hlen ⊢
    refine ⟨List.prefix_refl _, hlen, fun p h1 h2 => by omega, ?_⟩
    intro p v l r h1 h2
    have := (List.getElem?_eq_some_iff.mp h2).1
    omega
  | succ f ih =>
    intro done queue hlen hw
    cases queue with
    | nil =>
      simp only [bfs, List.append_nil] at hlen ⊢
      refine ⟨List.prefix_refl _, hlen, fun p h1 h2 => by omega, ?_⟩
      intro p v l r h1 h2
      have := (List.getElem?_eq_some_iff.mp h2).1
      omega
    | cons x rest =>
      have hS : done ++ bfs (f + 1) (x :: rest) = (done ++ [x]) ++ bfs f (rest ++ x.children) := by
        simp [bfs]
      have hlen' : ((done ++ [x]) ++ (rest ++ x.children)).length
          = 1 + 2 * rootCount (done ++ [x]) := by
        rw [rootCount_append, rootCount_single]
        simp only [List.length_append, List.length_cons, List.length_nil, children_length] at hlen ⊢
        split <;> omega
      have hw' : queueWeight (rest ++ x.children) ≤ f := by
        rw [queueWeight_append, queueWeight_children]
        simp only [queueWeight] at hw
        omega
      obtain ⟨hpre, hl, hlo, hch⟩ := ih (done ++ [x]) (rest ++ x.children) hlen' hw'
      rw [hS]
      -- the sequence starts with `done`, `x`, `rest` and the children of `x`
      have hpre2 : (done ++ x :: rest) ++ x.children <+: (done ++ [x]) ++ bfs f (rest ++ x.children) := by
        have e : (done ++ x :: rest) ++ x.children = (done ++ [x]) ++ (rest ++ x.children) := by
          simp
        rw [e]
        exact hpre
      have htake : ((done ++ [x]) ++ bfs f (rest ++ x.children)).take done.length = done := by
        rw [List.append_assoc, List.take_left']
        rfl
      have hx : ((done ++ [x]) ++ bfs f (rest ++ x.children))[done.length]? = some x := by
        rw [List.append_assoc, List.getElem?_append_right (Nat.le_refl _)]
        simp
      refine ⟨(List.prefix_append _ _).trans hpre2, hl, ?_, ?_⟩
      · intro p h1 h2
        rcases Nat.eq_or_lt_of_le h1 with h | h
        · rw [← h, htake]
          simp only [List.length_append, List.length_cons] at hlen
          omega
        · exact hlo p (by simp; omega) h2
      · intro p v l r h1 h2
        rcases Nat.eq_or_lt_of_le h1 with h | h
        · rw [← h] at h2 ⊢
          rw [htake]
          rw [hx] at h2
          injection h2 with h2
          subst h2
          obtain ⟨tail, htail⟩ := hpre2
          rw [← htail]
          have hL : (done ++ Tree.node v l r :: rest).length = 1 + 2 * rootCount done := hlen
          have e1 : 1 + 2 * rootCount done - (done ++ Tree.node v l r :: rest).length = 0 := by
            omega
          have e2 : 2 + 2 * rootCount done - (done ++ Tree.node v l r :: rest).length = 1 := by
            omega
          constructor
          · rw [List.append_assoc, List.getElem?_append_right (by omega), e1]
            rfl
          · rw [List.append_assoc, List.getElem?_append_right (by omega), e2]
            simp [Tree.children]
        · exact hch p v l r (by simp; omega) h2

theorem strip_decomp (full : List (Option Int)) :
    ∃ k, full = stripTrailingNulls full ++ List.replicate k none
      ∧ (stripTrailingNulls full).getLast? ≠ some none := by
  unfold stripTrailingNulls
  have h := List.takeWhile_append_dropWhile (fun t : Option Int => t.isNone) full.reverse
  refine ⟨(full.reverse.takeWhile (fun t => t.isNone)).length, ?_, ?_⟩
  · have hall : ∀ b ∈ full.reverse.takeWhile (fun t : Option Int => t.isNone), b = none := by
      intro b hb
      have := List.mem_takeWhile_imp hb
      cases b with
      | none => rfl
      | some v => simp at this
    have hrev : (full.reverse.takeWhile (fun t : Option Int => t.isNone)).reverse
        = List.replicate (full.reverse.takeWhile (fun t => t.isNone)).length none := by
      rw [List.eq_replicate_iff]
      exact ⟨List.length_reverse _, fun b hb => hall b (List.mem_reverse.mp hb)⟩
    have h2 := congrArg List.reverse h
    rw [List.reverse_append, List.reverse_reverse, hrev] at h2
    exact h2.symm
  · rw [List.getLast?_reverse]
    intro hc
    cases hd : full.reverse.dropWhile (fun t : Option Int => t.isNone) with
    | nil => rw [hd] at hc; simp at hc
    | cons x r =>
      rw [hd] at hc
      simp only [List.head?_cons, Option.some.injEq] at hc
      have := List.head_dropWhile_not (fun t : Option Int => t.isNone) full.reverse
        (by rw [hd]; simp)
      simp only [hd, List.head_cons, hc] at this
      simp at this

theorem tokAt_pad (a : List (Option Int)) (k q : Nat) :
    tokAt (a ++ List.replicate k none) q = tokAt a q := by
  unfold tokAt
  rcases Nat.lt_or_ge q a.length with h | h
  · rw [List.getElem?_append_left h]
  · rw [List.getElem?_append_right h, List.getElem?_eq_none h]
    rcases Nat.lt_or_ge (q - a.length) k with h2 | h2
    · rw [List.getElem?_replicate_of_lt h2]
      rfl
    · rw [List.getElem?_eq_none (by simpa using h2)]

theorem nodesBefore_pad (a : List (Option Int)) (k q : Nat) :
    nodesBefore (a ++ List.replicate k none) q = nodesBefore a q := by
  unfold nodesBefore
  rw [List.take_append_eq_append_take, List.countP_append]
  have : (List.take (q - a.length) (List.replicate k (none : Option Int))).countP Option.isSome
      = 0 := by
    rw [List.countP_eq_zero]
    intro x hx
    have := List.eq_of_mem_replicate (List.mem_of_mem_take hx)
    rw [this]
    simp
  rw [this, Nat.add_zero]

theorem ptrAt_pad (a : List (Option Int)) (k q : Nat) :
    ptrAt (a ++ List.replicate k none) q = ptrAt a q := by
  unfold ptrAt
  rw [tokAt_pad, nodesBefore_pad]

theorem nodesBefore_map_rootToken (S : List Tree) (q : Nat) :
    nodesBefore (S.map Tree.rootToken) q = rootCount (S.take q) := by
  unfold nodesBefore rootCount
  rw [List.map_take]

theorem tokAt_map_rootToken (S : List Tree) (q : Nat) (x : Tree) (h : S[q]? = some x) :
    tokAt (S.map Tree.rootToken) q = x.rootToken := by
  unfold tokAt
  rw [List.getElem?_map, h]
  rfl

/-- The encoder loop on a memory that holds the trees of the queue reads the root
tokens of the breadth-first sequence. -/
theorem levelOrderLoop_bfs (h : TreeHeap) (f : Nat) :
    ∀ (queue : List (Option Nat)) (F : List Tree) (out : List (Option Int)),
      List.Forall₂ (fun p x => represents h.cell p x = true) queue F →
      queueWeight F ≤ f →
      levelOrderLoop h f queue out = some (out ++ (bfs f F).map Tree.rootToken) := by
  induction f with
  | zero =>
    intro queue F out hrep hw
    have hF : F = [] := by
      cases F with
      | nil => rfl
      | cons x q => simp [queueWeight] at hw
    subst hF
    cases hrep
    simp [levelOrderLoop, bfs]
  | succ f ih =>
    intro queue F out hrep hw
    cases hrep with
    | nil => simp [levelOrderLoop, bfs]
    | @cons p x queue' F' hp hrest =>
      cases x with
      | nil =>
        cases p with
        | some j => simp [represents] at hp
        | none =>
          have hw' : queueWeight (F' ++ Tree.nil.children) ≤ f := by
            simp only [Tree.children, List.append_nil]
            simp only [queueWeight, Tree.size] at hw
            omega
          have := ih queue' (F' ++ Tree.nil.children) (out ++ [none])
            (by simpa [Tree.children] using hrest) hw'
          simp only [levelOrderLoop, bfs, this, List.map_cons, Tree.rootToken]
          simp
      | node v l r =>
        cases p with
        | none => simp [represents] at hp
        | some j =>
          simp only [represents, Bool.and_eq_true, decide_eq_true_eq] at hp
          obtain ⟨⟨hv, hl⟩, hr⟩ := hp
          have hw' : queueWeight (F' ++ (Tree.node v l r).children) ≤ f := by
            rw [queueWeight_append, queueWeight_children]
            simp only [queueWeight] at hw
            omega
          have hrep' : List.Forall₂ (fun p x => represents h.cell p x = true)
              (queue' ++ [(h.cell j).left, (h.cell j).right])
              (F' ++ (Tree.node v l r).children) := by
            apply List.rel_append hrest
            exact List.Forall₂.cons hl (List.Forall₂.cons hr List.Forall₂.nil)
          have := ih _ _ (out ++ [some (h.cell j).val]) hrep' hw'
          rw [hv] at this
          simp only [levelOrderLoop, bfs, List.map_cons, Tree.rootToken, hv, this]
          rw [List.append_assoc]
          rfl

theorem bfs_values (f : Nat) :
    ∀ (F : List Tree) (x : Tree), x ∈ bfs f F → ∀ v ∈ x.values, ∃ y ∈ F, v ∈ y.values := by
  induction f with
  | zero => intro F x hx; simp [bfs] at hx
  | succ f ih =>
    intro F x hx v hv
    cases F with
    | nil => simp [bfs] at hx
    | cons y rest =>
      simp only [bfs, List.mem_cons] at hx
      rcases hx with rfl | hx
      · exact ⟨x, List.mem_cons_self _ _, hv⟩
      · obtain ⟨z, hz, hvz⟩ := ih _ x hx v hv
        rw [List.mem_append] at hz
        rcases hz with hz | hz
        · exact ⟨z, List.mem_cons_of_mem _ hz, hvz⟩
        · refine ⟨y, List.mem_cons_self _ _, ?_⟩
          cases y with
          | nil => simp [Tree.children] at hz
          | node w l r =>
            simp only [Tree.children, List.mem_cons, List.mem_singleton, List.not_mem_nil,
              or_false] at hz
            simp only [Tree.values, List.mem_cons, List.mem_append]
            rcases hz with rfl | rfl
            · exact Or.inr (Or.inl hvz)
            · exact Or.inr (Or.inr hvz)

theorem rootToken_mem_values (x : Tree) (v : Int) (h : x.rootToken = some v) : v ∈ x.values := by
  cases x with
  | nil => cases h
  | node w l r =>
    simp only [Tree.rootToken, Option.some.injEq] at h
    subst h
    simp [Tree.values]

/-- The decoder on the parts of a level-order array: the root is at address `0` and
the node at address `j` is the one that the array describes. -/
theorem buildTree_cells {τ ε : Type} (isNull : τ → Bool) (mk : τ → Except ε Int)
    (parts : List τ) (first : τ) (a : List (Option Int)) (hT : TokensOf isNull mk parts a)
    (hfirst : parts[0]? = some first) (hlo : LevelOrder a) :
    ∃ t, buildTree isNull mk first parts = .ok t ∧ t.root = some 0
      ∧ t.heap.size = nodesBefore a a.length
      ∧ ∀ j, j < t.heap.size → t.heap.cell j = cellOf a j := by
  obtain ⟨hne, hlast, hwf⟩ := hlo
  have hpos : 0 < a.length := List.length_pos.mpr hne
  rcases hT.2 0 first hfirst with ⟨_, h0⟩ | ⟨_, v, hmk, h0⟩
  · exfalso
    by_cases h1 : 1 < a.length
    · have := hwf 1 h1
      have hs := nodesBefore_succ a 0
      rw [h0, nodesBefore_zero] at hs
      simp at hs
      omega
    · have hl : a.length = 1 := by omega
      apply hlast
      rw [List.getLast?_eq_getElem?, hl]
      have := tokAt_of_lt a 0 hpos
      rw [h0] at this
      simpa using this
  · have hs1 : nodesBefore a (1 + 2 * 0) = 1 := by
      have hs := nodesBefore_succ a 0
      rw [h0, nodesBefore_zero] at hs
      simpa using hs
    obtain ⟨H', hb, hsz, hc⟩ := buildLoop_spec isNull mk parts a hT hwf parts.length 0
      (TreeHeap.empty.alloc v) (by rw [hs1]; rfl) (Nat.zero_le _)
      (by
        intro j hj
        have hj0 : j = 0 := by
          have : (TreeHeap.empty.alloc v).size = 1 := rfl
          omega
        subst hj0
        simp only [Nat.lt_irrefl, if_false]
        have e : (TreeHeap.empty.alloc v).cell 0 = ⟨v, none, none⟩ := by
          simp [TreeHeap.alloc, TreeHeap.empty]
        have := val_nodesBefore a 0 v h0
        rw [nodesBefore_zero] at this
        rw [e, leafCell, this])
      (by rw [hT.1]; omega)
    refine ⟨⟨H', some 0⟩, ?_, rfl, hsz, hc⟩
    unfold buildTree
    have hq : List.range' 0 ((TreeHeap.empty.alloc v).size - 0) = [0] := rfl
    rw [hq] at hb
    simp only [Nat.mul_zero, Nat.add_zero] at hb
    simp only [hmk, hb]

/-- The level-order array of a tree describes the tree: whatever memory holds, at the
addresses below the number of nodes, the cells that the array describes, holds the
tree at address `0`. -/
theorem represents_treeTokens (t : Tree) (f : Nat) (hf : 2 * t.size + 1 ≤ f)
    (hne : t ≠ .nil) (cell : Nat → TreeCell)
    (hcell : ∀ j, j < nodesBefore (treeTokens f t) (treeTokens f t).length →
      cell j = cellOf (treeTokens f t) j) :
    LevelOrder (treeTokens f t) ∧ represents cell (some 0) t = true := by
  obtain ⟨hpre, hlen, hlo, hch⟩ := bfs_inv f [] [t] (by simp [rootCount])
    (by simp [queueWeight]; omega)
  simp only [List.nil_append, List.length_nil, Nat.zero_le, forall_const] at hpre hlen hlo hch
  obtain ⟨k, hfull, hlast⟩ := strip_decomp ((bfs f [t]).map Tree.rootToken)
  have htk : ∀ q, tokAt (treeTokens f t) q = tokAt ((bfs f [t]).map Tree.rootToken) q := by
    intro q
    rw [hfull, tokAt_pad]
    rfl
  have hnb : ∀ q, nodesBefore (treeTokens f t) q = rootCount ((bfs f [t]).take q) := by
    intro q
    rw [← nodesBefore_map_rootToken, hfull, nodesBefore_pad]
    rfl
  -- the root
  have h0 : (bfs f [t])[0]? = some t := by
    obtain ⟨tail, ht⟩ := hpre
    rw [← ht]
    simp
  have htok0 : tokAt (treeTokens f t) 0 = t.rootToken := by
    rw [htk, tokAt_map_rootToken _ 0 t h0]
  have hane : treeTokens f t ≠ [] := by
    intro he
    rw [he] at htok0
    cases t with
    | nil => exact hne rfl
    | node v l r => simp [tokAt, Tree.rootToken] at htok0
  have hLO : LevelOrder (treeTokens f t) := by
    refine ⟨hane, hlast, ?_⟩
    intro p hp
    have hp' : p < (bfs f [t]).length := by
      have := congrArg List.length hfull
      simp only [List.length_map, List.length_append, List.length_replicate] at this
      unfold treeTokens at hp
      omega
    have := hlo p hp'
    rw [hnb]
    omega
  refine ⟨hLO, ?_⟩
  -- every entry of the sequence is the tree at the address of its token
  have key : ∀ (x : Tree) (q : Nat), (bfs f [t])[q]? = some x →
      represents cell (ptrAt (treeTokens f t) q) x = true := by
    intro x
    induction x with
    | nil =>
      intro q hq
      have : tokAt (treeTokens f t) q = none := by
        rw [htk, tokAt_map_rootToken _ q _ hq]
        rfl
      rw [ptrAt_of_none _ _ this]
      rfl
    | node v l r ihl ihr =>
      intro q hq
      have htq : tokAt (treeTokens f t) q = some v := by
        rw [htk, tokAt_map_rootToken _ q _ hq]
        rfl
      rw [ptrAt_of_some _ _ v htq]
      have hj := nodesBefore_lt_of_some _ _ v htq
      obtain ⟨hl, hr⟩ := hch q v l r hq
      rw [← hnb] at hl hr
      have h1 := ihl _ hl
      have h2 := ihr _ hr
      simp only [represents, Bool.and_eq_true, decide_eq_true_eq]
      rw [hcell _ hj]
      refine ⟨⟨val_nodesBefore _ _ v htq, h1⟩, h2⟩
  have := key t 0 h0
  have hp0 : ptrAt (treeTokens f t) 0 = some 0 := by
    cases ht : t with
    | nil => exact absurd ht hne
    | node v l r =>
      rw [ht] at htok0
      rw [ptrAt_of_some _ _ v htok0, nodesBefore_zero]
  rw [hp0] at this
  exact this

theorem treeTokens_int32 (t : Tree) (f : Nat) (hint : ∀ v ∈ t.values, isInt32 v) :
    ∀ v, some v ∈ treeTokens f t → isInt32 v := by
  intro v hv
  obtain ⟨k, hfull, _⟩ := strip_decomp ((bfs f [t]).map Tree.rootToken)
  have hm : some v ∈ (bfs f [t]).map Tree.rootToken := by
    rw [hfull]
    exact List.mem_append_left _ hv
  obtain ⟨x, hx, hxv⟩ := List.mem_map.mp hm
  obtain ⟨y, hy, hvy⟩ := bfs_values f [t] x hx v (rootToken_mem_values x v hxv)
  simp only [List.mem_singleton] at hy
  subst hy
  exact hint v hvy

theorem levelOrderTokens_tree (h : TreeHeap) (r : Nat) (t : Tree)
    (hrep : represents h.cell (some r) t = true) (hsize : t.size ≤ h.size) :
    levelOrderTokens h r = some (treeTokens (2 * h.size + 1) t) := by
  unfold levelOrderTokens treeTokens
  rw [levelOrderLoop_bfs h (2 * h.size + 1) [some r] [t] []
    (List.Forall₂.cons hrep List.Forall₂.nil) (by simp [queueWeight]; omega)]
  rfl

theorem Java.java_parseTreeNode_cells (a : List (Option Int)) (hlo : LevelOrder a)
    (hint : ∀ v, some v ∈ a → isInt32 v) :
    ∃ t, Java.parseTreeNode (some (encTokens a)) = .ok t ∧ t.root = some 0
      ∧ t.heap.size = nodesBefore a a.length
      ∧ ∀ j, j < t.heap.size → t.heap.cell j = cellOf a j := by
  have hne : a ≠ [] := hlo.1
  obtain ⟨first, rest, hparts⟩ : ∃ first rest, a.map tokenText = first :: rest := by
    cases a with
    | nil => exact absurd rfl hne
    | cons x r => exact ⟨_, _, rfl⟩
  obtain ⟨t, hb, hroot, hsz, hc⟩ := buildTree_cells _ _ (a.map tokenText) first a
    (Java.java_tokensOf a hint) (by rw [hparts]; simp) hlo
  refine ⟨t, ?_, hroot, hsz, hc⟩
  unfold Java.parseTreeNode
  have h1 := encTokens_ne a hne
  simp only [h1.1, h1.2, or_self, if_false, Java.java_stripBrackets_encTokens]
  rw [if_neg (joinComma_ne_nil _ (by simpa using hne) (tokenTexts_nonempty a)),
    Java.split_joinComma a hne, hparts]
  rw [hparts] at hb
  exact hb

/-! ## The tree parameter of the Python driver -/

theorem skipWs_of_not_ws (c : Char) (r : Str) (h : isJsonWs c = false) :
    skipWs (c :: r) = c :: r := by
  rw [skipWs, h]
  rfl

theorem skipWs_space (r : Str) : skipWs (' ' :: r) = skipWs r := by
  have h : isJsonWs ' ' = true := by decide
  rw [skipWs, h]
  rfl

theorem Py.dumps_tokenValue (t : Option Int) : Py.dumps (Py.tokenValue t) = tokenText t := by
  cases t <;> rfl

theorem Py.dumpsItems_tokens (a : List (Option Int)) :
    Py.dumpsItems (a.map Py.tokenValue) = joinWith ", ".toList (a.map tokenText) := by
  induction a with
  | nil => rfl
  | cons x r ih =>
    cases r with
    | nil => simp [Py.dumpsItems, joinWith, Py.dumps_tokenValue]
    | cons y r' =>
      simp only [List.map_cons] at ih ⊢
      rw [Py.dumpsItems, joinWith, ih, Py.dumps_tokenValue]
      simp

/-- The first character of the text of a token. -/
theorem tokenText_head (t : Option Int) (l : Str) :
    ∃ d r, tokenText t ++ l = d :: r ∧ isJsonWs d = false ∧ d ≠ ']'
      ∧ (isDigit d = true ∨ d = '-' ∨ d = 'n') := by
  cases t with
  | none => exact ⟨'n', "ull".toList ++ l, rfl, by decide, by decide, Or.inr (Or.inr rfl)⟩
  | some v =>
    obtain ⟨d, r, h, hd⟩ := intToDec_head v l
    refine ⟨d, r, h, ?_, ?_, ?_⟩
    · rcases hd with hd | rfl
      · rcases char_cases_of_isDigit d hd with
          rfl | rfl | rfl | rfl | rfl | rfl | rfl | rfl | rfl | rfl <;> decide
      · decide
    · rcases hd with hd | rfl
      · rcases char_cases_of_isDigit d hd with
          rfl | rfl | rfl | rfl | rfl | rfl | rfl | rfl | rfl | rfl <;> decide
      · decide
    · rcases hd with hd | rfl
      · exact Or.inl hd
      · exact Or.inr (Or.inl rfl)

theorem Py.loadsInt_natToDec (n : Nat) (c : Char) (rest : Str) (hc : c = ',' ∨ c = ']') :
    Py.loadsInt (natToDec n ++ c :: rest) = some ((n : Int), c :: rest) := by
  obtain ⟨d, t, hdt, hd⟩ := natToDec_head_digit n (c :: rest)
  have hcd : isDigit c = false := isDigit_sep c hc
  have hspan := spanDigits_append (natToDec n) c rest (natToDec_allDigits n) hcd
  have hneg : ¬ ((natToDec n ++ c :: rest).head? = some '-') := by
    rw [hdt]
    simp only [List.head?_cons, Option.some.injEq]
    exact isDigit_ne_minus d hd
  have hcanon : ¬ (natToDec n = [] ∨ ((natToDec n).head? = some '0' ∧ 1 < (natToDec n).length)) := by
    rintro (h | ⟨h1, h2⟩)
    · exact natToDec_ne_nil n h
    · have := natToDec_head n h1
      subst this
      revert h2
      decide
  have hnext : ¬ ((c :: rest).head? = some '.' ∨ (c :: rest).head? = some 'e'
      ∨ (c :: rest).head? = some 'E') := by
    rcases hc with rfl | rfl <;> simp
  unfold Py.loadsInt
  simp only [hneg, decide_False, Bool.false_eq_true, if_false, hspan, hcanon, hnext]
  rw [digitsVal_natToDec]

theorem Py.loadsInt_neg (m : Nat) (c : Char) (rest : Str) (hc : c = ',' ∨ c = ']') :
    Py.loadsInt ('-' :: natToDec (m + 1) ++ c :: rest) = some (Int.negSucc m, c :: rest) := by
  have hcd : isDigit c = false := isDigit_sep c hc
  have hspan := spanDigits_append (natToDec (m + 1)) c rest (natToDec_allDigits _) hcd
  have hcanon : ¬ (natToDec (m + 1) = []
      ∨ ((natToDec (m + 1)).head? = some '0' ∧ 1 < (natToDec (m + 1)).length)) := by
    rintro (h | ⟨h1, _⟩)
    · exact natToDec_ne_nil _ h
    · have := natToDec_head _ h1
      omega
  have hnext : ¬ ((c :: rest).head? = some '.' ∨ (c :: rest).head? = some 'e'
      ∨ (c :: rest).head? = some 'E') := by
    rcases hc with rfl | rfl <;> simp
  unfold Py.loadsInt
  have hhead : ('-' :: natToDec (m + 1) ++ c :: rest).head? = some '-' := rfl
  have hdrop : ('-' :: natToDec (m + 1) ++ c :: rest).drop 1 = natToDec (m + 1) ++ c :: rest := rfl
  simp only [hhead, decide_True, if_true, hdrop, hspan, hcanon, hnext, if_false]
  rw [digitsVal_natToDec]
  rfl

theorem Py.loadsItem_token (t : Option Int) (c : Char) (rest : Str) (hc : c = ',' ∨ c = ']') :
    Py.loadsItem (tokenText t ++ c :: rest) = some (t, c :: rest) := by
  cases t with
  | none => rfl
  | some v =>
    have hnull : "null".toList.isPrefixOf (tokenText (some v) ++ c :: rest) = false := by
      obtain ⟨d, r, h, hd⟩ := intToDec_head v (c :: rest)
      show "null".toList.isPrefixOf (intToDec v ++ c :: rest) = false
      rw [h]
      have hdn : d ≠ 'n' := by
        rcases hd with hd | rfl
        · rcases char_cases_of_isDigit d hd with
            rfl | rfl | rfl | rfl | rfl | rfl | rfl | rfl | rfl | rfl <;> decide
        · decide
      have e : "null".toList = 'n' :: "ull".toList := rfl
      rw [e, List.isPrefixOf]
      have : ('n' == d) = false := by
        simpa using Ne.symm hdn
      rw [this]
      rfl
    unfold Py.loadsItem
    rw [hnull]
    simp only [Bool.false_eq_true, if_false]
    cases v with
    | ofNat n =>
      show Option.map _ (Py.loadsInt (natToDec n ++ c :: rest)) = _
      rw [Py.loadsInt_natToDec n c rest hc]
      rfl
    | negSucc m =>
      show Option.map _ (Py.loadsInt ('-' :: natToDec (m + 1) ++ c :: rest)) = _
      rw [Py.loadsInt_neg m c rest hc]
      rfl

theorem Py.loadsItems_tokens (xs : List (Option Int)) :
    ∀ (x : Option Int) (f : Nat) (rest : Str), xs.length + 1 ≤ f →
      Py.loadsItems f (joinWith ", ".toList ((x :: xs).map tokenText) ++ ']' :: rest)
        = some (x :: xs, rest) := by
  induction xs with
  | nil =>
    intro x f rest hf
    obtain ⟨f', rfl⟩ : ∃ f', f = f' + 1 := ⟨f - 1, by omega⟩
    have e : joinWith ", ".toList ([x].map tokenText) ++ ']' :: rest
        = tokenText x ++ ']' :: rest := rfl
    rw [e, Py.loadsItems, Py.loadsItem_token x ']' rest (Or.inr rfl)]
    simp only
    rw [skipWs_of_not_ws ']' rest (by decide)]
    simp
  | cons y ys ih =>
    intro x f rest hf
    obtain ⟨f', rfl⟩ : ∃ f', f = f' + 1 := ⟨f - 1, by simp at hf; omega⟩
    have e : joinWith ", ".toList ((x :: y :: ys).map tokenText) ++ ']' :: rest
        = tokenText x ++ ',' :: (' ' ::
            (joinWith ", ".toList ((y :: ys).map tokenText) ++ ']' :: rest)) := by
      simp [joinWith]
    rw [e, Py.loadsItems, Py.loadsItem_token x ',' _ (Or.inl rfl)]
    simp only
    rw [skipWs_of_not_ws ',' _ (by decide)]
    have hcomma : ¬ (',' = ']') := by decide
    simp only [hcomma, if_false, if_true]
    rw [skipWs_space]
    have hhead : skipWs (joinWith ", ".toList ((y :: ys).map tokenText) ++ ']' :: rest)
        = joinWith ", ".toList ((y :: ys).map tokenText) ++ ']' :: rest := by
      cases ys with
      | nil =>
        obtain ⟨d, r, h, hws, _⟩ := tokenText_head y (']' :: rest)
        have e2 : joinWith ", ".toList ([y].map tokenText) ++ ']' :: rest
            = tokenText y ++ ']' :: rest := rfl
        rw [e2, h]
        exact skipWs_of_not_ws d r hws
      | cons z zs =>
        obtain ⟨d, r, h, hws, _⟩ := tokenText_head y
          (", ".toList ++ joinWith ", ".toList ((z :: zs).map tokenText) ++ ']' :: rest)
        have e2 : joinWith ", ".toList ((y :: z :: zs).map tokenText) ++ ']' :: rest
            = tokenText y ++ (", ".toList ++ joinWith ", ".toList ((z :: zs).map tokenText)
                ++ ']' :: rest) := by
          simp [joinWith]
        rw [e2, h]
        exact skipWs_of_not_ws d r hws
    rw [hhead, ih y f' rest (by simp at hf ⊢; omega)]
    rfl

theorem Py.loadsTokens_dumps (a : List (Option Int)) (hne : a ≠ []) :
    Py.loadsTokens (Py.dumps (.list (a.map Py.tokenValue))) = some a := by
  cases a with
  | nil => exact absurd rfl hne
  | cons x xs =>
    have e : Py.dumps (.list ((x :: xs).map Py.tokenValue))
        = '[' :: (joinWith ", ".toList ((x :: xs).map tokenText) ++ [']']) := by
      rw [Py.dumps, Py.dumpsItems_tokens]
      rfl
    obtain ⟨d, r, h, hws, hnb, _⟩ : ∃ d r,
        joinWith ", ".toList ((x :: xs).map tokenText) ++ [']'] = d :: r
          ∧ isJsonWs d = false ∧ d ≠ ']' ∧ True := by
      cases xs with
      | nil =>
        obtain ⟨d, r, h, hws, hnb, _⟩ := tokenText_head x [']']
        exact ⟨d, r, h, hws, hnb, trivial⟩
      | cons z zs =>
        obtain ⟨d, r, h, hws, hnb, _⟩ := tokenText_head x
          (", ".toList ++ joinWith ", ".toList ((z :: zs).map tokenText) ++ [']'])
        refine ⟨d, r, ?_, hws, hnb, trivial⟩
        rw [← h]
        simp [joinWith]
    have hlen : xs.length + 1 ≤ (Py.dumps (.list ((x :: xs).map Py.tokenValue))).length := by
      rw [e]
      have : ∀ (l : List (Option Int)) (y : Option Int),
          l.length + 1 ≤ (joinWith ", ".toList ((y :: l).map tokenText)).length := by
        intro l
        induction l with
        | nil =>
          intro y
          have := tokenText_ne_nil y
          have hl : 0 < (tokenText y).length := List.length_pos.mpr this
          simpa [joinWith] using hl
        | cons z zs ih =>
          intro y
          have := ih z
          have hsep : ", ".toList.length = 2 := rfl
          simp only [List.map_cons, joinWith, List.length_append, List.length_cons, hsep] at this ⊢
          omega
      have := this xs x
      simp only [List.length_cons, List.length_append]
      omega
    have hitems := Py.loadsItems_tokens xs x
      (Py.dumps (.list ((x :: xs).map Py.tokenValue))).length [] hlen
    unfold Py.loadsTokens
    rw [e] at hitems ⊢
    rw [skipWs_of_not_ws '[' _ (by decide)]
    simp only [if_true]
    rw [h, skipWs_of_not_ws d r hws]
    simp only [hnb, if_false]
    rw [← h, hitems]
    rfl

theorem Py.tokensOf_values (a : List (Option Int)) :
    TokensOf (fun v : Option Int => v.isNone) Py.tokenInt a a := by
  refine ⟨rfl, ?_⟩
  intro q part hq
  have htok : tokAt a q = part := by simp [tokAt, hq]
  cases part with
  | none => exact Or.inl ⟨rfl, htok⟩
  | some v => exact Or.inr ⟨rfl, v, rfl, htok⟩

theorem Py.parseTreeParam_cells (a : List (Option Int)) (hlo : LevelOrder a) :
    ∃ t, Py.parseTreeParam (Py.dumps (.list (a.map Py.tokenValue))) = some t
      ∧ t.root = some 0 ∧ t.heap.size = nodesBefore a a.length
      ∧ ∀ j, j < t.heap.size → t.heap.cell j = cellOf a j := by
  have hne : a ≠ [] := hlo.1
  obtain ⟨first, rest, ha⟩ : ∃ first rest, a = first :: rest := by
    cases a with
    | nil => exact absurd rfl hne
    | cons x r => exact ⟨_, _, rfl⟩
  obtain ⟨t, hb, hroot, hsz, hc⟩ := buildTree_cells _ _ a first a
    (Py.tokensOf_values a) (by rw [ha]; simp) hlo
  refine ⟨t, ?_, hroot, hsz, hc⟩
  have hshape : ∃ r, Py.dumps (.list (a.map Py.tokenValue)) = '[' :: r := ⟨_, rfl⟩
  obtain ⟨r, hr⟩ := hshape
  have hguard : ¬ (Py.dumps (.list (a.map Py.tokenValue)) = []
      ∨ Py.dumps (.list (a.map Py.tokenValue)) = "null".toList
      ∨ Py.dumps (.list (a.map Py.tokenValue)) = "\x7b\x7d".toList) := by
    rw [hr]
    rintro (h | h | h)
    · cases h
    · have := congrArg List.head? h
      simp only [List.head?_cons, Option.some.injEq] at this
      revert this
      decide
    · have := congrArg List.head? h
      simp only [List.head?_cons, Option.some.injEq] at this
      revert this
      decide
  unfold Py.parseTreeParam
  rw [if_neg hguard, Py.loadsTokens_dumps a hne]
  rw [ha] at hb ⊢
  simp only [hb]

/-- C25: the tree encoder followed by the tree decoder gives the tree back.  For every
finite binary tree `t` whose node values are 32-bit integers, held by the reference
`root` in a memory with at least as many objects as `t` has nodes: encoding it in
level order with the trailing nulls removed (`treeNodeToString` in Java,
`serialize_result` in Python) and decoding the text (`parseTreeNode` in Java,
`parse_param` in Python) returns a reference that is `t` again, node for node; the
null reference comes back as null. -/
theorem tree_encode_decode (t : Tree) (h : TreeHeap) (root : Option Nat)
    (hrep : represents h.cell root t = true) (hsize : t.size ≤ h.size)
    (hint : ∀ v ∈ t.values, isInt32 v) :
    (∃ decoded, Java.encodeDecodeTree ⟨h, root⟩ = some decoded
        ∧ represents decoded.heap.cell decoded.root t = true)
    ∧ (∃ decoded, Py.encodeDecodeTree ⟨h, root⟩ = some decoded
        ∧ represents decoded.heap.cell decoded.root t = true) := by
  cases root with
  | none =>
    cases t with
    | node v l r => simp [represents] at hrep
    | nil =>
      exact ⟨⟨⟨TreeHeap.empty, none⟩, by rfl, by rfl⟩, ⟨⟨TreeHeap.empty, none⟩, by rfl, by rfl⟩⟩
  | some r =>
    have hne : t ≠ .nil := by
      rintro rfl
      simp [represents] at hrep
    have htok := levelOrderTokens_tree h r t hrep hsize
    have hf : 2 * t.size + 1 ≤ 2 * h.size + 1 := by omega
    have hlo : LevelOrder (treeTokens (2 * h.size + 1) t) :=
      (represents_treeTokens t _ hf hne (cellOf (treeTokens (2 * h.size + 1) t))
        (fun _ _ => rfl)).1
    have hi := treeTokens_int32 t (2 * h.size + 1) hint
    refine ⟨?_, ?_⟩
    · obtain ⟨d, hd, hroot, hsz, hc⟩ := Java.java_parseTreeNode_cells _ hlo hi
      refine ⟨d, ?_, ?_⟩
      · unfold Java.encodeDecodeTree Java.treeNodeToString
        simp only [htok, Option.map_some', Java.removeSpaces_listToString, hd]
      · rw [hroot]
        exact (represents_treeTokens t _ hf hne d.heap.cell (by rw [← hsz]; exact hc)).2
    · obtain ⟨d, hd, hroot, hsz, hc⟩ := Py.parseTreeParam_cells _ hlo
      refine ⟨d, ?_, ?_⟩
      · have htype : endsWithBrackets "TreeNode".toList = false := by decide
        unfold Py.encodeDecodeTree
        simp only [Py.serialize_result, htype, Bool.false_eq_true, if_false, htok,
          Option.map_some', hd]
      · rw [hroot]
        exact (represents_treeTokens t _ hf hne d.heap.cell (by rw [← hsz]; exact hc)).2

/-- Witness for C25: the tree `[1,null,2,3]`, held at scattered addresses. -/
theorem tree_encode_decode_witness :
    represents sampleTreeHeap.cell (some 2) sampleTree = true
    ∧ Java.treeNodeToString ⟨sampleTreeHeap, some 2⟩ = some "[1,null,2,3]".toList
    ∧ (∃ decoded, Java.encodeDecodeTree ⟨sampleTreeHeap, some 2⟩ = some decoded
        ∧ represents decoded.heap.cell decoded.root sampleTree = true)
    ∧ (∃ decoded, Py.encodeDecodeTree ⟨sampleTreeHeap, some 2⟩ = some decoded
        ∧ represents decoded.heap.cell decoded.root sampleTree = true) := by
  have h := tree_encode_decode sampleTree sampleTreeHeap (some 2) (by decide) (by decide)
    (by
      intro v hv
      simp only [sampleTree, Tree.values, List.mem_cons, List.mem_append, List.not_mem_nil,
        or_false, false_or] at hv
      rcases hv with rfl | rfl | rfl <;> decide)
  exact ⟨by decide, by decide, h.1, h.2⟩

/-! ## The C++ formatter for a tree result -/

set_option maxRecDepth 100000 in
/-- The statements that `generateOutputFormatting` emits for the return type `TreeNode`
contain a `return;` without a value, and the text that `generateCppCode` puts before the
parameter parsing and these statements opens the function `int main()`. -/
theorem Cpp.treeFormatter_return :
    ∃ text, generateOutputFormatting "TreeNode".toList = .ok text
      ∧ includes text "return;".toList = true
      ∧ includes Cpp.template1 "int main() \x7b".toList = true :=
  ⟨_, rfl, by decide, by decide!⟩

end CPH
